import Mathlib

/-!
# comms_champion: `comms::field::basic::Optional` and `ProtocolBase`

A shallow embedding of

* `comms/include/comms/field/basic/Optional.h` (the tri-state optional field), and
* `lib/comms_champion/include/comms_champion/ProtocolBase.h` (the stream
  reassembly engine `readImpl`, and `writeImpl`, `updateMessageImpl`,
  `cloneMessageImpl` and `createMessageImpl`),

followed by theorems about them.  Definitions come first, theorems after.
-/

namespace comms

/-- Modelled from the spec: `comms/ErrorStatus.h` is not among the sources.  The
spec lists `Success`, `NotEnoughData`, `InvalidMsgData`, `UpdateRequired`,
`MsgAllocFailure` and a generic protocol/framing error (here `ProtocolError`). -/
inductive ErrorStatus where
  | Success
  | UpdateRequired
  | NotEnoughData
  | ProtocolError
  | InvalidMsgData
  | MsgAllocFailure
  deriving DecidableEq

/-- Modelled from the spec: `comms/field/OptionalMode.h` is not among the
sources.  The spec gives the three presence states of an optional field. -/
inductive OptionalMode where
  | Tentative
  | Exists
  | Missing
  deriving DecidableEq

/-- The operations `Optional<TField>` uses of its template parameter `TField`.
`F` is the type of the inner field object, `I` the read iterator type and `O`
the write iterator type (both are template parameters `TIter` in the source).
`read` is a non-const member taking the iterator by reference: it returns the
status, the field after the call and the iterator after the call.  `write` is a
const member: it returns the status and the iterator after the call. -/
structure FieldOps (F I O : Type) where
  read : F → I → Nat → ErrorStatus × F × I
  write : F → O → Nat → ErrorStatus × O
  length : F → Nat
  valid : F → Bool
  minLength : Nat
  maxLength : Nat

/-- The data members of `Optional<TField>`: `field_` and `mode_`. -/
structure Optional (F : Type) where
  field_ : F
  mode_ : OptionalMode
  deriving DecidableEq

namespace Optional

variable {F I O : Type}

/-- The default constructor: `field_` default-constructed, `mode_ = Mode::Tentative`. -/
def default (f0 : F) : Optional F :=
  { field_ := f0, mode_ := OptionalMode.Tentative }

/-- Source: `Optional::getMode`. -/
def getMode (o : Optional F) : OptionalMode :=
  o.mode_

/-- Source: `Optional::setMode`. -/
def setMode (o : Optional F) (val : OptionalMode) : Optional F :=
  { o with mode_ := val }

/-- Source: `Optional::length`. -/
def length (ops : FieldOps F I O) (o : Optional F) : Nat :=
  if o.mode_ ≠ OptionalMode.Exists then 0 else ops.length o.field_

/-- Source: `Optional::minLength`. -/
def minLength (ops : FieldOps F I O) : Nat :=
  ops.minLength

/-- Source: `Optional::maxLength`. -/
def maxLength (ops : FieldOps F I O) : Nat :=
  ops.maxLength

/-- Source: `Optional::valid`. -/
def valid (ops : FieldOps F I O) (o : Optional F) : Bool :=
  if o.mode_ = OptionalMode.Missing then true else ops.valid o.field_

/-- Source: `Optional::read`.  Returns the status, the object after the call and
the iterator after the call. -/
def read (ops : FieldOps F I O) (o : Optional F) (iter : I) (len : Nat) :
    ErrorStatus × Optional F × I :=
  if o.mode_ = OptionalMode.Missing then
    (ErrorStatus.Success, o, iter)
  else if o.mode_ = OptionalMode.Tentative ∧ 0 = len then
    (ErrorStatus.Success, { o with mode_ := OptionalMode.Missing }, iter)
  else
    let r := ops.read o.field_ iter len
    if r.1 = ErrorStatus.Success then
      (r.1, { field_ := r.2.1, mode_ := OptionalMode.Exists }, r.2.2)
    else
      (r.1, { field_ := r.2.1, mode_ := o.mode_ }, r.2.2)

/-- Source: `Optional::write`.  The member is `const`, so the object after the
call is the object before it; it is returned so that frame properties can be
stated.  Returns the status, the object after the call and the iterator after
the call. -/
def write (ops : FieldOps F I O) (o : Optional F) (iter : O) (len : Nat) :
    ErrorStatus × Optional F × O :=
  if o.mode_ = OptionalMode.Missing then
    (ErrorStatus.Success, o, iter)
  else if o.mode_ = OptionalMode.Tentative ∧ 0 = len then
    (ErrorStatus.Success, o, iter)
  else
    let r := ops.write o.field_ iter len
    (r.1, o, r.2)

end Optional

/-- A one-byte field used to instantiate the theorems: its value is a byte, the
read iterator is the list of bytes still to be read and the write iterator is
the list of bytes written so far.  A value of 255 is taken to be invalid. -/
def byteField : FieldOps (Fin 256) (List (Fin 256)) (List (Fin 256)) where
  read := fun f iter len =>
    match iter, len with
    | b :: rest, _ + 1 => (ErrorStatus.Success, b, rest)
    | _, _ => (ErrorStatus.NotEnoughData, f, iter)
  write := fun f iter len =>
    if 1 ≤ len then (ErrorStatus.Success, iter ++ [f]) else (ErrorStatus.ProtocolError, iter)
  length := fun _ => 1
  valid := fun f => decide (f ≠ 255)
  minLength := 1
  maxLength := 1

/-- A field that occupies no byte on the wire (such as an empty string or list),
used to instantiate the theorems: reading and writing succeed without moving
the iterator. -/
def emptyField : FieldOps Unit (List (Fin 256)) (List (Fin 256)) where
  read := fun f iter _ => (ErrorStatus.Success, f, iter)
  write := fun _ iter _ => (ErrorStatus.Success, iter)
  length := fun _ => 0
  valid := fun _ => true
  minLength := 0
  maxLength := 0

/-- The write-then-read round trip of an inner field whose iterators run over
byte lists: what a successful `write` emits into an empty buffer, read back by
any field object of the same type from exactly those bytes, succeeds, leaves no
byte unread and yields the written field. -/
def RoundTrip {F : Type} (ops : FieldOps F (List (Fin 256)) (List (Fin 256))) : Prop :=
  ∀ (f f0 : F) (len : Nat) (w : List (Fin 256)),
    ops.write f [] len = (ErrorStatus.Success, w) →
    ops.read f0 w w.length = (ErrorStatus.Success, f, [])

/-- One call of `read` or of `write` on an `Optional`, with the iterator and the
available length it is given. -/
inductive OptionalCall (I O : Type) where
  | read (iter : I) (len : Nat)
  | write (iter : O) (len : Nat)

/-- The object after a sequence of `read` and `write` calls, with no `setMode`
among them. -/
def Optional.afterCalls {F I O : Type} (ops : FieldOps F I O) :
    Optional F → List (OptionalCall I O) → Optional F
  | o, [] => o
  | o, OptionalCall.read iter len :: rest =>
    Optional.afterCalls ops (Optional.read ops o iter len).2.1 rest
  | o, OptionalCall.write iter len :: rest =>
    Optional.afterCalls ops (Optional.write ops o iter len).2.1 rest

end comms

namespace comms_champion

open comms (ErrorStatus)

/-- One `std::uint8_t`. -/
abbrev Byte := Fin 256

/-- The `QVariantMap` of free-form extra properties handed in with a chunk. -/
abbrev ExtraProps := List (String × String)

/-- Modelled from the spec: `DataInfo` is declared in a header that is not among
the sources.  The ingestion call receives an opaque byte sequence (`m_data`) and
optional free-form metadata (`m_extraProperties`); the timestamp is not used by
`readImpl`. -/
structure DataInfo where
  m_data : List Byte
  m_extraProperties : ExtraProps
  deriving DecidableEq

/-- What a `MessagePtr` in the returned list points to: the message object the
protocol stack produced (`M` is the type of the values of `ProtocolStack::MsgPtr`)
or a freshly built `InvalidMsg`. -/
inductive MsgObject (M : Type) where
  | protocol (msgPtr : M)
  | invalid
  deriving DecidableEq

/-- Modelled from the spec: `Message.h` and the property helpers of `Protocol.h`
are not among the sources.  A returned message handle is the message object
together with the side annotations `readImpl` attaches to it: the transport
decode (`setTransportToMessageProperties`, kept as the bytes `TransportMsg` was
read from), the raw data (`setRawDataToMessageProperties`, the bytes `RawDataMsg`
was read from) and the extra info (`setExtraInfoToMessageProperties` together
with the extra-info side message built from the same map).  The name property
(`setNameToMessageProperties`) is set on every returned message alike and is
left out. -/
structure MsgEntry (M : Type) where
  msg : MsgObject M
  transport : Option (List Byte)
  rawData : List Byte
  extraInfo : Option ExtraProps
  deriving DecidableEq

/-- What one call of `m_protStack.read(msgPtr, readIterCur, remainingSize)`
leaves behind: the returned status, the value of `msgPtr`, and how far
`readIterCur` was moved (`std::distance(readIterBeg, readIterCur)`). -/
structure ReadResult (M : Type) where
  es : ErrorStatus
  msgPtr : M
  consumed : Nat
  deriving DecidableEq

/-- The part of the template parameter `TProtStack` that `readImpl` uses.  `S` is
the type of the stack object (it may carry state), `M` the type of its message
pointers.  `read` receives the stack object and the `remainingSize` bytes that
start at the read iterator, and returns the result and the stack object after
the call. -/
structure ProtocolStack (S M : Type) where
  read : S → List Byte → ReadResult M × S

/-- The data members of `ProtocolBase`: `m_protStack`, `m_data`, `m_garbage`. -/
structure ProtocolBase (S : Type) where
  m_protStack : S
  m_data : List Byte
  m_garbage : List Byte
  deriving DecidableEq

/-- The state `readImpl` works on: the data members and the locals `readIterBeg`
(kept as an offset into `m_data`) and `allMsgs`. -/
structure ReadState (S M : Type) where
  m_protStack : S
  m_data : List Byte
  m_garbage : List Byte
  readIterBeg : Nat
  allMsgs : List (MsgEntry M)
  deriving DecidableEq

/-- How one pass through the body of `while (true)` ends: `continue` (or falling
off the end of the body) or `break`. -/
inductive LoopStep (S M : Type) where
  | next (s : ReadState S M)
  | stop (s : ReadState S M)
  deriving DecidableEq

namespace ProtocolBase

variable {S M : Type}

/-- Source: `static const std::size_t GarbageLimit = 512;`. -/
def GarbageLimit : Nat := 512

/-- The freshly constructed object: default stack, empty `m_data` and `m_garbage`. -/
def init (stack0 : S) : ProtocolBase S :=
  { m_protStack := stack0, m_data := [], m_garbage := [] }

/-- Source: the lambda `remainingSizeCalc`. -/
def remainingSizeCalc (s : ReadState S M) (readIter : Nat) : Nat :=
  let consumed := readIter
  s.m_data.length - consumed

/-- Source: the lambda `setExtraInfoFunc`. -/
def setExtraInfoFunc (dataInfo : DataInfo) (msg : MsgEntry M) : MsgEntry M :=
  if dataInfo.m_extraProperties.isEmpty then msg
  else { msg with extraInfo := some dataInfo.m_extraProperties }

/-- Source: the lambda `checkGarbageFunc`. -/
def checkGarbageFunc (dataInfo : DataInfo) (s : ReadState S M) : ReadState S M :=
  if ¬ s.m_garbage.isEmpty then
    let invalidMsg : MsgEntry M :=
      { msg := MsgObject.invalid, transport := none, rawData := s.m_garbage, extraInfo := none }
    { s with allMsgs := s.allMsgs ++ [setExtraInfoFunc dataInfo invalidMsg], m_garbage := [] }
  else s

/-- Source: the lambda `setExtrasFunc`, applied to the message `msgPtr` points to;
`readIterBeg` is its by-value capture and `readIterCur` the iterator after the
stack's read. -/
def setExtrasFunc (dataInfo : DataInfo) (m_data : List Byte) (readIterBeg readIterCur : Nat)
    (msgPtr : MsgObject M) : MsgEntry M :=
  let dataSize := readIterCur - readIterBeg
  let span := (m_data.drop readIterBeg).take dataSize
  setExtraInfoFunc dataInfo
    { msg := msgPtr, transport := some span, rawData := span, extraInfo := none }

/-- Source: the body of the `while (true)` loop of `readImpl`. -/
def loopStep (stack : ProtocolStack S M) (dataInfo : DataInfo) (s : ReadState S M) :
    LoopStep S M :=
  let remainingSize := remainingSizeCalc s s.readIterBeg
  if hrem : remainingSize = 0 then LoopStep.stop s
  else
    let r := stack.read s.m_protStack (s.m_data.drop s.readIterBeg)
    let es := r.1.es
    let readIterCur := s.readIterBeg + r.1.consumed
    let s1 : ReadState S M := { s with m_protStack := r.2 }
    if es = ErrorStatus.NotEnoughData then LoopStep.stop s1
    else if es = ErrorStatus.Success then
      let s2 := checkGarbageFunc dataInfo s1
      let m := setExtrasFunc dataInfo s2.m_data s.readIterBeg readIterCur
        (MsgObject.protocol r.1.msgPtr)
      LoopStep.next { s2 with readIterBeg := readIterCur, allMsgs := s2.allMsgs ++ [m] }
    else if es = ErrorStatus.InvalidMsgData then
      let s2 := checkGarbageFunc dataInfo s1
      let m := setExtrasFunc dataInfo s2.m_data s.readIterBeg readIterCur MsgObject.invalid
      LoopStep.next { s2 with readIterBeg := readIterCur, allMsgs := s2.allMsgs ++ [m] }
    else if es = ErrorStatus.MsgAllocFailure then LoopStep.stop s1
    else
      have hlt : s.readIterBeg < s.m_data.length := by
        simp only [remainingSize, remainingSizeCalc] at hrem
        omega
      let s2 : ReadState S M := { s1 with m_garbage := s1.m_garbage ++ [s.m_data[s.readIterBeg]] }
      let s3 := if GarbageLimit ≤ s2.m_garbage.length then checkGarbageFunc dataInfo s2 else s2
      LoopStep.next { s3 with readIterBeg := s3.readIterBeg + 1 }

/-- The `while (true)` loop of `readImpl`, run for at most `fuel` passes through
its body; `none` when the loop has not left by then. -/
def readLoop (stack : ProtocolStack S M) (dataInfo : DataInfo) :
    Nat → ReadState S M → Option (ReadState S M)
  | 0, _ => none
  | fuel + 1, s =>
    match loopStep stack dataInfo s with
    | LoopStep.stop s1 => some s1
    | LoopStep.next s1 => readLoop stack dataInfo fuel s1

/-- Source: the `if (final)` block at the end of `readImpl`. -/
def finalFlush (dataInfo : DataInfo) (s : ReadState S M) : ReadState S M :=
  let consumed := s.readIterBeg
  let remDataCount := s.m_data.length - consumed
  let s1 : ReadState S M :=
    { s with m_garbage := s.m_garbage ++ s.m_data.drop consumed,
             readIterBeg := s.readIterBeg + remDataCount }
  checkGarbageFunc dataInfo s1

/-- Source: the scope guard `eraseGuard`, run when `readImpl` returns: the bytes
before `readIterBeg` are erased from `m_data`. -/
def eraseGuard (s : ReadState S M) : ProtocolBase S :=
  let dist := s.readIterBeg
  { m_protStack := s.m_protStack, m_data := s.m_data.drop dist, m_garbage := s.m_garbage }

/-- The state `readImpl` starts its loop in: the chunk is appended to `m_data`,
`readIterBeg` points at its first byte and `allMsgs` is empty. -/
def readStart (self : ProtocolBase S) (dataInfo : DataInfo) : ReadState S M :=
  { m_protStack := self.m_protStack, m_data := self.m_data ++ dataInfo.m_data,
    m_garbage := self.m_garbage, readIterBeg := 0, allMsgs := [] }

/-- Source: `ProtocolBase::readImpl`.  Returns the list `allMsgs` and the object
after the call; `none` when the loop has not left within `fuel` passes. -/
def readImpl (fuel : Nat) (stack : ProtocolStack S M) (self : ProtocolBase S)
    (dataInfo : DataInfo) (final : Bool) : Option (List (MsgEntry M) × ProtocolBase S) :=
  match readLoop stack dataInfo fuel (readStart self dataInfo) with
  | none => none
  | some s1 =>
    let s2 := if final then finalFlush dataInfo s1 else s1
    some (s2.allMsgs, eraseGuard s2)

/-- A sequence of ingestion calls on one object, each with its chunk and its
`final` flag; the returned lists are concatenated in call order. -/
def readAll (fuel : Nat) (stack : ProtocolStack S M) :
    ProtocolBase S → List (DataInfo × Bool) → Option (List (MsgEntry M) × ProtocolBase S)
  | self, [] => some ([], self)
  | self, (dataInfo, final) :: rest =>
    match readImpl fuel stack self dataInfo final with
    | none => none
    | some (msgs, self1) =>
      match readAll fuel stack self1 rest with
      | none => none
      | some (msgs2, self2) => some (msgs ++ msgs2, self2)

/-- The state in which pass number `k` (counted from 0) through the loop body
starts; `none` when the loop is left before that pass. -/
def passStart (stack : ProtocolStack S M) (dataInfo : DataInfo) :
    Nat → ReadState S M → Option (ReadState S M)
  | 0, s => some s
  | k + 1, s =>
    match loopStep stack dataInfo s with
    | LoopStep.stop _ => none
    | LoopStep.next s1 => passStart stack dataInfo k s1

/-- The statuses for which the loop body reaches its last part (the comment
`// Protocol error`): everything but `Success`, `NotEnoughData`, `InvalidMsgData`
and `MsgAllocFailure`. -/
def ResyncStatus (es : ErrorStatus) : Prop :=
  es ≠ ErrorStatus.Success ∧ es ≠ ErrorStatus.NotEnoughData ∧
    es ≠ ErrorStatus.InvalidMsgData ∧ es ≠ ErrorStatus.MsgAllocFailure

/-- The invalid message `checkGarbageFunc` builds from the garbage bytes `g`. -/
def garbageMsg (dataInfo : DataInfo) (g : List Byte) : MsgEntry M :=
  setExtraInfoFunc dataInfo
    { msg := MsgObject.invalid, transport := none, rawData := g, extraInfo := none }

/-- Every message of the list that was synthesized from the garbage buffer (an
invalid message without transport annotation) wraps at most `GarbageLimit` bytes. -/
def GarbageBounded (msgs : List (MsgEntry M)) : Prop :=
  ∀ m ∈ msgs, m.transport = none → m.rawData.length ≤ GarbageLimit

/-- The stack's read is deterministic: its result does not depend on the state
of the stack object. -/
def Deterministic (stack : ProtocolStack S M) : Prop :=
  ∀ (st1 st2 : S) (d : List Byte), (stack.read st1 d).1 = (stack.read st2 d).1

/-- Once the stack's read result on the bytes at an offset is not
`NotEnoughData`, it is the same for every longer available length. -/
def StableOnceDecided (stack : ProtocolStack S M) : Prop :=
  ∀ (st : S) (d e : List Byte), (stack.read st d).1.es ≠ ErrorStatus.NotEnoughData →
    (stack.read st (d ++ e)).1 = (stack.read st d).1

/-- A `Success` or `InvalidMsgData` read does not move the read iterator past
the bytes it was given. -/
def InBounds (stack : ProtocolStack S M) : Prop :=
  ∀ (st : S) (d : List Byte),
    ((stack.read st d).1.es = ErrorStatus.Success ∨
      (stack.read st d).1.es = ErrorStatus.InvalidMsgData) →
    (stack.read st d).1.consumed ≤ d.length

/-- The ingestion calls that hand in the chunks of a splitting one by one, all
with the same extra properties, the final flag set on the last chunk only. -/
def chunkCalls (extra : ExtraProps) : List (List Byte) → List (DataInfo × Bool)
  | [] => []
  | [c] => [(⟨c, extra⟩, true)]
  | c :: c2 :: rest => (⟨c, extra⟩, false) :: chunkCalls extra (c2 :: rest)

/-- What a caller sees of the outcome of calls: the returned messages and the two
buffers, not the state of the stack object. -/
def observe (r : Option (List (MsgEntry M) × ProtocolBase S)) :
    Option (List (MsgEntry M) × List Byte × List Byte) :=
  r.map (fun x => (x.1, x.2.m_data, x.2.m_garbage))

/-- The state a pass through the loop body ends in. -/
def stepState : LoopStep S M → ReadState S M
  | LoopStep.next s => s
  | LoopStep.stop s => s

/-- The bytes of `m_data` from `readIterBeg` on: what no message wraps yet. -/
def unresolved (s : ReadState S M) : List Byte :=
  s.m_data.drop s.readIterBeg

/-- The raw bytes wrapped by a list of returned messages, in order. -/
def rawBytes (msgs : List (MsgEntry M)) : List Byte :=
  (msgs.map (fun m => m.rawData)).flatten

/-- The bytes a state accounts for: those wrapped by the messages of `allMsgs`,
then the garbage buffer, then the bytes of `m_data` from `readIterBeg` on. -/
def pending (s : ReadState S M) : List Byte :=
  rawBytes s.allMsgs ++ s.m_garbage ++ unresolved s

/-- State `t` is state `s` with the bytes `R` appended to the unresolved bytes and
the messages `pre` put in front of the message list; the stack objects and the
resolved part of `m_data` are not compared. -/
def ExtRel (R : List Byte) (pre : List (MsgEntry M)) (s t : ReadState S M) : Prop :=
  unresolved t = unresolved s ++ R ∧ t.m_garbage = s.m_garbage ∧ t.allMsgs = pre ++ s.allMsgs

/-- The message `setExtrasFunc` builds for the object `p` and the consumed span. -/
def spanMsg (dataInfo : DataInfo) (p : MsgObject M) (span : List Byte) : MsgEntry M :=
  setExtraInfoFunc dataInfo
    { msg := p, transport := some span, rawData := span, extraInfo := none }

/-- One pass through the loop body, seen through the unresolved bytes `u` (not
empty), the garbage buffer `g` and the result `r` of the stack's read on `u`:
`none` when the pass ends in `break`, else the unresolved bytes and the garbage
buffer after the pass and the messages the pass appends.  Used to compare runs
of the loop; `loopStep_view` ties it to `loopStep`. -/
def viewStep (dataInfo : DataInfo) (r : ReadResult M) (g u : List Byte) :
    Option (List Byte × List Byte × List (MsgEntry M)) :=
  if r.es = ErrorStatus.NotEnoughData then none
  else if r.es = ErrorStatus.Success then
    some (u.drop r.consumed, [],
      (if g = [] then [] else [garbageMsg dataInfo g]) ++
        [spanMsg dataInfo (MsgObject.protocol r.msgPtr) (u.take r.consumed)])
  else if r.es = ErrorStatus.InvalidMsgData then
    some (u.drop r.consumed, [],
      (if g = [] then [] else [garbageMsg dataInfo g]) ++
        [spanMsg dataInfo MsgObject.invalid (u.take r.consumed)])
  else if r.es = ErrorStatus.MsgAllocFailure then none
  else if GarbageLimit ≤ g.length + 1 then
    some (u.drop 1, [], [garbageMsg dataInfo (g ++ u.take 1)])
  else
    some (u.drop 1, g ++ u.take 1, [])

/-- The bytes handed in by a sequence of ingestion calls, in order. -/
def ingested (calls : List (DataInfo × Bool)) : List Byte :=
  (calls.map (fun c => c.1.m_data)).flatten

/-- Every `Success` and `InvalidMsgData` result of the stack's read on a non-empty
input moves the read iterator by at least one byte. -/
def Progress (stack : ProtocolStack S M) : Prop :=
  ∀ (st : S) (d : List Byte), d ≠ [] →
    ((stack.read st d).1.es = ErrorStatus.Success ∨
      (stack.read st d).1.es = ErrorStatus.InvalidMsgData) →
    1 ≤ (stack.read st d).1.consumed

end ProtocolBase

/-- A small length-prefixed framing stack used to instantiate the theorems.  A
first byte of 128 or more is not a frame start (`ProtocolError`), a first byte
of 0 is a recognised but invalid frame of one byte (`InvalidMsgData`), any other
first byte `n` announces `n` payload bytes: `NotEnoughData` until they are all
there, then `Success` consuming `1 + n` bytes, the message being the payload.
The stack object counts the calls of `read`. -/
def frameStack : ProtocolStack Nat (List Byte) where
  read := fun calls d =>
    match d with
    | [] => ({ es := ErrorStatus.NotEnoughData, msgPtr := [], consumed := 0 }, calls + 1)
    | b :: rest =>
      if 128 ≤ b.val then
        ({ es := ErrorStatus.ProtocolError, msgPtr := [], consumed := 0 }, calls + 1)
      else if b.val = 0 then
        ({ es := ErrorStatus.InvalidMsgData, msgPtr := [], consumed := 1 }, calls + 1)
      else if rest.length < b.val then
        ({ es := ErrorStatus.NotEnoughData, msgPtr := [], consumed := 0 }, calls + 1)
      else
        ({ es := ErrorStatus.Success, msgPtr := rest.take b.val, consumed := 1 + b.val },
          calls + 1)

/-- A stack that recognises no frame start: every read is a protocol error. -/
def errorStack : ProtocolStack Unit Unit where
  read := fun _ _ => ({ es := ErrorStatus.ProtocolError, msgPtr := (), consumed := 0 }, ())

/-- A stack whose frames are longer than anything it is given: every read asks
for more data. -/
def stallStack : ProtocolStack Unit Unit where
  read := fun _ _ => ({ es := ErrorStatus.NotEnoughData, msgPtr := (), consumed := 0 }, ())

/-- Modelled from the spec: `Protocol::UpdateStatus` is declared in `Protocol.h`,
which is not among the sources.  `updateMessage` reports whether the message's
own refresh step changed a value. -/
inductive UpdateStatus where
  | NoChange
  | Changed
  deriving DecidableEq

/-- The part of the template parameter `TProtStack` that `writeImpl`,
`updateMessageImpl` and `cloneMessageImpl` use.  `S` is the type of the stack
object, `P` the type of the protocol message objects, `Id` the message id type.
`write` receives the stack object, the message and the available length, and
returns the status, the bytes pushed through the back inserter and the stack
object after the call; `update` receives the written bytes (`updateIter`,
`data.size()`) and returns the status, the bytes after the in-place fix-up and
the stack object; `createMsg` returns the new message, or `none` for a null
pointer. -/
structure WriteStack (S P Id : Type) where
  write : S → P → Nat → ErrorStatus × List Byte × S
  update : S → List Byte → ErrorStatus × List Byte × S
  createMsg : S → Id → Nat → Option P × S

/-- The virtual members of `Message` that `updateMessageImpl` and
`cloneMessageImpl` call (`refreshMsg`, `getId`, `assign`; they are declared in
headers that are not among the sources and taken as parameters), and the `read`
of a fresh `TTransportMsg` and of a fresh `TRawDataMsg` on the given bytes.
`assign` is called on the candidate with the source as argument and returns
whether it succeeded and the candidate after the call. -/
structure MessageOps (P Id : Type) where
  refreshMsg : P → Bool × P
  getId : P → Id
  assign : P → P → Bool × P
  transportRead : List Byte → ErrorStatus
  rawDataRead : List Byte → ErrorStatus

/-- Modelled from the spec: `Message.h` and the property helpers of `Protocol.h`
are not among the sources.  A message handed to `updateMessageImpl` is the
message object with its side annotations: the transport and raw-data properties
(kept as the bytes the sub-messages were read from, `none` when not set), the
extra-info map and the extra-info side message (kept as the map it was built
from, `none` for a null pointer). -/
structure MsgHandle (P : Type) where
  obj : P
  transport : Option (List Byte)
  rawData : Option (List Byte)
  extraInfo : ExtraProps
  extraInfoMsg : Option ExtraProps
  deriving DecidableEq

namespace ProtocolBase

variable {S M P Id : Type}

/-- Source: `ProtocolBase::writeImpl`.  `maxSize` is `data.max_size()`.  Returns
the `m_data` of the returned record (`none` for the empty `DataInfoPtr`; the
timestamp is left out) and the stack object after the call. -/
def writeImpl (stack : WriteStack S P Id) (maxSize : Nat) (st : S) (msg : P) :
    Option (List Byte) × S :=
  let w := stack.write st msg maxSize
  let r := if w.1 = ErrorStatus.UpdateRequired then stack.update w.2.2 w.2.1 else w
  if r.1 ≠ ErrorStatus.Success then (none, r.2.2)
  else (some r.2.1, r.2.2)

/-- Source: `ProtocolBase::updateMessageImpl`.  Returns the status, the message
after the call and the stack object after the call. -/
def updateMessageImpl (stack : WriteStack S P Id) (ops : MessageOps P Id) (maxSize : Nat)
    (st : S) (msg : MsgHandle P) : UpdateStatus × MsgHandle P × S :=
  let rf := ops.refreshMsg msg.obj
  let refreshed := rf.1
  let msg1 : MsgHandle P := { msg with obj := rf.2 }
  let w := stack.write st msg1.obj maxSize
  let r := if w.1 = ErrorStatus.UpdateRequired then stack.update w.2.2 w.2.1 else w
  let body : MsgHandle P × S :=
    if r.1 ≠ ErrorStatus.Success then (msg1, r.2.2)
    else if ops.transportRead r.2.1 ≠ ErrorStatus.Success then (msg1, r.2.2)
    else if ops.rawDataRead r.2.1 ≠ ErrorStatus.Success then (msg1, r.2.2)
    else
      let msg2 : MsgHandle P := { msg1 with transport := some r.2.1, rawData := some r.2.1 }
      let extraProps := msg2.extraInfo
      if extraProps.isEmpty then ({ msg2 with extraInfoMsg := none }, r.2.2)
      else ({ msg2 with extraInfoMsg := some extraProps }, r.2.2)
  (if refreshed then UpdateStatus.Changed else UpdateStatus.NoChange, body.1, body.2)

/-- The `while (true)` loop of `cloneMessageImpl`, run for at most `fuel` passes,
starting with the stack object `st` and the index `idx` (an `unsigned`, so `++idx`
wraps at `2 ^ 32`); `none` when the loop has not left by then, else the cloned
message (`none` for a null pointer) and the stack object. -/
def cloneLoop (stack : WriteStack S P Id) (ops : MessageOps P Id) (msg : P) :
    Nat → S → Nat → Option (Option P × S)
  | 0, _, _ => none
  | fuel + 1, st, idx =>
    let msgId := ops.getId msg
    let c := stack.createMsg st msgId idx
    match c.1 with
    | none => some (none, c.2)
    | some clonedMsg =>
      let a := ops.assign clonedMsg msg
      if a.1 then some (some a.2, c.2)
      else cloneLoop stack ops msg fuel c.2 ((idx + 1) % 2 ^ 32)

/-- Source: `ProtocolBase::cloneMessageImpl`. -/
def cloneMessageImpl (fuel : Nat) (stack : WriteStack S P Id) (ops : MessageOps P Id)
    (st : S) (msg : P) : Option (Option P × S) :=
  cloneLoop stack ops msg fuel st 0

/-- The stack object before the call `createMsg(msgId, i)` of the loop of
`cloneMessageImpl`, when the loop gets that far. -/
def cloneStackAt (stack : WriteStack S P Id) (msgId : Id) (st0 : S) : Nat → S
  | 0 => st0
  | i + 1 => (stack.createMsg (cloneStackAt stack msgId st0 i) msgId i).2

/-- The candidate `createMsg(msgId, i)` of the loop of `cloneMessageImpl`. -/
def cloneCandidate (stack : WriteStack S P Id) (msgId : Id) (st0 : S) (i : Nat) : Option P :=
  (stack.createMsg (cloneStackAt stack msgId st0 i) msgId i).1

/-- The stack `stack` with a stack object that also counts the calls of `write`
and of `update`. -/
def countCalls (stack : WriteStack S P Id) : WriteStack (S × Nat × Nat) P Id where
  write := fun st msg len =>
    ((stack.write st.1 msg len).1, (stack.write st.1 msg len).2.1,
      ((stack.write st.1 msg len).2.2, st.2.1 + 1, st.2.2))
  update := fun st data =>
    ((stack.update st.1 data).1, (stack.update st.1 data).2.1,
      ((stack.update st.1 data).2.2, st.2.1, st.2.2 + 1))
  createMsg := fun st msgId idx =>
    ((stack.createMsg st.1 msgId idx).1, ((stack.createMsg st.1 msgId idx).2, st.2.1, st.2.2))

/-- A message as `createMsg` hands it out: no property is set yet. -/
def freshMsg (obj : P) : MsgHandle P :=
  { obj := obj, transport := none, rawData := none, extraInfo := [], extraInfoMsg := none }

/-- Source: `ProtocolBase::createMessage`.  `updateMessage` is
`Protocol::updateMessage`, declared in `Protocol.h`, which is not among the
sources; it is taken as a parameter that receives the stack object and the
message and returns both after the call (its status is not used here).  Returns
the message (`none` for a null pointer) and the stack object after the call. -/
def createMessage (stack : WriteStack S P Id)
    (updateMessage : S → MsgHandle P → MsgHandle P × S) (st : S) (id : Id) (idx : Nat) :
    Option (MsgHandle P) × S :=
  let c := stack.createMsg st id idx
  match c.1 with
  | none => (none, c.2)
  | some obj =>
    let u := updateMessage c.2 (freshMsg obj)
    (some u.1, u.2)

/-- Source: `ProtocolBase::createMessageInternal` for `NumericIdTag`.  `toInt` is
`QString::toInt(&ok, base)`, with `none` for `ok == false`; `castId` is
`static_cast<MsgIdType>`. -/
def createMessageInternal (toInt : String → Nat → Option Int) (castId : Int → Id)
    (stack : WriteStack S P Id) (updateMessage : S → MsgHandle P → MsgHandle P × S)
    (st : S) (idAsString : String) (idx : Nat) : Option (MsgHandle P) × S :=
  match toInt idAsString 10 with
  | some numId => createMessage stack updateMessage st (castId numId) idx
  | none =>
    match toInt idAsString 16 with
    | some numId => createMessage stack updateMessage st (castId numId) idx
    | none => (none, st)

/-- Source: `ProtocolBase::createMessageImpl`; the id type is numeric (the
`static_assert` on `MsgIdTypeTag`), so the call goes to the `NumericIdTag`
overload. -/
def createMessageImpl (toInt : String → Nat → Option Int) (castId : Int → Id)
    (stack : WriteStack S P Id) (updateMessage : S → MsgHandle P → MsgHandle P × S)
    (st : S) (idAsString : String) (idx : Nat) : Option (MsgHandle P) × S :=
  createMessageInternal toInt castId stack updateMessage st idAsString idx

/-- The stack `stack` with a stack object that also counts the calls of
`createMsg`. -/
def countCreate (stack : WriteStack S P Id) : WriteStack (S × Nat) P Id where
  write := fun st msg len =>
    ((stack.write st.1 msg len).1, (stack.write st.1 msg len).2.1,
      ((stack.write st.1 msg len).2.2, st.2))
  update := fun st data =>
    ((stack.update st.1 data).1, (stack.update st.1 data).2.1,
      ((stack.update st.1 data).2.2, st.2))
  createMsg := fun st msgId idx =>
    ((stack.createMsg st.1 msgId idx).1, ((stack.createMsg st.1 msgId idx).2, st.2 + 1))

/-- The stack `stack` with a stack object that also counts the calls of `read`. -/
def countReads (stack : ProtocolStack S M) : ProtocolStack (S × Nat) M where
  read := fun st d => ((stack.read st.1 d).1, ((stack.read st.1 d).2, st.2 + 1))

end ProtocolBase

/-- A stand-in for `QString::toInt` used to instantiate the theorems: it knows
the decimal text "2" and the hexadecimal texts "2" and "1f". -/
def demoToInt (s : String) (base : Nat) : Option Int :=
  if s = "2" ∧ (base = 10 ∨ base = 16) then some 2
  else if s = "1f" ∧ base = 16 then some 31
  else none

/-- A small stack used to instantiate the theorems.  A message is a pair of a
shape and a value; `write` emits the two as bytes and asks for an update pass
when the value exceeds 100; `update` overwrites the first byte; `createMsg`
offers, for every id, the three shapes 0, 1, 2 in turn.  The stack object counts
the calls. -/
def demoStack : WriteStack Nat (Nat × Nat) Nat where
  write := fun st msg _ =>
    (if 100 < msg.2 then ErrorStatus.UpdateRequired else ErrorStatus.Success,
      [Fin.ofNat msg.1, Fin.ofNat msg.2], st + 1)
  update := fun st data =>
    (if data.length = 2 then ErrorStatus.Success else ErrorStatus.ProtocolError,
      (data.set 0 255), st + 1)
  createMsg := fun st _ idx => (if idx < 3 then some (idx, 0) else none, st + 1)

/-- The message operations for `demoStack`: `assign` succeeds when the shapes
agree and then copies the value; `refreshMsg` caps the value at 200 and reports
whether it did. -/
def demoOps : MessageOps (Nat × Nat) Nat where
  refreshMsg := fun m => if 200 < m.2 then (true, (m.1, 200)) else (false, m)
  getId := fun _ => 7
  assign := fun cand src => if cand.1 = src.1 then (true, (cand.1, src.2)) else (false, cand)
  transportRead := fun d => if d.length = 2 then ErrorStatus.Success else ErrorStatus.NotEnoughData
  rawDataRead := fun _ => ErrorStatus.Success

end comms_champion

/-! ## Theorems -/

namespace comms

namespace Optional

variable {F I O : Type}

/-- C3: `Optional::read` in Tentative mode with available length 0 returns
Success, sets the mode to Missing and leaves the cursor and the inner field
unchanged, whatever the inner field's operations are; in particular the result
does not depend on the inner field's `read`, which is not called. -/
theorem read_tentative_zero (ops : FieldOps F I O) (f : F) (iter : I) :
    read ops { field_ := f, mode_ := OptionalMode.Tentative } iter 0
        = (ErrorStatus.Success, { field_ := f, mode_ := OptionalMode.Missing }, iter)
      ∧ ∀ ops2 : FieldOps F I O,
          read ops2 { field_ := f, mode_ := OptionalMode.Tentative } iter 0
            = read ops { field_ := f, mode_ := OptionalMode.Tentative } iter 0 := by
  constructor
  · simp [read]
  · intro ops2
    simp [read]

/-- C4: when `Optional::read` delegates (mode Exists with any length, or mode
Tentative with a positive length), the returned status and the iterator after
the call are those of the inner field's `read` with the same arguments; on
Success the mode afterwards is Exists, on any other status it is the mode
before. -/
theorem read_delegates (ops : FieldOps F I O) (o : Optional F) (iter : I) (len : Nat)
    (h : o.mode_ = OptionalMode.Exists ∨ (o.mode_ = OptionalMode.Tentative ∧ 0 < len)) :
    (read ops o iter len).1 = (ops.read o.field_ iter len).1
      ∧ (read ops o iter len).2.2 = (ops.read o.field_ iter len).2.2
      ∧ (read ops o iter len).2.1.field_ = (ops.read o.field_ iter len).2.1
      ∧ ((ops.read o.field_ iter len).1 = ErrorStatus.Success →
            (read ops o iter len).2.1.mode_ = OptionalMode.Exists)
      ∧ ((ops.read o.field_ iter len).1 ≠ ErrorStatus.Success →
            (read ops o iter len).2.1.mode_ = o.mode_) := by
  have h1 : o.mode_ ≠ OptionalMode.Missing := by
    rcases h with h | ⟨h, _⟩ <;> simp [h]
  have h2 : ¬ (o.mode_ = OptionalMode.Tentative ∧ 0 = len) := by
    rcases h with h | ⟨_, h⟩
    · simp [h]
    · intro hc
      omega
  by_cases hs : (ops.read o.field_ iter len).1 = ErrorStatus.Success <;>
    simp [read, h1, h2, hs]

theorem read_delegates_witness :
    ((⟨7, OptionalMode.Tentative⟩ : Optional (Fin 256)).mode_ = OptionalMode.Exists
        ∨ ((⟨7, OptionalMode.Tentative⟩ : Optional (Fin 256)).mode_ = OptionalMode.Tentative
            ∧ 0 < 2))
      ∧ (read byteField ⟨7, OptionalMode.Tentative⟩ [9, 4] 2).1
          = (byteField.read 7 [9, 4] 2).1
      ∧ (read byteField ⟨7, OptionalMode.Tentative⟩ [9, 4] 2).2.2
          = (byteField.read 7 [9, 4] 2).2.2
      ∧ (read byteField ⟨7, OptionalMode.Tentative⟩ [9, 4] 2).2.1.field_
          = (byteField.read 7 [9, 4] 2).2.1
      ∧ ((byteField.read 7 [9, 4] 2).1 = ErrorStatus.Success →
            (read byteField ⟨7, OptionalMode.Tentative⟩ [9, 4] 2).2.1.mode_
              = OptionalMode.Exists)
      ∧ ((byteField.read 7 [9, 4] 2).1 ≠ ErrorStatus.Success →
            (read byteField ⟨7, OptionalMode.Tentative⟩ [9, 4] 2).2.1.mode_
              = (⟨7, OptionalMode.Tentative⟩ : Optional (Fin 256)).mode_) :=
  ⟨by decide, read_delegates byteField ⟨7, OptionalMode.Tentative⟩ [9, 4] 2 (by decide)⟩

/-- C5: an `Optional` in Missing mode is inert: for every available length,
`read` and `write` return Success and leave the iterator, the inner field and
the mode as they are, whatever the inner field's operations are (they are not
called), and `length()` is 0. -/
theorem missing_inert (ops : FieldOps F I O) (f : F) (iter : I) (out : O) (len : Nat) :
    read ops { field_ := f, mode_ := OptionalMode.Missing } iter len
        = (ErrorStatus.Success, { field_ := f, mode_ := OptionalMode.Missing }, iter)
      ∧ write ops { field_ := f, mode_ := OptionalMode.Missing } out len
        = (ErrorStatus.Success, { field_ := f, mode_ := OptionalMode.Missing }, out)
      ∧ length ops { field_ := f, mode_ := OptionalMode.Missing } = 0
      ∧ ∀ ops2 : FieldOps F I O,
          read ops2 { field_ := f, mode_ := OptionalMode.Missing } iter len
              = read ops { field_ := f, mode_ := OptionalMode.Missing } iter len
            ∧ write ops2 { field_ := f, mode_ := OptionalMode.Missing } out len
              = write ops { field_ := f, mode_ := OptionalMode.Missing } out len := by
  refine ⟨by simp [read], by simp [write], by simp [length], ?_⟩
  intro ops2
  simp [read, write]

/-- C6: `Optional::write` returns Success without moving the output iterator
when the mode is Missing or the mode is Tentative and the available length is 0;
in every other case its status and the iterator after the call are those of the
inner field's `write` with the same arguments; it never changes the object, in
particular not the mode. -/
theorem write_cases (ops : FieldOps F I O) (o : Optional F) (out : O) (len : Nat) :
    ((o.mode_ = OptionalMode.Missing ∨ (o.mode_ = OptionalMode.Tentative ∧ len = 0)) →
        (write ops o out len).1 = ErrorStatus.Success ∧ (write ops o out len).2.2 = out)
      ∧ (¬ (o.mode_ = OptionalMode.Missing ∨ (o.mode_ = OptionalMode.Tentative ∧ len = 0)) →
        (write ops o out len).1 = (ops.write o.field_ out len).1
          ∧ (write ops o out len).2.2 = (ops.write o.field_ out len).2)
      ∧ (write ops o out len).2.1 = o
      ∧ (write ops o out len).2.1.mode_ = o.mode_ := by
  refine ⟨?_, ?_, ?_, ?_⟩
  · intro h
    rcases h with h | ⟨h, h0⟩
    · simp [write, h]
    · subst h0
      simp [write, h]
  · intro h
    have h1 : o.mode_ ≠ OptionalMode.Missing := fun hc => h (Or.inl hc)
    have h2 : ¬ (o.mode_ = OptionalMode.Tentative ∧ 0 = len) :=
      fun hc => h (Or.inr ⟨hc.1, hc.2.symm⟩)
    simp [write, h1, h2]
  · unfold write
    split_ifs <;> rfl
  · unfold write
    split_ifs <;> rfl

/-- C7: `Optional::valid()` is true in mode Missing whatever the inner field
holds; in modes Exists and Tentative it is the inner field's `valid()`. -/
theorem valid_cases (ops : FieldOps F I O) (f : F) :
    valid ops { field_ := f, mode_ := OptionalMode.Missing } = true
      ∧ valid ops { field_ := f, mode_ := OptionalMode.Exists } = ops.valid f
      ∧ valid ops { field_ := f, mode_ := OptionalMode.Tentative } = ops.valid f := by
  simp [valid]

end Optional

end comms

namespace comms_champion

namespace ProtocolBase

open comms (ErrorStatus)

variable {S M : Type}

/-! ### Basic facts about the helpers of `readImpl` -/

theorem rawBytes_nil : rawBytes ([] : List (MsgEntry M)) = [] := rfl

theorem rawBytes_append (xs ys : List (MsgEntry M)) :
    rawBytes (xs ++ ys) = rawBytes xs ++ rawBytes ys := by
  simp [rawBytes]

theorem rawBytes_singleton (m : MsgEntry M) : rawBytes [m] = m.rawData := by
  simp [rawBytes]

theorem setExtraInfoFunc_rawData (dataInfo : DataInfo) (m : MsgEntry M) :
    (setExtraInfoFunc dataInfo m).rawData = m.rawData := by
  unfold setExtraInfoFunc
  split <;> rfl

theorem setExtraInfoFunc_msg (dataInfo : DataInfo) (m : MsgEntry M) :
    (setExtraInfoFunc dataInfo m).msg = m.msg := by
  unfold setExtraInfoFunc
  split <;> rfl

theorem setExtrasFunc_rawData (dataInfo : DataInfo) (d : List Byte) (b c : Nat)
    (p : MsgObject M) :
    (setExtrasFunc dataInfo d b c p).rawData = (d.drop b).take (c - b) := by
  simp [setExtrasFunc, setExtraInfoFunc_rawData]

theorem checkGarbageFunc_m_data (dataInfo : DataInfo) (s : ReadState S M) :
    (checkGarbageFunc dataInfo s).m_data = s.m_data := by
  unfold checkGarbageFunc
  split <;> rfl

theorem checkGarbageFunc_readIterBeg (dataInfo : DataInfo) (s : ReadState S M) :
    (checkGarbageFunc dataInfo s).readIterBeg = s.readIterBeg := by
  unfold checkGarbageFunc
  split <;> rfl

theorem checkGarbageFunc_m_protStack (dataInfo : DataInfo) (s : ReadState S M) :
    (checkGarbageFunc dataInfo s).m_protStack = s.m_protStack := by
  unfold checkGarbageFunc
  split <;> rfl

theorem checkGarbageFunc_m_garbage (dataInfo : DataInfo) (s : ReadState S M) :
    (checkGarbageFunc dataInfo s).m_garbage = [] := by
  unfold checkGarbageFunc
  split
  · rfl
  · rename_i h
    simpa using h

theorem checkGarbageFunc_rawBytes (dataInfo : DataInfo) (s : ReadState S M) :
    rawBytes (checkGarbageFunc dataInfo s).allMsgs = rawBytes s.allMsgs ++ s.m_garbage := by
  unfold checkGarbageFunc
  split
  · simp [rawBytes_append, rawBytes_singleton, setExtraInfoFunc_rawData]
  · rename_i h
    have : s.m_garbage = [] := by simpa using h
    simp [this]

/-! ### One pass through the loop body -/

theorem loopStep_nil (stack : ProtocolStack S M) (dataInfo : DataInfo) (s : ReadState S M)
    (h : unresolved s = []) : loopStep stack dataInfo s = LoopStep.stop s := by
  have hlen : s.m_data.length ≤ s.readIterBeg := by
    simpa [unresolved] using h
  have : remainingSizeCalc s s.readIterBeg = 0 := by
    simp only [remainingSizeCalc]
    omega
  simp [loopStep, this]

theorem loopStep_cons (stack : ProtocolStack S M) (dataInfo : DataInfo) (s : ReadState S M)
    (b : Byte) (rest : List Byte) (h : unresolved s = b :: rest) :
    loopStep stack dataInfo s =
      (let r := stack.read s.m_protStack (b :: rest)
       let s1 : ReadState S M := { s with m_protStack := r.2 }
       if r.1.es = ErrorStatus.NotEnoughData then LoopStep.stop s1
       else if r.1.es = ErrorStatus.Success then
         let s2 := checkGarbageFunc dataInfo s1
         LoopStep.next { s2 with
           readIterBeg := s.readIterBeg + r.1.consumed,
           allMsgs := s2.allMsgs ++ [setExtrasFunc dataInfo s2.m_data s.readIterBeg
             (s.readIterBeg + r.1.consumed) (MsgObject.protocol r.1.msgPtr)] }
       else if r.1.es = ErrorStatus.InvalidMsgData then
         let s2 := checkGarbageFunc dataInfo s1
         LoopStep.next { s2 with
           readIterBeg := s.readIterBeg + r.1.consumed,
           allMsgs := s2.allMsgs ++ [setExtrasFunc dataInfo s2.m_data s.readIterBeg
             (s.readIterBeg + r.1.consumed) MsgObject.invalid] }
       else if r.1.es = ErrorStatus.MsgAllocFailure then LoopStep.stop s1
       else
         let s2 : ReadState S M := { s1 with m_garbage := s1.m_garbage ++ [b] }
         let s3 := if GarbageLimit ≤ s2.m_garbage.length then checkGarbageFunc dataInfo s2 else s2
         LoopStep.next { s3 with readIterBeg := s3.readIterBeg + 1 }) := by
  have hlt : s.readIterBeg < s.m_data.length := by
    by_contra hc
    have : unresolved s = [] := by
      simp only [unresolved, List.drop_eq_nil_iff]
      omega
    rw [this] at h
    cases h
  have hb : s.m_data[s.readIterBeg] = b := by
    have h2 := List.drop_eq_getElem_cons hlt
    simp only [unresolved] at h
    rw [h2] at h
    exact (List.cons.inj h).1
  have hrem : remainingSizeCalc s s.readIterBeg ≠ 0 := by
    simp only [remainingSizeCalc]
    omega
  have hu : s.m_data.drop s.readIterBeg = b :: rest := h
  simp only [loopStep, hrem, dite_false, hu, hb]

theorem unresolved_advance (s : ReadState S M) (b : Byte) (rest : List Byte)
    (h : unresolved s = b :: rest) : s.m_data.drop (s.readIterBeg + 1) = rest := by
  have : s.m_data.drop (s.readIterBeg + 1) = (s.m_data.drop s.readIterBeg).drop 1 := by
    rw [List.drop_drop, Nat.add_comm]
  rw [this]
  simp only [unresolved] at h
  rw [h]
  rfl

theorem span_append_drop (d : List Byte) (c k : Nat) :
    (d.drop c).take (c + k - c) ++ d.drop (c + k) = d.drop c := by
  have h1 : c + k - c = k := by omega
  have h2 : d.drop (c + k) = (d.drop c).drop k := by
    rw [List.drop_drop, Nat.add_comm]
  rw [h1, h2, List.take_append_drop]

/-- One pass through the loop body neither loses nor invents a byte, and leaves
`m_data` as it is. -/
theorem loopStep_pending (stack : ProtocolStack S M) (dataInfo : DataInfo) (s : ReadState S M) :
    pending (stepState (loopStep stack dataInfo s)) = pending s
      ∧ (stepState (loopStep stack dataInfo s)).m_data = s.m_data := by
  cases hu : unresolved s with
  | nil => rw [loopStep_nil stack dataInfo s hu]; exact ⟨rfl, rfl⟩
  | cons b rest =>
    rw [loopStep_cons stack dataInfo s b rest hu]
    have hadv := unresolved_advance s b rest hu
    simp only [unresolved] at hu
    simp only []
    split
    · simp [stepState, pending, unresolved]
    · split
      · simp only [stepState, pending, unresolved, rawBytes_append, rawBytes_singleton,
          setExtrasFunc_rawData, checkGarbageFunc_rawBytes, checkGarbageFunc_m_garbage,
          checkGarbageFunc_m_data, List.append_nil, List.append_assoc, span_append_drop,
          and_self]
      · split
        · simp only [stepState, pending, unresolved, rawBytes_append, rawBytes_singleton,
            setExtrasFunc_rawData, checkGarbageFunc_rawBytes, checkGarbageFunc_m_garbage,
            checkGarbageFunc_m_data, List.append_nil, List.append_assoc, span_append_drop,
            and_self]
        · split
          · simp [stepState, pending, unresolved]
          · split
            · simp only [stepState, pending, unresolved, checkGarbageFunc_rawBytes,
                checkGarbageFunc_m_garbage, checkGarbageFunc_m_data,
                checkGarbageFunc_readIterBeg, hadv, hu, List.append_nil, List.append_assoc,
                List.singleton_append, and_self]
            · simp only [stepState, pending, unresolved, hadv, hu, List.append_assoc,
                List.singleton_append, and_self]

/-! ### The loop -/

/-- A property kept by every pass through the loop body holds when the loop is left. -/
theorem readLoop_invariant (stack : ProtocolStack S M) (dataInfo : DataInfo)
    (inv : ReadState S M → Prop)
    (hstep : ∀ s, inv s → inv (stepState (loopStep stack dataInfo s))) :
    ∀ (fuel : Nat) (s s1 : ReadState S M), inv s →
      readLoop stack dataInfo fuel s = some s1 → inv s1 := by
  intro fuel
  induction fuel with
  | zero => intro s s1 _ h; simp [readLoop] at h
  | succ n ih =>
    intro s s1 hs h
    have hnext := hstep s hs
    simp only [readLoop] at h
    cases hl : loopStep stack dataInfo s with
    | stop s2 =>
      rw [hl] at h hnext
      simp only [Option.some.injEq] at h
      subst h
      exact hnext
    | next s2 =>
      rw [hl] at h hnext
      exact ih s2 s1 hnext h

theorem readLoop_pending (stack : ProtocolStack S M) (dataInfo : DataInfo) (fuel : Nat)
    (s s1 : ReadState S M) (h : readLoop stack dataInfo fuel s = some s1) :
    pending s1 = pending s ∧ s1.m_data = s.m_data := by
  refine readLoop_invariant stack dataInfo
    (fun t => pending t = pending s ∧ t.m_data = s.m_data) ?_ fuel s s1 ⟨rfl, rfl⟩ h
  intro t ht
  have := loopStep_pending stack dataInfo t
  exact ⟨this.1.trans ht.1, this.2.trans ht.2⟩

/-- With a stack that makes progress, a pass that continues the loop leaves
fewer unresolved bytes than it found. -/
theorem loopStep_next_decreases (stack : ProtocolStack S M) (hprog : Progress stack)
    (dataInfo : DataInfo) (s s1 : ReadState S M)
    (h : loopStep stack dataInfo s = LoopStep.next s1) :
    s1.m_data.length - s1.readIterBeg < s.m_data.length - s.readIterBeg := by
  cases hu : unresolved s with
  | nil => rw [loopStep_nil stack dataInfo s hu] at h; cases h
  | cons b rest =>
    rw [loopStep_cons stack dataInfo s b rest hu] at h
    have hlen : s.readIterBeg < s.m_data.length := by
      by_contra hc
      have : unresolved s = [] := by
        simp only [unresolved, List.drop_eq_nil_iff]
        omega
      rw [this] at hu
      cases hu
    have hp := hprog s.m_protStack (b :: rest) (by simp)
    simp only [] at h
    split at h
    · cases h
    · split at h
      · rename_i hs
        have hk := hp (Or.inl hs)
        simp only [LoopStep.next.injEq] at h
        subst h
        simp only [checkGarbageFunc_m_data]
        omega
      · split at h
        · rename_i hs
          have hk := hp (Or.inr hs)
          simp only [LoopStep.next.injEq] at h
          subst h
          simp only [checkGarbageFunc_m_data]
          omega
        · split at h
          · cases h
          · simp only [LoopStep.next.injEq] at h
            subst h
            split
            · simp only [checkGarbageFunc_m_data, checkGarbageFunc_readIterBeg]
              omega
            · simp only []
              omega

/-- With a stack that makes progress the loop is left after at most one pass
per unresolved byte, plus one. -/
theorem readLoop_terminates (stack : ProtocolStack S M) (hprog : Progress stack)
    (dataInfo : DataInfo) :
    ∀ (fuel : Nat) (s : ReadState S M), s.m_data.length - s.readIterBeg < fuel →
      ∃ s1, readLoop stack dataInfo fuel s = some s1 := by
  intro fuel
  induction fuel with
  | zero => intro s h; omega
  | succ n ih =>
    intro s h
    simp only [readLoop]
    cases hl : loopStep stack dataInfo s with
    | stop s2 => exact ⟨s2, rfl⟩
    | next s2 =>
      have := loopStep_next_decreases stack hprog dataInfo s s2 hl
      exact ih s2 (by omega)

/-- More fuel does not change the state a loop that was left is left in. -/
theorem readLoop_mono (stack : ProtocolStack S M) (dataInfo : DataInfo) :
    ∀ (n m : Nat) (s s1 : ReadState S M), n ≤ m →
      readLoop stack dataInfo n s = some s1 → readLoop stack dataInfo m s = some s1 := by
  intro n
  induction n with
  | zero => intro m s s1 _ h; simp [readLoop] at h
  | succ n ih =>
    intro m s s1 hnm h
    cases m with
    | zero => omega
    | succ m =>
      simp only [readLoop] at h ⊢
      cases hl : loopStep stack dataInfo s with
      | stop s2 => rw [hl] at h; exact h
      | next s2 =>
        rw [hl] at h
        exact ih m s2 s1 (by omega) h

/-! ### The final flush, one call, a sequence of calls -/

theorem finalFlush_m_garbage (dataInfo : DataInfo) (s : ReadState S M) :
    (finalFlush dataInfo s).m_garbage = [] := by
  simp [finalFlush, checkGarbageFunc_m_garbage]

theorem finalFlush_unresolved (dataInfo : DataInfo) (s : ReadState S M) :
    unresolved (finalFlush dataInfo s) = [] := by
  simp only [unresolved, finalFlush, checkGarbageFunc_m_data, checkGarbageFunc_readIterBeg,
    List.drop_eq_nil_iff]
  omega

theorem finalFlush_rawBytes (dataInfo : DataInfo) (s : ReadState S M) :
    rawBytes (finalFlush dataInfo s).allMsgs = pending s := by
  simp [finalFlush, checkGarbageFunc_rawBytes, pending, unresolved]

/-- What one call accounts for: the bytes wrapped by the returned messages, then
the garbage buffer and the accumulation buffer after the call, are the garbage
buffer and the accumulation buffer before the call followed by the chunk; after
a final call both buffers are empty. -/
theorem readImpl_accounts (fuel : Nat) (stack : ProtocolStack S M) (self self1 : ProtocolBase S)
    (dataInfo : DataInfo) (final : Bool) (msgs : List (MsgEntry M))
    (h : readImpl fuel stack self dataInfo final = some (msgs, self1)) :
    rawBytes msgs ++ self1.m_garbage ++ self1.m_data
        = self.m_garbage ++ self.m_data ++ dataInfo.m_data
      ∧ (final = true → self1.m_garbage = [] ∧ self1.m_data = []) := by
  simp only [readImpl] at h
  cases hl : readLoop stack dataInfo fuel (readStart self dataInfo) with
  | none => rw [hl] at h; cases h
  | some s1 =>
    rw [hl] at h
    have hp := (readLoop_pending stack dataInfo fuel _ s1 hl).1
    have hstart : pending (readStart self dataInfo : ReadState S M)
        = self.m_garbage ++ self.m_data ++ dataInfo.m_data := by
      simp [pending, readStart, unresolved, rawBytes]
    rw [hstart] at hp
    simp only [Option.some.injEq, Prod.mk.injEq] at h
    obtain ⟨hm, hs⟩ := h
    subst hm hs
    cases final with
    | false =>
      simp only [Bool.false_eq_true, if_false, eraseGuard, false_implies, and_true]
      rw [← hp]
      simp [pending, unresolved]
    | true =>
      have h1 := finalFlush_m_garbage dataInfo s1
      have h2 := finalFlush_unresolved dataInfo s1
      have h3 := finalFlush_rawBytes dataInfo s1
      simp only [unresolved] at h2
      simp only [if_true, eraseGuard, h1, h2, h3, hp, List.append_nil, true_implies, and_self]

/-- The accumulation buffer after a call is a tail of the buffer before it
followed by the chunk. -/
theorem readImpl_m_data_le (fuel : Nat) (stack : ProtocolStack S M) (self self1 : ProtocolBase S)
    (dataInfo : DataInfo) (final : Bool) (msgs : List (MsgEntry M))
    (h : readImpl fuel stack self dataInfo final = some (msgs, self1)) :
    self1.m_data.length ≤ self.m_data.length + dataInfo.m_data.length := by
  simp only [readImpl] at h
  cases hl : readLoop stack dataInfo fuel (readStart self dataInfo) with
  | none => rw [hl] at h; cases h
  | some s1 =>
    rw [hl] at h
    have hd := (readLoop_pending stack dataInfo fuel _ s1 hl).2
    simp only [Option.some.injEq, Prod.mk.injEq] at h
    obtain ⟨_, hs⟩ := h
    subst hs
    cases final with
    | false =>
      simp only [Bool.false_eq_true, if_false, eraseGuard, List.length_drop, hd, readStart,
        List.length_append]
      omega
    | true =>
      simp only [if_true, eraseGuard, finalFlush, checkGarbageFunc_m_data,
        checkGarbageFunc_readIterBeg, List.length_drop, hd, readStart, List.length_append]
      omega

/-- With a stack that makes progress, a call returns once the fuel exceeds the
number of bytes in the accumulation buffer after the chunk is appended. -/
theorem readImpl_returns (fuel : Nat) (stack : ProtocolStack S M) (hprog : Progress stack)
    (self : ProtocolBase S) (dataInfo : DataInfo) (final : Bool)
    (hfuel : self.m_data.length + dataInfo.m_data.length < fuel) :
    ∃ r, readImpl fuel stack self dataInfo final = some r := by
  obtain ⟨s1, hs1⟩ := readLoop_terminates stack hprog dataInfo fuel
    (readStart self dataInfo) (by simp [readStart]; omega)
  simp only [readImpl, hs1]
  exact ⟨_, rfl⟩

theorem ingested_cons (c : DataInfo × Bool) (calls : List (DataInfo × Bool)) :
    ingested (c :: calls) = c.1.m_data ++ ingested calls := by
  simp [ingested]

theorem ingested_append (xs ys : List (DataInfo × Bool)) :
    ingested (xs ++ ys) = ingested xs ++ ingested ys := by
  simp [ingested]

/-- What a sequence of calls accounts for. -/
theorem readAll_accounts (fuel : Nat) (stack : ProtocolStack S M) :
    ∀ (calls : List (DataInfo × Bool)) (self self1 : ProtocolBase S) (msgs : List (MsgEntry M)),
      readAll fuel stack self calls = some (msgs, self1) →
      rawBytes msgs ++ self1.m_garbage ++ self1.m_data
        = self.m_garbage ++ self.m_data ++ ingested calls := by
  intro calls
  induction calls with
  | nil =>
    intro self self1 msgs h
    simp only [readAll, Option.some.injEq, Prod.mk.injEq] at h
    obtain ⟨hm, hs⟩ := h
    subst hm hs
    simp [ingested, rawBytes]
  | cons c rest ih =>
    intro self self1 msgs h
    obtain ⟨dataInfo, final⟩ := c
    simp only [readAll] at h
    cases h1 : readImpl fuel stack self dataInfo final with
    | none => rw [h1] at h; cases h
    | some r1 =>
      obtain ⟨msgs1, selfA⟩ := r1
      rw [h1] at h
      simp only [] at h
      cases h2 : readAll fuel stack selfA rest with
      | none => rw [h2] at h; cases h
      | some r2 =>
        obtain ⟨msgs2, selfB⟩ := r2
        rw [h2] at h
        simp only [Option.some.injEq, Prod.mk.injEq] at h
        obtain ⟨hm, hs⟩ := h
        subst hm hs
        have e1 := (readImpl_accounts fuel stack self selfA dataInfo final msgs1 h1).1
        have e2 := ih selfA selfB msgs2 h2
        rw [rawBytes_append, ingested_cons]
        simp only [List.append_assoc] at e1 e2 ⊢
        rw [e2, ← List.append_assoc self.m_data, ← List.append_assoc self.m_garbage, ← e1]
        simp only [List.append_assoc]

/-- With a stack that makes progress, a sequence of calls returns once the fuel
exceeds the number of bytes held and handed in. -/
theorem readAll_returns (fuel : Nat) (stack : ProtocolStack S M) (hprog : Progress stack) :
    ∀ (calls : List (DataInfo × Bool)) (self : ProtocolBase S),
      self.m_data.length + (ingested calls).length < fuel →
      ∃ r, readAll fuel stack self calls = some r := by
  intro calls
  induction calls with
  | nil => intro self _; exact ⟨_, rfl⟩
  | cons c rest ih =>
    intro self hfuel
    obtain ⟨dataInfo, final⟩ := c
    rw [ingested_cons, List.length_append] at hfuel
    simp only [] at hfuel
    obtain ⟨r1, h1⟩ := readImpl_returns fuel stack hprog self dataInfo final (by omega)
    obtain ⟨msgs1, selfA⟩ := r1
    have e1 := (readImpl_accounts fuel stack self selfA dataInfo final msgs1 h1).1
    have hl := congrArg List.length e1
    simp only [List.length_append] at hl
    have hg := readImpl_m_data_le fuel stack self selfA dataInfo final msgs1 h1
    obtain ⟨r2, h2⟩ := ih selfA (by omega)
    simp only [readAll, h1, h2]
    exact ⟨_, rfl⟩

theorem readAll_append (fuel : Nat) (stack : ProtocolStack S M) :
    ∀ (xs ys : List (DataInfo × Bool)) (self : ProtocolBase S),
      readAll fuel stack self (xs ++ ys) =
        match readAll fuel stack self xs with
        | none => none
        | some (msgs1, self1) =>
          match readAll fuel stack self1 ys with
          | none => none
          | some (msgs2, self2) => some (msgs1 ++ msgs2, self2) := by
  intro xs
  induction xs with
  | nil =>
    intro ys self
    simp only [List.nil_append, readAll]
    cases readAll fuel stack self ys with
    | none => rfl
    | some r => simp
  | cons c rest ih =>
    intro ys self
    obtain ⟨dataInfo, final⟩ := c
    simp only [List.cons_append, readAll]
    cases readImpl fuel stack self dataInfo final with
    | none => rfl
    | some r1 =>
      obtain ⟨msgs1, selfA⟩ := r1
      simp only []
      have hih := ih ys selfA
      simp only [List.append_eq] at hih ⊢
      rw [hih]
      cases readAll fuel stack selfA rest with
      | none => rfl
      | some r2 =>
        obtain ⟨msgs2, selfB⟩ := r2
        simp only []
        cases readAll fuel stack selfB ys with
        | none => rfl
        | some r3 => simp

theorem readAll_single (fuel : Nat) (stack : ProtocolStack S M) (self : ProtocolBase S)
    (dataInfo : DataInfo) (final : Bool) :
    readAll fuel stack self [(dataInfo, final)] = readImpl fuel stack self dataInfo final := by
  simp only [readAll]
  cases readImpl fuel stack self dataInfo final with
  | none => rfl
  | some r => simp

/-- After a sequence of calls whose last one is final, both buffers are empty. -/
theorem readAll_final_empty (fuel : Nat) (stack : ProtocolStack S M)
    (calls : List (DataInfo × Bool)) (last : DataInfo) (self self1 : ProtocolBase S)
    (msgs : List (MsgEntry M))
    (h : readAll fuel stack self (calls ++ [(last, true)]) = some (msgs, self1)) :
    self1.m_garbage = [] ∧ self1.m_data = [] := by
  rw [readAll_append] at h
  cases h1 : readAll fuel stack self calls with
  | none => rw [h1] at h; cases h
  | some r1 =>
    obtain ⟨msgs1, selfA⟩ := r1
    rw [h1] at h
    simp only [readAll_single] at h
    cases h2 : readImpl fuel stack selfA last true with
    | none => rw [h2] at h; cases h
    | some r2 =>
      obtain ⟨msgs2, selfB⟩ := r2
      rw [h2] at h
      simp only [Option.some.injEq, Prod.mk.injEq] at h
      obtain ⟨_, hs⟩ := h
      subst hs
      exact (readImpl_accounts fuel stack selfA selfB last true msgs2 h2).2 rfl

theorem frameStack_progress : Progress frameStack := by
  intro st d hd hes
  cases d with
  | nil => exact absurd rfl hd
  | cons b rest =>
    simp only [frameStack] at hes ⊢
    split_ifs at hes ⊢ <;> simp_all

/-- C1 (byte conservation of `readImpl`): for every protocol stack whose Success
and InvalidMsgData reads consume at least one byte, and every sequence of
ingestion calls that starts from empty buffers and ends with a final call, the
calls return (given fuel for one pass per ingested byte, plus one) and the raw
bytes wrapped by all returned messages, in order, are exactly the concatenation
of all ingested chunks. -/
theorem readImpl_byte_conservation (stack : ProtocolStack S M) (hprog : Progress stack)
    (stack0 : S) (calls : List (DataInfo × Bool)) (last : DataInfo) (fuel : Nat)
    (hfuel : (ingested (calls ++ [(last, true)])).length < fuel) :
    ∃ msgs self1,
      readAll fuel stack (init stack0) (calls ++ [(last, true)]) = some (msgs, self1)
        ∧ rawBytes msgs = ingested (calls ++ [(last, true)]) := by
  obtain ⟨r, hr⟩ := readAll_returns fuel stack hprog (calls ++ [(last, true)]) (init stack0)
    (by simpa [init] using hfuel)
  obtain ⟨msgs, self1⟩ := r
  refine ⟨msgs, self1, hr, ?_⟩
  have hacc := readAll_accounts fuel stack _ _ _ _ hr
  have hemp := readAll_final_empty fuel stack calls last _ _ _ hr
  simpa [hemp.1, hemp.2, init] using hacc

theorem readImpl_byte_conservation_witness :
    Progress frameStack
      ∧ (ingested [(⟨[2, 7], []⟩, false), (⟨[8, 200, 0, 3, 1], []⟩, true)]).length < 8
      ∧ ∃ msgs self1,
          readAll 8 frameStack (init 0)
              ([(⟨[2, 7], []⟩, false)] ++ [(⟨[8, 200, 0, 3, 1], []⟩, true)]) = some (msgs, self1)
            ∧ rawBytes msgs
              = ingested ([(⟨[2, 7], []⟩, false)] ++ [(⟨[8, 200, 0, 3, 1], []⟩, true)]) :=
  ⟨frameStack_progress, by decide,
    readImpl_byte_conservation frameStack frameStack_progress 0
      [(⟨[2, 7], []⟩, false)] ⟨[8, 200, 0, 3, 1], []⟩ 8 (by decide)⟩

/-- A run of the model on the framing stack: two chunks, a frame split across
them, a byte that starts no frame, an invalid frame and an unfinished frame. -/
theorem readAll_frameStack_example :
    readAll 8 frameStack (init 0)
        [(⟨[2, 7], []⟩, false), (⟨[8, 200, 0, 3, 1], []⟩, true)]
      = some
          ([ { msg := MsgObject.protocol [7, 8], transport := some [2, 7, 8],
               rawData := [2, 7, 8], extraInfo := none },
             { msg := MsgObject.invalid, transport := none, rawData := [200],
               extraInfo := none },
             { msg := MsgObject.invalid, transport := some [0], rawData := [0],
               extraInfo := none },
             { msg := MsgObject.invalid, transport := none, rawData := [3, 1],
               extraInfo := none } ],
           { m_protStack := 5, m_data := [], m_garbage := [] }) := by
  decide

/-! ### The garbage path -/

theorem checkGarbageFunc_of_ne (dataInfo : DataInfo) (s : ReadState S M)
    (h : s.m_garbage ≠ []) :
    checkGarbageFunc dataInfo s
      = { s with allMsgs := s.allMsgs ++ [garbageMsg dataInfo s.m_garbage], m_garbage := [] } := by
  have : ¬ s.m_garbage.isEmpty = true := by simpa using h
  simp [checkGarbageFunc, this, garbageMsg]

theorem checkGarbageFunc_of_nil (dataInfo : DataInfo) (s : ReadState S M)
    (h : s.m_garbage = []) : checkGarbageFunc dataInfo s = s := by
  simp [checkGarbageFunc, h]

theorem garbageMsg_rawData (dataInfo : DataInfo) (g : List Byte) :
    (garbageMsg dataInfo g : MsgEntry M).rawData = g := by
  simp [garbageMsg, setExtraInfoFunc_rawData]

theorem setExtraInfoFunc_transport (dataInfo : DataInfo) (m : MsgEntry M) :
    (setExtraInfoFunc dataInfo m).transport = m.transport := by
  unfold setExtraInfoFunc
  split <;> rfl

/-- The last part of the loop body: the byte at `readIterBeg` goes to the garbage
buffer, the buffer is flushed if it has reached the limit, and `readIterBeg`
moves by one. -/
theorem loopStep_resync (stack : ProtocolStack S M) (dataInfo : DataInfo) (s : ReadState S M)
    (b : Byte) (rest : List Byte) (h : unresolved s = b :: rest)
    (hes : ResyncStatus (stack.read s.m_protStack (b :: rest)).1.es) :
    loopStep stack dataInfo s =
      LoopStep.next
        (if GarbageLimit ≤ s.m_garbage.length + 1 then
          { s with m_protStack := (stack.read s.m_protStack (b :: rest)).2,
                   m_garbage := [],
                   allMsgs := s.allMsgs ++ [garbageMsg dataInfo (s.m_garbage ++ [b])],
                   readIterBeg := s.readIterBeg + 1 }
        else
          { s with m_protStack := (stack.read s.m_protStack (b :: rest)).2,
                   m_garbage := s.m_garbage ++ [b],
                   readIterBeg := s.readIterBeg + 1 }) := by
  rw [loopStep_cons stack dataInfo s b rest h]
  obtain ⟨h1, h2, h3, h4⟩ := hes
  simp only [h1, h2, h3, h4, if_false, List.length_append, List.length_singleton]
  split
  · rw [checkGarbageFunc_of_ne _ _ (by simp)]
  · rfl

theorem readLoop_passStart (stack : ProtocolStack S M) (dataInfo : DataInfo) :
    ∀ (k n : Nat) (s s1 : ReadState S M), passStart stack dataInfo k s = some s1 →
      readLoop stack dataInfo (k + n) s = readLoop stack dataInfo n s1 := by
  intro k
  induction k with
  | zero =>
    intro n s s1 h
    simp only [passStart, Option.some.injEq] at h
    subst h
    simp
  | succ k ih =>
    intro n s s1 h
    simp only [passStart] at h
    have : k + 1 + n = (k + n) + 1 := by omega
    rw [this]
    simp only [readLoop]
    cases hl : loopStep stack dataInfo s with
    | stop s2 => rw [hl] at h; cases h
    | next s2 =>
      rw [hl] at h
      exact ih n s2 s1 h

/-- A property kept by every pass through the loop body holds at the start of
every pass. -/
theorem passStart_invariant (stack : ProtocolStack S M) (dataInfo : DataInfo)
    (inv : ReadState S M → Prop)
    (hstep : ∀ s, inv s → inv (stepState (loopStep stack dataInfo s))) :
    ∀ (k : Nat) (s s1 : ReadState S M), inv s →
      passStart stack dataInfo k s = some s1 → inv s1 := by
  intro k
  induction k with
  | zero =>
    intro s s1 hs h
    simp only [passStart, Option.some.injEq] at h
    subst h
    exact hs
  | succ k ih =>
    intro s s1 hs h
    have hnext := hstep s hs
    simp only [passStart] at h
    cases hl : loopStep stack dataInfo s with
    | stop s2 => rw [hl] at h; cases h
    | next s2 =>
      rw [hl] at h hnext
      exact ih s2 s1 hnext h

/-! ### A stack that never finds a frame start -/

/-- While the garbage buffer stays below the limit, unrecognisable bytes pile up
in it and the loop is left when `m_data` is used up. -/
theorem readLoop_fill (stack : ProtocolStack S M) (dataInfo : DataInfo)
    (herr : ∀ st d, ResyncStatus (stack.read st d).1.es) :
    ∀ (u : List Byte) (s : ReadState S M) (fuel : Nat), unresolved s = u →
      s.m_garbage.length + u.length < GarbageLimit → u.length < fuel →
      ∃ s1, readLoop stack dataInfo fuel s = some s1
        ∧ s1.m_garbage = s.m_garbage ++ u ∧ s1.allMsgs = s.allMsgs
        ∧ s1.m_data = s.m_data ∧ unresolved s1 = [] := by
  intro u
  induction u with
  | nil =>
    intro s fuel hu _ hfuel
    cases fuel with
    | zero => simp at hfuel
    | succ n =>
      refine ⟨s, ?_, by simp, rfl, rfl, hu⟩
      simp only [readLoop, loopStep_nil stack dataInfo s hu]
  | cons b rest ih =>
    intro s fuel hu hg hfuel
    cases fuel with
    | zero => simp at hfuel
    | succ n =>
      simp only [List.length_cons] at hg hfuel
      have hstep := loopStep_resync stack dataInfo s b rest hu (herr _ _)
      have hno : ¬ GarbageLimit ≤ s.m_garbage.length + 1 := by omega
      simp only [hno, if_false] at hstep
      simp only [readLoop, hstep]
      have hadv := unresolved_advance s b rest hu
      obtain ⟨s1, h1, h2, h3, h4, h5⟩ := ih
        { s with m_protStack := (stack.read s.m_protStack (b :: rest)).2,
                 m_garbage := s.m_garbage ++ [b],
                 readIterBeg := s.readIterBeg + 1 } n
        (by simpa [unresolved] using hadv)
        (by simp only [List.length_append, List.length_singleton]; omega)
        (by omega)
      refine ⟨s1, h1, ?_, h3, h4, h5⟩
      simpa using h2

/-- Unrecognisable bytes that fill the garbage buffer up to the limit are
flushed as one invalid message in the pass that appends the last of them. -/
theorem passStart_flush (stack : ProtocolStack S M) (dataInfo : DataInfo)
    (herr : ∀ st d, ResyncStatus (stack.read st d).1.es) :
    ∀ (u v : List Byte) (s : ReadState S M), unresolved s = u ++ v → u ≠ [] →
      s.m_garbage.length + u.length = GarbageLimit →
      ∃ s1, passStart stack dataInfo u.length s = some s1
        ∧ s1.m_garbage = []
        ∧ s1.allMsgs = s.allMsgs ++ [garbageMsg dataInfo (s.m_garbage ++ u)]
        ∧ s1.m_data = s.m_data ∧ unresolved s1 = v := by
  intro u
  induction u with
  | nil => intro v s _ hne; exact absurd rfl hne
  | cons b rest ih =>
    intro v s hu _ hg
    simp only [List.length_cons] at hg
    have hu2 : unresolved s = b :: (rest ++ v) := by simpa using hu
    have hstep := loopStep_resync stack dataInfo s b (rest ++ v) hu2 (herr _ _)
    have hadv := unresolved_advance s b (rest ++ v) hu2
    cases rest with
    | nil =>
      have hyes : GarbageLimit ≤ s.m_garbage.length + 1 := by
        simp only [List.length_nil] at hg
        omega
      simp only [hyes, if_true] at hstep
      simp only [List.length_singleton, passStart, hstep]
      exact ⟨_, rfl, rfl, rfl, rfl, by simpa [unresolved] using hadv⟩
    | cons b2 rest2 =>
      have hno : ¬ GarbageLimit ≤ s.m_garbage.length + 1 := by
        simp only [List.length_cons] at hg
        omega
      simp only [hno, if_false] at hstep
      obtain ⟨s1, h1, h2, h3, h4, h5⟩ := ih v
        { s with m_protStack := (stack.read s.m_protStack (b :: (b2 :: rest2 ++ v))).2,
                 m_garbage := s.m_garbage ++ [b],
                 readIterBeg := s.readIterBeg + 1 }
        (by simpa [unresolved] using hadv) (by simp)
        (by simp only [List.length_append, List.length_cons, List.length_nil] at hg ⊢
            omega)
      refine ⟨s1, ?_, h2, ?_, h4, h5⟩
      · simp only [List.length_cons, passStart, hstep]
        simpa using h1
      · simpa using h3

/-- What `readImpl` does with a chunk of 600 bytes when the stack never finds a
frame start and both buffers are empty beforehand. -/
theorem readImpl_resync_600 (stack : ProtocolStack S M)
    (herr : ∀ st d, ResyncStatus (stack.read st d).1.es)
    (stack0 : S) (d : List Byte) (hd : d.length = 600) (extra : ExtraProps) (final : Bool)
    (fuel : Nat) (hfuel : 600 < fuel) :
    ∃ self1,
      readImpl fuel stack (init stack0) ⟨d, extra⟩ final
          = some
              (if final then
                  [garbageMsg ⟨d, extra⟩ (d.take 512), garbageMsg ⟨d, extra⟩ (d.drop 512)]
                else [garbageMsg ⟨d, extra⟩ (d.take 512)],
               self1)
        ∧ self1.m_data = []
        ∧ self1.m_garbage = (if final then [] else d.drop 512) := by
  have hsplit : d = d.take 512 ++ d.drop 512 := (List.take_append_drop 512 d).symm
  have htake : (d.take 512).length = 512 := by simp [hd]
  have hdrop : (d.drop 512).length = 88 := by simp [hd]
  obtain ⟨s1, h1, h2, h3, h4, h5⟩ := passStart_flush stack ⟨d, extra⟩ herr
    (d.take 512) (d.drop 512) (readStart (init stack0) ⟨d, extra⟩)
    (by simp [unresolved, readStart, init])
    (by intro hc; rw [hc] at htake; simp at htake)
    (by simp [readStart, init, htake, GarbageLimit])
  obtain ⟨s2, k1, k2, k3, k4, k5⟩ := readLoop_fill stack ⟨d, extra⟩ herr
    (d.drop 512) s1 (fuel - 512) h5 (by simp [h2, hdrop, GarbageLimit]) (by omega)
  have hloop : readLoop stack ⟨d, extra⟩ fuel (readStart (init stack0) ⟨d, extra⟩) = some s2 := by
    have hf : fuel = (d.take 512).length + (fuel - 512) := by omega
    rw [hf, readLoop_passStart stack ⟨d, extra⟩ _ _ _ s1 h1]
    exact k1
  simp only [unresolved] at k5
  have hgne : d.drop 512 ≠ [] := by
    intro hc
    rw [hc] at hdrop
    simp at hdrop
  cases final with
  | false =>
    refine ⟨eraseGuard s2, ?_, ?_, ?_⟩
    · simp only [readImpl, hloop]
      simp [k3, h3, readStart, init]
    · simp [eraseGuard, k5]
    · simp [eraseGuard, k2, h2]
  | true =>
    have hff : finalFlush ⟨d, extra⟩ s2
        = { s2 with m_garbage := [],
                    allMsgs := s2.allMsgs ++ [garbageMsg ⟨d, extra⟩ (d.drop 512)],
                    readIterBeg := s2.readIterBeg + (s2.m_data.length - s2.readIterBeg) } := by
      simp only [finalFlush, k5, List.append_nil]
      rw [checkGarbageFunc_of_ne _ _ (by simpa [k2, h2] using hgne)]
      simp [k2, h2]
    refine ⟨eraseGuard (finalFlush ⟨d, extra⟩ s2), ?_, ?_, ?_⟩
    · simp only [readImpl, hloop]
      simp [hff, k3, h3, readStart, init]
    · have := finalFlush_unresolved ⟨d, extra⟩ s2
      simpa [eraseGuard, unresolved] using this
    · simp [eraseGuard, finalFlush_m_garbage]

/-- C8 (the 600-byte scenario, as the code has it): for every stack whose read
returns a protocol error at every offset, ingesting 600 bytes in one call with
empty buffers beforehand returns, when the final flag is not set, exactly one
invalid message, wrapping the first 512 bytes, and keeps the remaining 88 bytes
in the garbage buffer; when the final flag is set it returns exactly two invalid
messages, wrapping the first 512 bytes and the remaining 88 bytes, and leaves
both buffers empty. -/
theorem readImpl_600_unrecognised (stack : ProtocolStack S M)
    (herr : ∀ st d, (stack.read st d).1.es = ErrorStatus.ProtocolError)
    (stack0 : S) (d : List Byte) (hd : d.length = 600) (extra : ExtraProps) (final : Bool)
    (fuel : Nat) (hfuel : 600 < fuel) :
    ∃ self1,
      readImpl fuel stack (init stack0) ⟨d, extra⟩ final
          = some
              (if final then
                  [garbageMsg ⟨d, extra⟩ (d.take 512), garbageMsg ⟨d, extra⟩ (d.drop 512)]
                else [garbageMsg ⟨d, extra⟩ (d.take 512)],
               self1)
        ∧ self1.m_data = []
        ∧ self1.m_garbage = (if final then [] else d.drop 512)
        ∧ (d.take 512).length = 512 ∧ (d.drop 512).length = 88 := by
  have herr2 : ∀ st d, ResyncStatus (stack.read st d).1.es := by
    intro st d
    rw [herr st d]
    simp [ResyncStatus]
  obtain ⟨self1, h1, h2, h3⟩ :=
    readImpl_resync_600 stack herr2 stack0 d hd extra final fuel hfuel
  exact ⟨self1, h1, h2, h3, by simp [hd], by simp [hd]⟩

theorem readImpl_600_unrecognised_witness :
    (∀ st d, (errorStack.read st d).1.es = ErrorStatus.ProtocolError)
      ∧ (List.replicate 600 (0 : Byte)).length = 600
      ∧ 600 < 601
      ∧ ∃ self1,
          readImpl 601 errorStack (init ()) ⟨List.replicate 600 0, []⟩ false
              = some
                  (if false = true then
                      [garbageMsg ⟨List.replicate 600 0, []⟩ ((List.replicate 600 (0 : Byte)).take 512),
                       garbageMsg ⟨List.replicate 600 0, []⟩ ((List.replicate 600 (0 : Byte)).drop 512)]
                    else
                      [garbageMsg ⟨List.replicate 600 0, []⟩ ((List.replicate 600 (0 : Byte)).take 512)],
                   self1)
            ∧ self1.m_data = []
            ∧ self1.m_garbage
                = (if false = true then [] else (List.replicate 600 (0 : Byte)).drop 512)
            ∧ ((List.replicate 600 (0 : Byte)).take 512).length = 512
            ∧ ((List.replicate 600 (0 : Byte)).drop 512).length = 88 :=
  ⟨fun _ _ => rfl, List.length_replicate 600 0, by decide,
    readImpl_600_unrecognised errorStack (fun _ _ => rfl) () (List.replicate 600 0)
      (List.length_replicate 600 0) [] false 601 (by decide)⟩

/-- C8 as stated fails: in the 600-byte scenario with the final flag not set, on
the stack that never finds a frame start and 600 zero bytes, the call returns
one message, not two, and 88 bytes stay in the garbage buffer. -/
theorem readImpl_600_returns_one :
    ∃ msgs self1,
      readImpl 601 errorStack (init ()) ⟨List.replicate 600 0, []⟩ false = some (msgs, self1)
        ∧ msgs.length = 1 ∧ self1.m_garbage.length = 88 := by
  obtain ⟨self1, h1, _, h3⟩ :=
    readImpl_resync_600 errorStack (fun _ _ => by simp [errorStack, ResyncStatus]) ()
      (List.replicate 600 0) (List.length_replicate 600 0) [] false 601 (by decide)
  refine ⟨_, self1, h1, ?_, ?_⟩
  · simp only [Bool.false_eq_true, if_false, List.length_singleton]
  · rw [h3]
    simp only [Bool.false_eq_true, if_false, List.length_drop, List.length_replicate]

/-! ### The garbage limit -/

theorem garbageBounded_append (xs ys : List (MsgEntry M)) (hx : GarbageBounded xs)
    (hy : GarbageBounded ys) : GarbageBounded (xs ++ ys) := by
  intro m hm
  rcases List.mem_append.mp hm with h | h
  · exact hx m h
  · exact hy m h

theorem garbageBounded_garbageMsg (dataInfo : DataInfo) (g : List Byte)
    (hg : g.length ≤ GarbageLimit) : GarbageBounded ([garbageMsg dataInfo g] : List (MsgEntry M)) := by
  intro m hm _
  rw [List.mem_singleton] at hm
  subst hm
  rw [garbageMsg_rawData]
  exact hg

theorem garbageBounded_setExtrasFunc (dataInfo : DataInfo) (d : List Byte) (b c : Nat)
    (p : MsgObject M) : GarbageBounded [setExtrasFunc dataInfo d b c p] := by
  intro m hm ht
  rw [List.mem_singleton] at hm
  subst hm
  simp [setExtrasFunc, setExtraInfoFunc_transport] at ht

theorem checkGarbageFunc_bounded (dataInfo : DataInfo) (s : ReadState S M)
    (hg : s.m_garbage.length ≤ GarbageLimit) (hb : GarbageBounded s.allMsgs) :
    GarbageBounded (checkGarbageFunc dataInfo s).allMsgs := by
  by_cases h : s.m_garbage = []
  · rw [checkGarbageFunc_of_nil dataInfo s h]
    exact hb
  · rw [checkGarbageFunc_of_ne dataInfo s h]
    exact garbageBounded_append _ _ hb (garbageBounded_garbageMsg dataInfo _ hg)

/-- Every pass through the loop body keeps the garbage buffer below the limit
and the garbage messages within it. -/
theorem loopStep_garbage (stack : ProtocolStack S M) (dataInfo : DataInfo) (s : ReadState S M)
    (h : s.m_garbage.length < GarbageLimit ∧ GarbageBounded s.allMsgs) :
    (stepState (loopStep stack dataInfo s)).m_garbage.length < GarbageLimit
      ∧ GarbageBounded (stepState (loopStep stack dataInfo s)).allMsgs := by
  obtain ⟨hg, hb⟩ := h
  have hpos : 0 < GarbageLimit := by decide
  cases hu : unresolved s with
  | nil => rw [loopStep_nil stack dataInfo s hu]; exact ⟨hg, hb⟩
  | cons b rest =>
    by_cases hr : ResyncStatus (stack.read s.m_protStack (b :: rest)).1.es
    · rw [loopStep_resync stack dataInfo s b rest hu hr]
      split
      · refine ⟨by simpa [stepState] using hpos, ?_⟩
        exact garbageBounded_append _ _ hb
          (garbageBounded_garbageMsg dataInfo _ (by simp; omega))
      · refine ⟨?_, hb⟩
        simp only [stepState, List.length_append, List.length_singleton]
        omega
    · rw [loopStep_cons stack dataInfo s b rest hu]
      simp only []
      split
      · exact ⟨hg, hb⟩
      · split
        · refine ⟨by simpa [stepState, checkGarbageFunc_m_garbage] using hpos, ?_⟩
          exact garbageBounded_append _ _
            (checkGarbageFunc_bounded dataInfo _ (Nat.le_of_lt hg) hb)
            (garbageBounded_setExtrasFunc _ _ _ _ _)
        · split
          · refine ⟨by simpa [stepState, checkGarbageFunc_m_garbage] using hpos, ?_⟩
            exact garbageBounded_append _ _
              (checkGarbageFunc_bounded dataInfo _ (Nat.le_of_lt hg) hb)
              (garbageBounded_setExtrasFunc _ _ _ _ _)
          · split
            · exact ⟨hg, hb⟩
            · rename_i h1 h2 h3 h4
              exact absurd ⟨h2, h1, h3, h4⟩ hr

/-- A call keeps the garbage buffer below the limit. -/
theorem readImpl_garbage_lt (fuel : Nat) (stack : ProtocolStack S M) (self self1 : ProtocolBase S)
    (dataInfo : DataInfo) (final : Bool) (msgs : List (MsgEntry M))
    (hg : self.m_garbage.length < GarbageLimit)
    (h : readImpl fuel stack self dataInfo final = some (msgs, self1)) :
    self1.m_garbage.length < GarbageLimit := by
  simp only [readImpl] at h
  cases hl : readLoop stack dataInfo fuel (readStart self dataInfo) with
  | none => rw [hl] at h; cases h
  | some s1 =>
    rw [hl] at h
    have hinv := readLoop_invariant stack dataInfo
      (fun t => t.m_garbage.length < GarbageLimit ∧ GarbageBounded t.allMsgs)
      (loopStep_garbage stack dataInfo) fuel _ s1
      ⟨hg, by intro m hm; simp [readStart] at hm⟩ hl
    simp only [Option.some.injEq, Prod.mk.injEq] at h
    obtain ⟨_, hs⟩ := h
    subst hs
    cases final with
    | false => simpa [eraseGuard] using hinv.1
    | true =>
      simp only [if_true, eraseGuard, finalFlush_m_garbage, List.length_nil]
      decide

/-- After every sequence of calls on a fresh object the garbage buffer is below
the limit. -/
theorem readAll_garbage_lt (fuel : Nat) (stack : ProtocolStack S M) :
    ∀ (calls : List (DataInfo × Bool)) (self self1 : ProtocolBase S) (msgs : List (MsgEntry M)),
      self.m_garbage.length < GarbageLimit →
      readAll fuel stack self calls = some (msgs, self1) →
      self1.m_garbage.length < GarbageLimit := by
  intro calls
  induction calls with
  | nil =>
    intro self self1 msgs hg h
    simp only [readAll, Option.some.injEq, Prod.mk.injEq] at h
    obtain ⟨_, hs⟩ := h
    subst hs
    exact hg
  | cons c rest ih =>
    intro self self1 msgs hg h
    obtain ⟨dataInfo, final⟩ := c
    simp only [readAll] at h
    cases h1 : readImpl fuel stack self dataInfo final with
    | none => rw [h1] at h; cases h
    | some r1 =>
      obtain ⟨msgs1, selfA⟩ := r1
      rw [h1] at h
      simp only [] at h
      cases h2 : readAll fuel stack selfA rest with
      | none => rw [h2] at h; cases h
      | some r2 =>
        obtain ⟨msgs2, selfB⟩ := r2
        rw [h2] at h
        simp only [Option.some.injEq, Prod.mk.injEq] at h
        obtain ⟨_, hs⟩ := h
        subst hs
        exact ih selfA selfB msgs2
          (readImpl_garbage_lt fuel stack self selfA dataInfo final msgs1 hg h1) h2

/-- C9 (garbage threshold): after every sequence of ingestion calls on a fresh
object the garbage buffer holds fewer than 512 bytes, and so it does at the
start of every pass through the loop of any further call; and whenever such a
pass appends an unrecognisable byte that makes the buffer reach 512 bytes, the
buffer then holds exactly 512 bytes and the same pass ends with those bytes, in
ingestion order, wrapped by one new invalid message at the end of the list, the
garbage buffer empty and the cursor one byte further, so the flush precedes the
next read of the stack. -/
theorem garbage_threshold (stack : ProtocolStack S M) (stack0 : S)
    (calls : List (DataInfo × Bool)) (fuel : Nat) (msgs : List (MsgEntry M))
    (self1 : ProtocolBase S)
    (h : readAll fuel stack (init stack0) calls = some (msgs, self1)) :
    self1.m_garbage.length < GarbageLimit
      ∧ ∀ (dataInfo : DataInfo) (k : Nat) (s : ReadState S M),
          passStart stack dataInfo k (readStart self1 dataInfo) = some s →
          s.m_garbage.length < GarbageLimit
            ∧ ∀ (b : Byte) (rest : List Byte), unresolved s = b :: rest →
                ResyncStatus (stack.read s.m_protStack (b :: rest)).1.es →
                GarbageLimit ≤ (s.m_garbage ++ [b]).length →
                (s.m_garbage ++ [b]).length = GarbageLimit
                  ∧ loopStep stack dataInfo s =
                      LoopStep.next
                        { s with m_protStack := (stack.read s.m_protStack (b :: rest)).2,
                                 m_garbage := [],
                                 allMsgs := s.allMsgs ++ [garbageMsg dataInfo (s.m_garbage ++ [b])],
                                 readIterBeg := s.readIterBeg + 1 } := by
  have hself : self1.m_garbage.length < GarbageLimit :=
    readAll_garbage_lt fuel stack calls (init stack0) self1 msgs
      (by simp [init, GarbageLimit]) h
  refine ⟨hself, ?_⟩
  intro dataInfo k s hk
  have hinv := passStart_invariant stack dataInfo
    (fun t => t.m_garbage.length < GarbageLimit ∧ GarbageBounded t.allMsgs)
    (loopStep_garbage stack dataInfo) k _ s
    ⟨hself, by intro m hm; simp [readStart] at hm⟩ hk
  refine ⟨hinv.1, ?_⟩
  intro b rest hu hes hlim
  have hlen : (s.m_garbage ++ [b]).length = s.m_garbage.length + 1 := by simp
  have h1 := hinv.1
  refine ⟨by omega, ?_⟩
  rw [loopStep_resync stack dataInfo s b rest hu hes]
  have : GarbageLimit ≤ s.m_garbage.length + 1 := by omega
  simp only [this, if_true]

theorem garbage_threshold_witness :
    readAll 3 frameStack (init 0) [(⟨[200, 2], []⟩, false)]
        = some ([], { m_protStack := 2, m_data := [2], m_garbage := [200] })
      ∧ (({ m_protStack := 2, m_data := [2], m_garbage := [200] } :
            ProtocolBase Nat).m_garbage.length < GarbageLimit
          ∧ ∀ (dataInfo : DataInfo) (k : Nat) (s : ReadState Nat (List Byte)),
              passStart frameStack dataInfo k
                  (readStart { m_protStack := 2, m_data := [2], m_garbage := [200] } dataInfo)
                = some s →
              s.m_garbage.length < GarbageLimit
                ∧ ∀ (b : Byte) (rest : List Byte), unresolved s = b :: rest →
                    ResyncStatus (frameStack.read s.m_protStack (b :: rest)).1.es →
                    GarbageLimit ≤ (s.m_garbage ++ [b]).length →
                    (s.m_garbage ++ [b]).length = GarbageLimit
                      ∧ loopStep frameStack dataInfo s =
                          LoopStep.next
                            { s with
                                m_protStack := (frameStack.read s.m_protStack (b :: rest)).2,
                                m_garbage := [],
                                allMsgs :=
                                  s.allMsgs ++ [garbageMsg dataInfo (s.m_garbage ++ [b])],
                                readIterBeg := s.readIterBeg + 1 }) :=
  ⟨by decide,
    garbage_threshold frameStack 0 [(⟨[200, 2], []⟩, false)] 3 []
      { m_protStack := 2, m_data := [2], m_garbage := [200] } (by decide)⟩

/-- A final call whose first read asks for more data returns everything it holds
as one invalid message. -/
theorem readImpl_stall_final (stack : ProtocolStack S M) (self : ProtocolBase S)
    (dataInfo : DataInfo) (fuel : Nat) (b : Byte) (rest : List Byte)
    (hu : self.m_data ++ dataInfo.m_data = b :: rest)
    (hes : (stack.read self.m_protStack (b :: rest)).1.es = ErrorStatus.NotEnoughData) :
    readImpl (fuel + 1) stack self dataInfo true
      = some ([garbageMsg dataInfo (self.m_garbage ++ (b :: rest))],
          { m_protStack := (stack.read self.m_protStack (b :: rest)).2,
            m_data := [], m_garbage := [] }) := by
  have hstep : loopStep stack dataInfo (readStart self dataInfo)
      = LoopStep.stop { (readStart self dataInfo : ReadState S M) with
          m_protStack := (stack.read self.m_protStack (b :: rest)).2 } := by
    rw [loopStep_cons stack dataInfo _ b rest (by simpa [unresolved, readStart] using hu)]
    simp [readStart, hes]
  simp only [readImpl, readLoop, hstep, if_true]
  have hne : (self.m_garbage ++ (b :: rest)) ≠ [] := by simp
  simp only [finalFlush, readStart, List.drop_zero, hu]
  rw [checkGarbageFunc_of_ne _ _ hne]
  simp [eraseGuard]

/-- C10 as stated fails on the final flush: on a stack that asks for more data, a
final call with 600 bytes returns one invalid message synthesized from the
garbage buffer that wraps all 600 bytes. -/
theorem final_flush_exceeds_limit :
    ∃ m self1,
      readImpl 1 stallStack (init ()) ⟨List.replicate 600 0, []⟩ true = some ([m], self1)
        ∧ m.msg = MsgObject.invalid ∧ m.transport = none
        ∧ m.rawData.length = 600 ∧ ¬ m.rawData.length ≤ GarbageLimit := by
  have h := readImpl_stall_final stallStack (init ()) ⟨List.replicate 600 0, []⟩ 0 0
    (List.replicate 599 0) rfl rfl
  refine ⟨_, _, h, ?_, ?_, ?_, ?_⟩
  · simp only [garbageMsg, setExtraInfoFunc_msg]
  · simp only [garbageMsg, setExtraInfoFunc_transport]
  · simp only [garbageMsg_rawData, init, List.nil_append, List.length_cons,
      List.length_replicate]
  · simp only [garbageMsg_rawData, init, List.nil_append, List.length_cons,
      List.length_replicate, GarbageLimit]
    decide

/-- C10 (as the code has it): after any sequence of ingestion calls on a fresh
object, in any further call every invalid message the loop synthesizes from the
garbage buffer wraps at most 512 bytes and the loop leaves fewer than 512 bytes
in the garbage buffer; a call without the final flag returns just the loop's
messages; a call with the final flag appends, if there is anything left, one
invalid message wrapping the pending garbage followed by all unresolved bytes of
the accumulation buffer, whose size the limit does not bound. -/
theorem garbage_flush_bounded (stack : ProtocolStack S M) (stack0 : S)
    (calls : List (DataInfo × Bool)) (fuel : Nat) (msgs : List (MsgEntry M))
    (self1 : ProtocolBase S)
    (h : readAll fuel stack (init stack0) calls = some (msgs, self1))
    (dataInfo : DataInfo) (fuel2 : Nat) (s1 : ReadState S M)
    (h2 : readLoop stack dataInfo fuel2 (readStart self1 dataInfo) = some s1) :
    GarbageBounded s1.allMsgs
      ∧ s1.m_garbage.length < GarbageLimit
      ∧ readImpl fuel2 stack self1 dataInfo false = some (s1.allMsgs, eraseGuard s1)
      ∧ ∃ self2,
          readImpl fuel2 stack self1 dataInfo true
            = some
                (s1.allMsgs ++
                  (if s1.m_garbage ++ unresolved s1 = [] then []
                    else [garbageMsg dataInfo (s1.m_garbage ++ unresolved s1)]),
                 self2) := by
  have hself : self1.m_garbage.length < GarbageLimit :=
    readAll_garbage_lt fuel stack calls (init stack0) self1 msgs
      (by simp [init, GarbageLimit]) h
  have hinv := readLoop_invariant stack dataInfo
    (fun t => t.m_garbage.length < GarbageLimit ∧ GarbageBounded t.allMsgs)
    (loopStep_garbage stack dataInfo) fuel2 _ s1
    ⟨hself, by intro m hm; simp [readStart] at hm⟩ h2
  refine ⟨hinv.2, hinv.1, by simp [readImpl, h2], ?_⟩
  refine ⟨eraseGuard (finalFlush dataInfo s1), ?_⟩
  simp only [readImpl, h2, if_true, Option.some.injEq, Prod.mk.injEq, and_true]
  by_cases hne : s1.m_garbage ++ unresolved s1 = []
  · simp only [hne, if_true, List.append_nil]
    simp only [finalFlush]
    rw [checkGarbageFunc_of_nil _ _ (by simpa [unresolved] using hne)]
  · simp only [hne, if_false]
    simp only [finalFlush]
    rw [checkGarbageFunc_of_ne _ _ (by simpa [unresolved] using hne)]
    simp [unresolved]

theorem garbage_flush_bounded_witness :
    readAll 2 frameStack (init 0) [(⟨[200], []⟩, false)]
        = some ([], { m_protStack := 1, m_data := [], m_garbage := [200] })
      ∧ readLoop frameStack ⟨[5, 1], []⟩ 3
          (readStart { m_protStack := 1, m_data := [], m_garbage := [200] } ⟨[5, 1], []⟩)
        = some { m_protStack := 2, m_data := [5, 1], m_garbage := [200], readIterBeg := 0,
                 allMsgs := [] }
      ∧ (GarbageBounded
            ({ m_protStack := 2, m_data := [5, 1], m_garbage := [200], readIterBeg := 0,
               allMsgs := [] } : ReadState Nat (List Byte)).allMsgs
          ∧ ({ m_protStack := 2, m_data := [5, 1], m_garbage := [200], readIterBeg := 0,
               allMsgs := [] } : ReadState Nat (List Byte)).m_garbage.length < GarbageLimit
          ∧ readImpl 3 frameStack { m_protStack := 1, m_data := [], m_garbage := [200] }
              ⟨[5, 1], []⟩ false
            = some
                (({ m_protStack := 2, m_data := [5, 1], m_garbage := [200], readIterBeg := 0,
                    allMsgs := [] } : ReadState Nat (List Byte)).allMsgs,
                 eraseGuard
                  ({ m_protStack := 2, m_data := [5, 1], m_garbage := [200], readIterBeg := 0,
                     allMsgs := [] } : ReadState Nat (List Byte)))
          ∧ ∃ self2,
              readImpl 3 frameStack { m_protStack := 1, m_data := [], m_garbage := [200] }
                  ⟨[5, 1], []⟩ true
                = some
                    (({ m_protStack := 2, m_data := [5, 1], m_garbage := [200],
                        readIterBeg := 0, allMsgs := [] } : ReadState Nat (List Byte)).allMsgs ++
                      (if ({ m_protStack := 2, m_data := [5, 1], m_garbage := [200],
                             readIterBeg := 0, allMsgs := [] } :
                              ReadState Nat (List Byte)).m_garbage ++
                            unresolved
                              ({ m_protStack := 2, m_data := [5, 1], m_garbage := [200],
                                 readIterBeg := 0, allMsgs := [] } : ReadState Nat (List Byte))
                          = [] then []
                        else
                          [garbageMsg ⟨[5, 1], []⟩
                            (({ m_protStack := 2, m_data := [5, 1], m_garbage := [200],
                                readIterBeg := 0, allMsgs := [] } :
                                ReadState Nat (List Byte)).m_garbage ++
                              unresolved
                                ({ m_protStack := 2, m_data := [5, 1], m_garbage := [200],
                                   readIterBeg := 0, allMsgs := [] } :
                                  ReadState Nat (List Byte)))]),
                     self2)) :=
  ⟨by decide, by decide,
    garbage_flush_bounded frameStack 0 [(⟨[200], []⟩, false)] 2 []
      { m_protStack := 1, m_data := [], m_garbage := [200] } (by decide)
      ⟨[5, 1], []⟩ 3
      { m_protStack := 2, m_data := [5, 1], m_garbage := [200], readIterBeg := 0, allMsgs := [] }
      (by decide)⟩

/-! ### Chunk boundaries: one pass seen through the unresolved bytes -/

theorem setExtraInfoFunc_extra (d1 d2 : DataInfo)
    (h : d1.m_extraProperties = d2.m_extraProperties) (m : MsgEntry M) :
    setExtraInfoFunc d1 m = setExtraInfoFunc d2 m := by
  simp only [setExtraInfoFunc, h]

theorem checkGarbageFunc_extra (d1 d2 : DataInfo)
    (h : d1.m_extraProperties = d2.m_extraProperties) (s : ReadState S M) :
    checkGarbageFunc d1 s = checkGarbageFunc d2 s := by
  simp only [checkGarbageFunc, setExtraInfoFunc_extra d1 d2 h]

theorem setExtrasFunc_extra (d1 d2 : DataInfo)
    (h : d1.m_extraProperties = d2.m_extraProperties) (d : List Byte) (b c : Nat)
    (p : MsgObject M) : setExtrasFunc d1 d b c p = setExtrasFunc d2 d b c p := by
  simp only [setExtrasFunc, setExtraInfoFunc_extra d1 d2 h]

/-- The loop body uses of `dataInfo` only the extra properties. -/
theorem loopStep_extra (stack : ProtocolStack S M) (d1 d2 : DataInfo)
    (h : d1.m_extraProperties = d2.m_extraProperties) (s : ReadState S M) :
    loopStep stack d1 s = loopStep stack d2 s := by
  cases hu : unresolved s with
  | nil => rw [loopStep_nil stack d1 s hu, loopStep_nil stack d2 s hu]
  | cons b rest =>
    rw [loopStep_cons stack d1 s b rest hu, loopStep_cons stack d2 s b rest hu]
    simp only [checkGarbageFunc_extra d1 d2 h, setExtrasFunc_extra d1 d2 h]

theorem readLoop_extra (stack : ProtocolStack S M) (d1 d2 : DataInfo)
    (h : d1.m_extraProperties = d2.m_extraProperties) :
    ∀ (n : Nat) (s : ReadState S M), readLoop stack d1 n s = readLoop stack d2 n s := by
  intro n
  induction n with
  | zero => intro s; rfl
  | succ n ih =>
    intro s
    simp only [readLoop, loopStep_extra stack d1 d2 h s]
    cases loopStep stack d2 s with
    | stop s1 => rfl
    | next s1 => exact ih s1

theorem finalFlush_extra (d1 d2 : DataInfo)
    (h : d1.m_extraProperties = d2.m_extraProperties) (s : ReadState S M) :
    finalFlush d1 s = finalFlush d2 s := by
  simp only [finalFlush, checkGarbageFunc_extra d1 d2 h]

theorem checkGarbageFunc_allMsgs (dataInfo : DataInfo) (s : ReadState S M) :
    (checkGarbageFunc dataInfo s).allMsgs
      = s.allMsgs ++ (if s.m_garbage = [] then [] else [garbageMsg dataInfo s.m_garbage]) := by
  by_cases h : s.m_garbage = []
  · rw [checkGarbageFunc_of_nil dataInfo s h]
    simp [h]
  · rw [checkGarbageFunc_of_ne dataInfo s h]
    simp [h]

/-- The message `setExtrasFunc` builds depends on `m_data` and `readIterBeg` only
through the unresolved bytes. -/
theorem setExtrasFunc_view (dataInfo : DataInfo) (d : List Byte) (c k : Nat) (p : MsgObject M) :
    setExtrasFunc dataInfo d c (c + k) p
      = setExtraInfoFunc dataInfo
          { msg := p, transport := some ((d.drop c).take k), rawData := (d.drop c).take k,
            extraInfo := none } := by
  have : c + k - c = k := by omega
  simp only [setExtrasFunc, this]

theorem drop_add_unresolved (d : List Byte) (c k : Nat) :
    d.drop (c + k) = (d.drop c).drop k := by
  rw [List.drop_drop, Nat.add_comm]

/-- A pass that ends in `break` changes nothing but the stack object. -/
theorem loopStep_stop_same (stack : ProtocolStack S M) (dataInfo : DataInfo)
    (s s1 : ReadState S M) (h : loopStep stack dataInfo s = LoopStep.stop s1) :
    s1.m_data = s.m_data ∧ s1.readIterBeg = s.readIterBeg ∧ s1.m_garbage = s.m_garbage
      ∧ s1.allMsgs = s.allMsgs := by
  cases hu : unresolved s with
  | nil =>
    rw [loopStep_nil stack dataInfo s hu] at h
    simp only [LoopStep.stop.injEq] at h
    subst h
    exact ⟨rfl, rfl, rfl, rfl⟩
  | cons b rest =>
    rw [loopStep_cons stack dataInfo s b rest hu] at h
    simp only [] at h
    split at h
    · simp only [LoopStep.stop.injEq] at h
      subst h
      exact ⟨rfl, rfl, rfl, rfl⟩
    · split at h
      · cases h
      · split at h
        · cases h
        · split at h
          · simp only [LoopStep.stop.injEq] at h
            subst h
            exact ⟨rfl, rfl, rfl, rfl⟩
          · cases h

/-- The loop body does what `viewStep` says. -/
theorem loopStep_view (stack : ProtocolStack S M) (dataInfo : DataInfo) (s : ReadState S M)
    (b : Byte) (rest : List Byte) (hu : unresolved s = b :: rest) :
    (viewStep dataInfo (stack.read s.m_protStack (b :: rest)).1 s.m_garbage (b :: rest) = none →
        ∃ s1, loopStep stack dataInfo s = LoopStep.stop s1)
      ∧ ∀ v, viewStep dataInfo (stack.read s.m_protStack (b :: rest)).1 s.m_garbage (b :: rest)
            = some v →
          ∃ s1, loopStep stack dataInfo s = LoopStep.next s1 ∧ unresolved s1 = v.1
            ∧ s1.m_garbage = v.2.1 ∧ s1.allMsgs = s.allMsgs ++ v.2.2 := by
  rw [loopStep_cons stack dataInfo s b rest hu]
  have hadv := unresolved_advance s b rest hu
  simp only [unresolved] at hu
  by_cases h1 : (stack.read s.m_protStack (b :: rest)).1.es = ErrorStatus.NotEnoughData
  · refine ⟨fun _ => ⟨_, by rw [if_pos h1]⟩, ?_⟩
    intro v hv
    simp only [viewStep, if_pos h1] at hv
    cases hv
  by_cases h2 : (stack.read s.m_protStack (b :: rest)).1.es = ErrorStatus.Success
  · constructor
    · intro h
      simp only [viewStep, if_neg h1, if_pos h2] at h
      cases h
    · intro v hv
      simp only [viewStep, if_neg h1, if_pos h2, Option.some.injEq] at hv
      subst hv
      simp only [if_neg h1, if_pos h2]
      refine ⟨_, rfl, ?_, ?_, ?_⟩
      · simp only [unresolved, checkGarbageFunc_m_data, drop_add_unresolved, hu]
      · simp only [checkGarbageFunc_m_garbage]
      · simp only [checkGarbageFunc_allMsgs, setExtrasFunc_view, checkGarbageFunc_m_data, hu,
          spanMsg, List.append_assoc]
  by_cases h3 : (stack.read s.m_protStack (b :: rest)).1.es = ErrorStatus.InvalidMsgData
  · constructor
    · intro h
      simp only [viewStep, if_neg h1, if_neg h2, if_pos h3] at h
      cases h
    · intro v hv
      simp only [viewStep, if_neg h1, if_neg h2, if_pos h3, Option.some.injEq] at hv
      subst hv
      simp only [if_neg h1, if_neg h2, if_pos h3]
      refine ⟨_, rfl, ?_, ?_, ?_⟩
      · simp only [unresolved, checkGarbageFunc_m_data, drop_add_unresolved, hu]
      · simp only [checkGarbageFunc_m_garbage]
      · simp only [checkGarbageFunc_allMsgs, setExtrasFunc_view, checkGarbageFunc_m_data, hu,
          spanMsg, List.append_assoc]
  by_cases h4 : (stack.read s.m_protStack (b :: rest)).1.es = ErrorStatus.MsgAllocFailure
  · refine ⟨fun _ => ⟨_, by rw [if_neg h1, if_neg h2, if_neg h3, if_pos h4]⟩, ?_⟩
    intro v hv
    simp only [viewStep, if_neg h1, if_neg h2, if_neg h3, if_pos h4] at hv
    cases hv
  by_cases h5 : GarbageLimit ≤ s.m_garbage.length + 1
  · have h5b : GarbageLimit ≤ (s.m_garbage ++ [b]).length := by simpa using h5
    constructor
    · intro h
      simp only [viewStep, if_neg h1, if_neg h2, if_neg h3, if_neg h4, if_pos h5] at h
      cases h
    · intro v hv
      simp only [viewStep, if_neg h1, if_neg h2, if_neg h3, if_neg h4, if_pos h5,
        Option.some.injEq] at hv
      subst hv
      simp only [if_neg h1, if_neg h2, if_neg h3, if_neg h4, if_pos h5b]
      refine ⟨_, rfl, ?_, ?_, ?_⟩
      · simp only [unresolved, checkGarbageFunc_m_data, checkGarbageFunc_readIterBeg,
          hadv, List.drop_succ_cons, List.drop_zero]
      · simp only [checkGarbageFunc_m_garbage]
      · simp [checkGarbageFunc_allMsgs]
  · have h5b : ¬ GarbageLimit ≤ (s.m_garbage ++ [b]).length := by simpa using h5
    constructor
    · intro h
      simp only [viewStep, if_neg h1, if_neg h2, if_neg h3, if_neg h4, if_neg h5] at h
      cases h
    · intro v hv
      simp only [viewStep, if_neg h1, if_neg h2, if_neg h3, if_neg h4, if_neg h5,
        Option.some.injEq] at hv
      subst hv
      simp only [if_neg h1, if_neg h2, if_neg h3, if_neg h4, if_neg h5b]
      refine ⟨_, rfl, ?_, ?_, ?_⟩
      · simp only [unresolved, hadv, List.drop_succ_cons, List.drop_zero]
      · simp
      · simp

theorem viewStep_ne_none_es (dataInfo : DataInfo) (r : ReadResult M) (g u : List Byte)
    (v : List Byte × List Byte × List (MsgEntry M)) (h : viewStep dataInfo r g u = some v) :
    r.es ≠ ErrorStatus.NotEnoughData := by
  intro hc
  simp only [viewStep, if_pos hc] at h
  cases h

/-- More bytes behind the unresolved ones do not change what a pass does, as
long as the read result is the same and stays within the bytes it had. -/
theorem viewStep_ext (dataInfo : DataInfo) (r : ReadResult M) (g u R : List Byte)
    (hne : u ≠ [])
    (hin : (r.es = ErrorStatus.Success ∨ r.es = ErrorStatus.InvalidMsgData) →
      r.consumed ≤ u.length) :
    viewStep dataInfo r g (u ++ R)
      = (viewStep dataInfo r g u).map (fun v => (v.1 ++ R, v.2.1, v.2.2)) := by
  have h1len : 1 ≤ u.length := by
    cases u with
    | nil => exact absurd rfl hne
    | cons b rest => simp
  have hd1 : (u ++ R).drop 1 = u.drop 1 ++ R := List.drop_append_of_le_length h1len
  have ht1 : (u ++ R).take 1 = u.take 1 := List.take_append_of_le_length h1len
  by_cases h1 : r.es = ErrorStatus.NotEnoughData
  · simp only [viewStep, if_pos h1, Option.map_none']
  by_cases h2 : r.es = ErrorStatus.Success
  · have hk := hin (Or.inl h2)
    simp only [viewStep, if_neg h1, if_pos h2, Option.map_some',
      List.drop_append_of_le_length hk, List.take_append_of_le_length hk]
  by_cases h3 : r.es = ErrorStatus.InvalidMsgData
  · have hk := hin (Or.inr h3)
    simp only [viewStep, if_neg h1, if_neg h2, if_pos h3, Option.map_some',
      List.drop_append_of_le_length hk, List.take_append_of_le_length hk]
  by_cases h4 : r.es = ErrorStatus.MsgAllocFailure
  · simp only [viewStep, if_neg h1, if_neg h2, if_neg h3, if_pos h4, Option.map_none']
  by_cases h5 : GarbageLimit ≤ g.length + 1
  · simp only [viewStep, if_neg h1, if_neg h2, if_neg h3, if_neg h4, if_pos h5,
      Option.map_some', hd1, ht1]
  · simp only [viewStep, if_neg h1, if_neg h2, if_neg h3, if_neg h4, if_neg h5,
      Option.map_some', hd1, ht1]

theorem read_ext (stack : ProtocolStack S M) (hdet : Deterministic stack)
    (hstab : StableOnceDecided stack) (st1 st2 : S) (d R : List Byte)
    (h : (stack.read st1 d).1.es ≠ ErrorStatus.NotEnoughData) :
    (stack.read st2 (d ++ R)).1 = (stack.read st1 d).1 := by
  have h12 := hdet st2 st1 d
  have h2 : (stack.read st2 d).1.es ≠ ErrorStatus.NotEnoughData := by
    rw [h12]
    exact h
  rw [hstab st2 d R h2, h12]

/-- A pass that continues the loop does the same when more bytes follow the
unresolved ones. -/
theorem loopStep_ext_next (stack : ProtocolStack S M) (hdet : Deterministic stack)
    (hstab : StableOnceDecided stack) (hin : InBounds stack) (dataInfo : DataInfo)
    (R : List Byte) (pre : List (MsgEntry M)) (s t s1 : ReadState S M)
    (hrel : ExtRel R pre s t) (h : loopStep stack dataInfo s = LoopStep.next s1) :
    ∃ t1, loopStep stack dataInfo t = LoopStep.next t1 ∧ ExtRel R pre s1 t1 := by
  obtain ⟨hu_t, hg_t, hm_t⟩ := hrel
  cases hu : unresolved s with
  | nil => rw [loopStep_nil stack dataInfo s hu] at h; cases h
  | cons b rest =>
    obtain ⟨hnone, hsome⟩ := loopStep_view stack dataInfo s b rest hu
    cases hv : viewStep dataInfo (stack.read s.m_protStack (b :: rest)).1 s.m_garbage
        (b :: rest) with
    | none =>
      obtain ⟨s2, hs2⟩ := hnone hv
      rw [hs2] at h
      cases h
    | some v =>
      obtain ⟨s2, hs2, hu2, hg2, hm2⟩ := hsome v hv
      rw [hs2] at h
      simp only [LoopStep.next.injEq] at h
      subst h
      have hes := viewStep_ne_none_es _ _ _ _ _ hv
      have hut : unresolved t = b :: (rest ++ R) := by rw [hu_t, hu]; rfl
      have hread : (stack.read t.m_protStack (b :: (rest ++ R))).1
          = (stack.read s.m_protStack (b :: rest)).1 :=
        read_ext stack hdet hstab s.m_protStack t.m_protStack (b :: rest) R hes
      obtain ⟨_, hsome_t⟩ := loopStep_view stack dataInfo t b (rest ++ R) hut
      have hvt : viewStep dataInfo (stack.read t.m_protStack (b :: (rest ++ R))).1 t.m_garbage
          (b :: (rest ++ R)) = some (v.1 ++ R, v.2.1, v.2.2) := by
        rw [hread, hg_t]
        have := viewStep_ext dataInfo (stack.read s.m_protStack (b :: rest)).1 s.m_garbage
          (b :: rest) R (by simp) (hin s.m_protStack (b :: rest))
        rw [hv] at this
        exact this
      obtain ⟨t1, ht1, hut1, hgt1, hmt1⟩ := hsome_t _ hvt
      refine ⟨t1, ht1, ?_, ?_, ?_⟩
      · rw [hut1, hu2]
      · rw [hgt1, hg2]
      · rw [hmt1, hm2, hm_t, List.append_assoc]

/-- A pass that leaves the loop does the same from a state with the same
unresolved bytes and garbage buffer. -/
theorem loopStep_view_stop (stack : ProtocolStack S M) (hdet : Deterministic stack)
    (dataInfo : DataInfo) (pre : List (MsgEntry M)) (s t s1 : ReadState S M)
    (hrel : ExtRel [] pre s t) (h : loopStep stack dataInfo s = LoopStep.stop s1) :
    ∃ t1, loopStep stack dataInfo t = LoopStep.stop t1 ∧ ExtRel [] pre s1 t1 := by
  have hsame := loopStep_stop_same stack dataInfo s s1 h
  obtain ⟨hu_t, hg_t, hm_t⟩ := hrel
  rw [List.append_nil] at hu_t
  have key : ∀ t1, loopStep stack dataInfo t = LoopStep.stop t1 → ExtRel [] pre s1 t1 := by
    intro t1 ht1
    have hsame_t := loopStep_stop_same stack dataInfo t t1 ht1
    refine ⟨?_, ?_, ?_⟩
    · simp only [unresolved, hsame.1, hsame.2.1, hsame_t.1, hsame_t.2.1, List.append_nil]
      exact hu_t
    · rw [hsame_t.2.2.1, hsame.2.2.1, hg_t]
    · rw [hsame_t.2.2.2, hsame.2.2.2, hm_t]
  cases hu : unresolved s with
  | nil =>
    have hut : unresolved t = [] := by rw [hu_t, hu]
    exact ⟨t, loopStep_nil stack dataInfo t hut, key t (loopStep_nil stack dataInfo t hut)⟩
  | cons b rest =>
    obtain ⟨_, hsome⟩ := loopStep_view stack dataInfo s b rest hu
    cases hv : viewStep dataInfo (stack.read s.m_protStack (b :: rest)).1 s.m_garbage
        (b :: rest) with
    | some v =>
      obtain ⟨s2, hs2, _⟩ := hsome v hv
      rw [hs2] at h
      cases h
    | none =>
      have hut : unresolved t = b :: rest := by rw [hu_t, hu]
      obtain ⟨hnone_t, _⟩ := loopStep_view stack dataInfo t b rest hut
      have hvt : viewStep dataInfo (stack.read t.m_protStack (b :: rest)).1 t.m_garbage
          (b :: rest) = none := by
        rw [hdet t.m_protStack s.m_protStack (b :: rest), hg_t]
        exact hv
      obtain ⟨t1, ht1⟩ := hnone_t hvt
      exact ⟨t1, ht1, key t1 ht1⟩

/-! ### Chunk boundaries: the loop -/

/-- From states with the same unresolved bytes and garbage buffer the loop runs
the same way. -/
theorem readLoop_view (stack : ProtocolStack S M) (hdet : Deterministic stack)
    (hstab : StableOnceDecided stack) (hin : InBounds stack) (dataInfo : DataInfo)
    (pre : List (MsgEntry M)) :
    ∀ (n : Nat) (s t : ReadState S M), ExtRel [] pre s t →
      (readLoop stack dataInfo n s = none → readLoop stack dataInfo n t = none)
        ∧ ∀ s1, readLoop stack dataInfo n s = some s1 →
            ∃ t1, readLoop stack dataInfo n t = some t1 ∧ ExtRel [] pre s1 t1 := by
  intro n
  induction n with
  | zero =>
    intro s t _
    refine ⟨fun _ => rfl, ?_⟩
    intro s1 h
    simp [readLoop] at h
  | succ n ih =>
    intro s t hrel
    simp only [readLoop]
    cases hl : loopStep stack dataInfo s with
    | stop s2 =>
      obtain ⟨t2, ht2, hrel2⟩ := loopStep_view_stop stack hdet dataInfo pre s t s2 hrel hl
      rw [ht2]
      refine ⟨(fun h => nomatch h), ?_⟩
      intro s1 h
      simp only [Option.some.injEq] at h
      subst h
      exact ⟨t2, rfl, hrel2⟩
    | next s2 =>
      obtain ⟨t2, ht2, hrel2⟩ :=
        loopStep_ext_next stack hdet hstab hin dataInfo [] pre s t s2 hrel hl
      rw [ht2]
      exact ih s2 t2 hrel2

/-- A loop that has not left within `n` passes has not left within `n` passes
either when more bytes follow. -/
theorem readLoop_ext_none (stack : ProtocolStack S M) (hdet : Deterministic stack)
    (hstab : StableOnceDecided stack) (hin : InBounds stack) (dataInfo : DataInfo)
    (R : List Byte) (pre : List (MsgEntry M)) :
    ∀ (n : Nat) (s t : ReadState S M), ExtRel R pre s t →
      readLoop stack dataInfo n s = none → readLoop stack dataInfo n t = none := by
  intro n
  induction n with
  | zero => intro s t _ _; rfl
  | succ n ih =>
    intro s t hrel h
    simp only [readLoop] at h ⊢
    cases hl : loopStep stack dataInfo s with
    | stop s2 => rw [hl] at h; cases h
    | next s2 =>
      rw [hl] at h
      obtain ⟨t2, ht2, hrel2⟩ :=
        loopStep_ext_next stack hdet hstab hin dataInfo R pre s t s2 hrel hl
      rw [ht2]
      exact ih s2 t2 hrel2 h

/-- A `Success` or `InvalidMsgData` read that consumes nothing is repeated for
ever by a deterministic stack. -/
theorem readLoop_stuck (stack : ProtocolStack S M) (hdet : Deterministic stack)
    (dataInfo : DataInfo) (b : Byte) (rest : List Byte) :
    ∀ (n : Nat) (s : ReadState S M), unresolved s = b :: rest →
      ((stack.read s.m_protStack (b :: rest)).1.es = ErrorStatus.Success ∨
        (stack.read s.m_protStack (b :: rest)).1.es = ErrorStatus.InvalidMsgData) →
      (stack.read s.m_protStack (b :: rest)).1.consumed = 0 →
      readLoop stack dataInfo n s = none := by
  intro n
  induction n with
  | zero => intro s _ _ _; rfl
  | succ n ih =>
    intro s hu hes hk
    obtain ⟨_, hsome⟩ := loopStep_view stack dataInfo s b rest hu
    have hv : ∃ v, viewStep dataInfo (stack.read s.m_protStack (b :: rest)).1 s.m_garbage
        (b :: rest) = some v ∧ v.1 = b :: rest := by
      cases hv : viewStep dataInfo (stack.read s.m_protStack (b :: rest)).1 s.m_garbage
          (b :: rest) with
      | none =>
        rcases hes with h2 | h3
        · have h1 : (stack.read s.m_protStack (b :: rest)).1.es ≠ ErrorStatus.NotEnoughData := by
            rw [h2]; decide
          simp only [viewStep, if_neg h1, if_pos h2] at hv
          cases hv
        · have h1 : (stack.read s.m_protStack (b :: rest)).1.es ≠ ErrorStatus.NotEnoughData := by
            rw [h3]; decide
          have h2 : (stack.read s.m_protStack (b :: rest)).1.es ≠ ErrorStatus.Success := by
            rw [h3]; decide
          simp only [viewStep, if_neg h1, if_neg h2, if_pos h3] at hv
          cases hv
      | some v =>
        refine ⟨v, rfl, ?_⟩
        rcases hes with h2 | h3
        · have h1 : (stack.read s.m_protStack (b :: rest)).1.es ≠ ErrorStatus.NotEnoughData := by
            rw [h2]; decide
          simp only [viewStep, if_neg h1, if_pos h2, Option.some.injEq] at hv
          subst hv
          simp only [hk, List.drop_zero]
        · have h1 : (stack.read s.m_protStack (b :: rest)).1.es ≠ ErrorStatus.NotEnoughData := by
            rw [h3]; decide
          have h2 : (stack.read s.m_protStack (b :: rest)).1.es ≠ ErrorStatus.Success := by
            rw [h3]; decide
          simp only [viewStep, if_neg h1, if_neg h2, if_pos h3, Option.some.injEq] at hv
          subst hv
          simp only [hk, List.drop_zero]
    obtain ⟨v, hv, hv1⟩ := hv
    obtain ⟨s2, hs2, hu2, _, _⟩ := hsome _ hv
    rw [hv1] at hu2
    simp only [readLoop, hs2]
    have hr := hdet s2.m_protStack s.m_protStack (b :: rest)
    exact ih s2 hu2 (by rw [hr]; exact hes) (by rw [hr]; exact hk)

/-- A pass that continues the loop leaves fewer unresolved bytes, or it is a
`Success` or `InvalidMsgData` read that consumed nothing. -/
theorem loopStep_next_cases (stack : ProtocolStack S M) (dataInfo : DataInfo)
    (s s2 : ReadState S M) (h : loopStep stack dataInfo s = LoopStep.next s2) :
    (unresolved s2).length < (unresolved s).length
      ∨ ∃ b rest, unresolved s = b :: rest
          ∧ ((stack.read s.m_protStack (b :: rest)).1.es = ErrorStatus.Success ∨
              (stack.read s.m_protStack (b :: rest)).1.es = ErrorStatus.InvalidMsgData)
          ∧ (stack.read s.m_protStack (b :: rest)).1.consumed = 0 := by
  cases hu : unresolved s with
  | nil => rw [loopStep_nil stack dataInfo s hu] at h; cases h
  | cons b rest =>
    obtain ⟨hnone, hsome⟩ := loopStep_view stack dataInfo s b rest hu
    cases hv : viewStep dataInfo (stack.read s.m_protStack (b :: rest)).1 s.m_garbage
        (b :: rest) with
    | none =>
      obtain ⟨s3, hs3⟩ := hnone hv
      rw [hs3] at h
      cases h
    | some v =>
      obtain ⟨s3, hs3, hu3, _, _⟩ := hsome v hv
      rw [hs3] at h
      simp only [LoopStep.next.injEq] at h
      subst h
      rw [hu3]
      by_cases h1 : (stack.read s.m_protStack (b :: rest)).1.es = ErrorStatus.NotEnoughData
      · simp only [viewStep, if_pos h1] at hv
        cases hv
      by_cases h2 : (stack.read s.m_protStack (b :: rest)).1.es = ErrorStatus.Success
      · simp only [viewStep, if_neg h1, if_pos h2, Option.some.injEq] at hv
        subst hv
        by_cases hk : (stack.read s.m_protStack (b :: rest)).1.consumed = 0
        · exact Or.inr ⟨b, rest, rfl, Or.inl h2, hk⟩
        · left
          simp only [List.length_drop, List.length_cons]
          omega
      by_cases h3 : (stack.read s.m_protStack (b :: rest)).1.es = ErrorStatus.InvalidMsgData
      · simp only [viewStep, if_neg h1, if_neg h2, if_pos h3, Option.some.injEq] at hv
        subst hv
        by_cases hk : (stack.read s.m_protStack (b :: rest)).1.consumed = 0
        · exact Or.inr ⟨b, rest, rfl, Or.inr h3, hk⟩
        · left
          simp only [List.length_drop, List.length_cons]
          omega
      by_cases h4 : (stack.read s.m_protStack (b :: rest)).1.es = ErrorStatus.MsgAllocFailure
      · simp only [viewStep, if_neg h1, if_neg h2, if_neg h3, if_pos h4] at hv
        cases hv
      left
      by_cases h5 : GarbageLimit ≤ s.m_garbage.length + 1
      · simp only [viewStep, if_neg h1, if_neg h2, if_neg h3, if_neg h4, if_pos h5,
          Option.some.injEq] at hv
        subst hv
        simp
      · simp only [viewStep, if_neg h1, if_neg h2, if_neg h3, if_neg h4, if_neg h5,
          Option.some.injEq] at hv
        subst hv
        simp

/-- In a run of the loop that is left, every pass that continues leaves fewer
unresolved bytes. -/
theorem readLoop_some_decreases (stack : ProtocolStack S M) (hdet : Deterministic stack)
    (dataInfo : DataInfo) (n : Nat) (s s1 s2 : ReadState S M)
    (h : readLoop stack dataInfo n s = some s1)
    (hl : loopStep stack dataInfo s = LoopStep.next s2) :
    (unresolved s2).length < (unresolved s).length := by
  rcases loopStep_next_cases stack dataInfo s s2 hl with hlt | ⟨b, rest, hu, hes, hk⟩
  · exact hlt
  · rw [readLoop_stuck stack hdet dataInfo b rest n s hu hes hk] at h
    cases h

/-- A loop on a deterministic stack that has not left after more passes than
there are unresolved bytes never leaves. -/
theorem readLoop_none_forever (stack : ProtocolStack S M) (hdet : Deterministic stack)
    (dataInfo : DataInfo) :
    ∀ (m : Nat) (s : ReadState S M), (unresolved s).length < m →
      readLoop stack dataInfo m s = none → ∀ n, readLoop stack dataInfo n s = none := by
  intro m
  induction m with
  | zero => intro s h; omega
  | succ m ih =>
    intro s hlen h n
    simp only [readLoop] at h
    cases hl : loopStep stack dataInfo s with
    | stop s2 => rw [hl] at h; cases h
    | next s2 =>
      rw [hl] at h
      rcases loopStep_next_cases stack dataInfo s s2 hl with hlt | ⟨b, rest, hu, hes, hk⟩
      · cases n with
        | zero => rfl
        | succ n =>
          simp only [readLoop, hl]
          exact ih s2 (by omega) h n
      · exact readLoop_stuck stack hdet dataInfo b rest n s hu hes hk

/-- A loop that is left runs through the same continuing passes when more bytes
follow; the state it then stands in relates to the state the loop was left in. -/
theorem readLoop_ext_some (stack : ProtocolStack S M) (hdet : Deterministic stack)
    (hstab : StableOnceDecided stack) (hin : InBounds stack) (dataInfo : DataInfo)
    (R : List Byte) (pre : List (MsgEntry M)) :
    ∀ (n : Nat) (s t s1 : ReadState S M), ExtRel R pre s t →
      readLoop stack dataInfo n s = some s1 →
      ∃ j tb, j < n ∧ passStart stack dataInfo j t = some tb ∧ ExtRel R pre s1 tb
        ∧ j + (unresolved s1).length ≤ (unresolved s).length := by
  intro n
  induction n with
  | zero => intro s t s1 _ h; simp [readLoop] at h
  | succ n ih =>
    intro s t s1 hrel h
    have hfull := h
    simp only [readLoop] at h
    cases hl : loopStep stack dataInfo s with
    | stop s2 =>
      rw [hl] at h
      simp only [Option.some.injEq] at h
      subst h
      have hsame := loopStep_stop_same stack dataInfo s s2 hl
      have hu : unresolved s2 = unresolved s := by
        simp only [unresolved, hsame.1, hsame.2.1]
      refine ⟨0, t, by omega, rfl, ?_, by rw [hu]; omega⟩
      obtain ⟨h1, h2, h3⟩ := hrel
      exact ⟨by rw [h1, hu], by rw [h2, hsame.2.2.1], by rw [h3, hsame.2.2.2]⟩
    | next s2 =>
      rw [hl] at h
      obtain ⟨t2, ht2, hrel2⟩ :=
        loopStep_ext_next stack hdet hstab hin dataInfo R pre s t s2 hrel hl
      obtain ⟨j, tb, hj, hpass, hrelb, hbound⟩ := ih s2 t2 s1 hrel2 h
      have hdec := readLoop_some_decreases stack hdet dataInfo (n + 1) s s1 s2 hfull hl
      refine ⟨j + 1, tb, by omega, ?_, hrelb, by omega⟩
      simp only [passStart, ht2]
      exact hpass

/-! ### Chunk boundaries: calls -/

theorem finalFlush_allMsgs (dataInfo : DataInfo) (s : ReadState S M) :
    (finalFlush dataInfo s).allMsgs
      = s.allMsgs ++ (if s.m_garbage ++ unresolved s = [] then []
          else [garbageMsg dataInfo (s.m_garbage ++ unresolved s)]) := by
  simp only [finalFlush, checkGarbageFunc_allMsgs, unresolved]

/-- The end of a call keeps states with the same unresolved bytes and garbage
buffer related. -/
theorem finish_view (dataInfo : DataInfo) (final : Bool) (pre : List (MsgEntry M))
    (s t : ReadState S M) (hrel : ExtRel [] pre s t) :
    ExtRel [] pre (if final then finalFlush dataInfo s else s)
      (if final then finalFlush dataInfo t else t) := by
  cases final with
  | false => simpa using hrel
  | true =>
    obtain ⟨h1, h2, h3⟩ := hrel
    rw [List.append_nil] at h1
    simp only [if_true]
    refine ⟨?_, ?_, ?_⟩
    · rw [finalFlush_unresolved, finalFlush_unresolved]
      rfl
    · rw [finalFlush_m_garbage, finalFlush_m_garbage]
    · rw [finalFlush_allMsgs, finalFlush_allMsgs, h1, h2, h3, List.append_assoc]

/-- Two calls in a row, the first without the final flag, give what one call
with the two chunks joined gives. -/
theorem readImpl_merge (stack : ProtocolStack S M) (hdet : Deterministic stack)
    (hstab : StableOnceDecided stack) (hin : InBounds stack) (self : ProtocolBase S)
    (P R : List Byte) (extra : ExtraProps) (final : Bool) (n : Nat)
    (hn : self.m_data.length + P.length + R.length < n) :
    observe (readAll n stack self [(⟨P, extra⟩, false), (⟨R, extra⟩, final)])
      = observe (readImpl n stack self ⟨P ++ R, extra⟩ final) := by
  have e1 : (⟨P, extra⟩ : DataInfo).m_extraProperties
      = (⟨P ++ R, extra⟩ : DataInfo).m_extraProperties := rfl
  have e2 : (⟨R, extra⟩ : DataInfo).m_extraProperties
      = (⟨P ++ R, extra⟩ : DataInfo).m_extraProperties := rfl
  have hrel0 : ExtRel R [] (readStart self ⟨P, extra⟩ : ReadState S M)
      (readStart self ⟨P ++ R, extra⟩) := by
    refine ⟨?_, rfl, rfl⟩
    simp [unresolved, readStart]
  simp only [readAll, readImpl, readLoop_extra stack _ _ e1, readLoop_extra stack _ _ e2,
    finalFlush_extra _ _ e2]
  cases h1 : readLoop stack ⟨P ++ R, extra⟩ n (readStart self ⟨P, extra⟩) with
  | none =>
    rw [readLoop_ext_none stack hdet hstab hin _ R [] n _ _ hrel0 h1]
  | some s1 =>
    obtain ⟨j, tb, hj, hpass, hrelb, hbound⟩ :=
      readLoop_ext_some stack hdet hstab hin _ R [] n _ _ s1 hrel0 h1
    have hnj : n = j + (n - j) := by omega
    have hlong : readLoop stack ⟨P ++ R, extra⟩ n (readStart self ⟨P ++ R, extra⟩)
        = readLoop stack ⟨P ++ R, extra⟩ (n - j) tb := by
      conv_lhs => rw [hnj]
      exact readLoop_passStart stack _ j (n - j) _ tb hpass
    rw [hlong]
    simp only [Bool.false_eq_true, if_false]
    have hrel2 : ExtRel [] s1.allMsgs
        (readStart (eraseGuard s1) ⟨R, extra⟩ : ReadState S M) tb := by
      obtain ⟨hb1, hb2, hb3⟩ := hrelb
      refine ⟨?_, ?_, ?_⟩
      · rw [hb1]
        simp [unresolved, readStart, eraseGuard]
      · rw [hb2]
        rfl
      · rw [hb3]
        simp [readStart]
    have hview := readLoop_view stack hdet hstab hin ⟨P ++ R, extra⟩ s1.allMsgs (n - j) _ _ hrel2
    have hlen0 : (unresolved (readStart self ⟨P, extra⟩ : ReadState S M)).length
        = self.m_data.length + P.length := by
      simp [unresolved, readStart]
    have hlen2 : (unresolved (readStart (eraseGuard s1) ⟨R, extra⟩ : ReadState S M)).length
        = (unresolved s1).length + R.length := by
      simp [unresolved, readStart, eraseGuard]
    cases h2 : readLoop stack ⟨P ++ R, extra⟩ (n - j) (readStart (eraseGuard s1) ⟨R, extra⟩) with
    | none =>
      rw [hview.1 h2]
      rw [readLoop_none_forever stack hdet _ (n - j) _ (by rw [hlen2]; omega) h2 n]
    | some s2 =>
      obtain ⟨t2, ht2, hrel3⟩ := hview.2 s2 h2
      rw [ht2, readLoop_mono stack _ (n - j) n _ s2 (by omega) h2]
      obtain ⟨k1, k2, k3⟩ := finish_view ⟨P ++ R, extra⟩ final s1.allMsgs s2 t2 hrel3
      rw [List.append_nil] at k1
      simp only [unresolved] at k1
      simp only [observe, Option.map_some', eraseGuard, k1, k2, k3, List.append_nil]

theorem flatten_cons_bytes (c : List Byte) (xs : List (List Byte)) :
    (c :: xs).flatten = c ++ xs.flatten := by
  simp [List.flatten]

theorem ingested_chunkCalls (extra : ExtraProps) :
    ∀ xs : List (List Byte), ingested (chunkCalls extra xs) = xs.flatten := by
  intro xs
  induction xs with
  | nil => rfl
  | cons c rest ih =>
    cases rest with
    | nil => simp [chunkCalls, ingested]
    | cons c2 rest2 =>
      simp only [chunkCalls, ingested_cons, ih, flatten_cons_bytes]

/-- What is observed of two calls in a row depends on the second call only
through what is observed of it. -/
theorem observe_glue (msgs1 : List (MsgEntry M))
    (x y : Option (List (MsgEntry M) × ProtocolBase S)) (h : observe x = observe y) :
    observe (match x with
        | none => none
        | some (msgs2, self2) => some (msgs1 ++ msgs2, self2))
      = observe (match y with
        | none => none
        | some (msgs2, self2) => some (msgs1 ++ msgs2, self2)) := by
  cases x with
  | none =>
    cases y with
    | none => rfl
    | some b => simp [observe] at h
  | some a =>
    cases y with
    | none => simp [observe] at h
    | some b =>
      simp only [observe, Option.map_some', Option.some.injEq, Prod.mk.injEq] at h ⊢
      obtain ⟨h1, h2, h3⟩ := h
      exact ⟨by rw [h1], h2, h3⟩

/-- Handing in a splitting chunk by chunk, the final flag on the last chunk,
gives what one final call with all the bytes gives. -/
theorem readAll_chunkCalls (stack : ProtocolStack S M) (hdet : Deterministic stack)
    (hstab : StableOnceDecided stack) (hin : InBounds stack) (extra : ExtraProps) (n : Nat) :
    ∀ (xs : List (List Byte)) (c : List Byte) (self : ProtocolBase S),
      self.m_data.length + c.length + xs.flatten.length < n →
      observe (readAll n stack self (chunkCalls extra (c :: xs)))
        = observe (readImpl n stack self ⟨c ++ xs.flatten, extra⟩ true) := by
  intro xs
  induction xs with
  | nil =>
    intro c self _
    simp only [chunkCalls, readAll_single, List.flatten_nil, List.append_nil]
  | cons c2 rest ih =>
    intro c self hn
    rw [flatten_cons_bytes] at hn ⊢
    simp only [List.length_append] at hn
    rw [← readImpl_merge stack hdet hstab hin self c (c2 ++ rest.flatten) extra true n
      (by simp only [List.length_append]; omega)]
    simp only [chunkCalls, readAll]
    cases h1 : readImpl n stack self ⟨c, extra⟩ false with
    | none => rfl
    | some r1 =>
      obtain ⟨msgs1, selfA⟩ := r1
      simp only []
      have hle := readImpl_m_data_le n stack self selfA ⟨c, extra⟩ false msgs1 h1
      simp only [] at hle
      have hih := ih c2 selfA (by omega)
      have hsingle := readAll_single n stack selfA ⟨c2 ++ rest.flatten, extra⟩ true
      simp only [readAll] at hsingle
      rw [← hsingle] at hih
      exact observe_glue msgs1 _ _ hih

theorem frameStack_deterministic : Deterministic frameStack := by
  intro st1 st2 d
  cases d with
  | nil => rfl
  | cons b rest =>
    simp only [frameStack]
    split_ifs <;> rfl

theorem frameStack_stable : StableOnceDecided frameStack := by
  intro st d e h
  cases d with
  | nil => simp [frameStack] at h
  | cons b rest =>
    simp only [frameStack, List.cons_append] at h ⊢
    by_cases h1 : 128 ≤ b.val
    · simp only [if_pos h1]
    by_cases h2 : b.val = 0
    · simp only [if_neg h1, if_pos h2]
    by_cases h3 : rest.length < b.val
    · simp [if_neg h1, if_neg h2, if_pos h3] at h
    · have h4 : ¬ (rest ++ e).length < b.val := by
        simp only [List.length_append]
        omega
      simp only [if_neg h1, if_neg h2, if_neg h3, if_neg h4]
      rw [List.take_append_of_le_length (by omega)]

theorem frameStack_inBounds : InBounds frameStack := by
  intro st d hes
  cases d with
  | nil => simp [frameStack] at hes
  | cons b rest =>
    simp only [frameStack] at hes ⊢
    by_cases h1 : 128 ≤ b.val
    · simp [if_pos h1] at hes
    by_cases h2 : b.val = 0
    · simp [if_neg h1, if_pos h2]
    by_cases h3 : rest.length < b.val
    · simp [if_neg h1, if_neg h2, if_pos h3] at hes
    · simp only [if_neg h1, if_neg h2, if_neg h3, List.length_cons]
      omega

/-- C2 (chunk-boundary independence of `readImpl`): for a deterministic protocol
stack whose read result, once it is not NotEnoughData, is the same for every
longer available length (and whose reads stay within the bytes they are given),
any two ways of splitting one byte sequence into chunks, handed in with the same
extra properties and the final flag on the last chunk only, give the same
outcome: the same ordered list of messages, with the same raw bytes, over all
calls (or no return of the calls in both cases); and when the stack makes
progress, the calls do return. -/
theorem readImpl_chunk_independent (stack : ProtocolStack S M) (hdet : Deterministic stack)
    (hstab : StableOnceDecided stack) (hin : InBounds stack) (stack0 : S)
    (extra : ExtraProps) (xs ys : List (List Byte)) (hx : xs ≠ []) (hy : ys ≠ [])
    (hcat : xs.flatten = ys.flatten) (fuel : Nat) (hfuel : xs.flatten.length < fuel) :
    observe (readAll fuel stack (init stack0) (chunkCalls extra xs))
        = observe (readAll fuel stack (init stack0) (chunkCalls extra ys))
      ∧ (Progress stack →
          ∃ r, observe (readAll fuel stack (init stack0) (chunkCalls extra xs)) = some r
            ∧ observe (readAll fuel stack (init stack0) (chunkCalls extra ys)) = some r) := by
  have key : observe (readAll fuel stack (init stack0) (chunkCalls extra xs))
      = observe (readAll fuel stack (init stack0) (chunkCalls extra ys)) := by
    cases xs with
    | nil => exact absurd rfl hx
    | cons c xs1 =>
      cases ys with
      | nil => exact absurd rfl hy
      | cons d ys1 =>
        rw [flatten_cons_bytes] at hfuel
        rw [flatten_cons_bytes, flatten_cons_bytes] at hcat
        have hlen := congrArg List.length hcat
        simp only [List.length_append] at hfuel hlen
        rw [readAll_chunkCalls stack hdet hstab hin extra fuel xs1 c (init stack0)
              (by simp only [init, List.length_nil]; omega),
          readAll_chunkCalls stack hdet hstab hin extra fuel ys1 d (init stack0)
              (by simp only [init, List.length_nil]; omega),
          hcat]
  refine ⟨key, ?_⟩
  intro hprog
  obtain ⟨r, hr⟩ := readAll_returns fuel stack hprog (chunkCalls extra xs) (init stack0)
    (by rw [ingested_chunkCalls]; simpa [init] using hfuel)
  refine ⟨(r.1, r.2.m_data, r.2.m_garbage), ?_, ?_⟩
  · rw [hr]; rfl
  · rw [← key, hr]; rfl

theorem readImpl_chunk_independent_witness :
    Deterministic frameStack ∧ StableOnceDecided frameStack ∧ InBounds frameStack
      ∧ ([[2, 7], [8, 200, 0, 3, 1]] : List (List Byte)) ≠ []
      ∧ ([[2, 7, 8, 200], [0], [3, 1]] : List (List Byte)) ≠ []
      ∧ ([[2, 7], [8, 200, 0, 3, 1]] : List (List Byte)).flatten
          = ([[2, 7, 8, 200], [0], [3, 1]] : List (List Byte)).flatten
      ∧ ([[2, 7], [8, 200, 0, 3, 1]] : List (List Byte)).flatten.length < 8
      ∧ (observe (readAll 8 frameStack (init 0) (chunkCalls [] [[2, 7], [8, 200, 0, 3, 1]]))
            = observe (readAll 8 frameStack (init 0) (chunkCalls [] [[2, 7, 8, 200], [0], [3, 1]]))
          ∧ (Progress frameStack →
              ∃ r, observe (readAll 8 frameStack (init 0)
                      (chunkCalls [] [[2, 7], [8, 200, 0, 3, 1]])) = some r
                ∧ observe (readAll 8 frameStack (init 0)
                      (chunkCalls [] [[2, 7, 8, 200], [0], [3, 1]])) = some r)) :=
  ⟨frameStack_deterministic, frameStack_stable, frameStack_inBounds, by decide, by decide,
    by decide, by decide,
    readImpl_chunk_independent frameStack frameStack_deterministic frameStack_stable
      frameStack_inBounds 0 [] [[2, 7], [8, 200, 0, 3, 1]] [[2, 7, 8, 200], [0], [3, 1]]
      (by decide) (by decide) (by decide) 8 (by decide)⟩

/-- The two splittings of the witness, run on the model: the same four messages. -/
theorem chunkCalls_frameStack_example :
    observe (readAll 8 frameStack (init 0) (chunkCalls [] [[2, 7, 8, 200], [0], [3, 1]]))
      = some
          ([ { msg := MsgObject.protocol [7, 8], transport := some [2, 7, 8],
               rawData := [2, 7, 8], extraInfo := none },
             { msg := MsgObject.invalid, transport := none, rawData := [200],
               extraInfo := none },
             { msg := MsgObject.invalid, transport := some [0], rawData := [0],
               extraInfo := none },
             { msg := MsgObject.invalid, transport := none, rawData := [3, 1],
               extraInfo := none } ], [], []) := by
  decide

/-! ### The branches of the loop body, one by one -/

theorem checkGarbageFunc_eq (dataInfo : DataInfo) (s : ReadState S M) :
    checkGarbageFunc dataInfo s
      = { s with
          allMsgs := s.allMsgs ++
            (if s.m_garbage = [] then [] else [garbageMsg dataInfo s.m_garbage]),
          m_garbage := [] } := by
  by_cases h : s.m_garbage = []
  · rw [checkGarbageFunc_of_nil dataInfo s h]
    cases s
    simp only [] at h
    simp [h]
  · rw [checkGarbageFunc_of_ne dataInfo s h]
    simp [h]

theorem unresolved_ne_nil (s : ReadState S M) (hc : s.readIterBeg < s.m_data.length) :
    unresolved s = s.m_data[s.readIterBeg] :: s.m_data.drop (s.readIterBeg + 1) := by
  simp only [unresolved]
  exact List.drop_eq_getElem_cons hc

theorem spanMsg_rawData (dataInfo : DataInfo) (p : MsgObject M) (span : List Byte) :
    (spanMsg dataInfo p span).rawData = span := by
  simp [spanMsg, setExtraInfoFunc_rawData]

theorem spanMsg_msg (dataInfo : DataInfo) (p : MsgObject M) (span : List Byte) :
    (spanMsg dataInfo p span).msg = p := by
  simp [spanMsg, setExtraInfoFunc_msg]

theorem spanMsg_transport (dataInfo : DataInfo) (p : MsgObject M) (span : List Byte) :
    (spanMsg dataInfo p span).transport = some span := by
  simp [spanMsg, setExtraInfoFunc_transport]

theorem garbageMsg_msg (dataInfo : DataInfo) (g : List Byte) :
    (garbageMsg dataInfo g : MsgEntry M).msg = MsgObject.invalid := by
  simp [garbageMsg, setExtraInfoFunc_msg]

theorem garbageMsg_transport (dataInfo : DataInfo) (g : List Byte) :
    (garbageMsg dataInfo g : MsgEntry M).transport = none := by
  simp [garbageMsg, setExtraInfoFunc_transport]

/-- The `Success` branch of the loop body, written out. -/
theorem loopStep_success_eq (stack : ProtocolStack S M) (dataInfo : DataInfo)
    (s : ReadState S M) (hc : s.readIterBeg < s.m_data.length)
    (hes : (stack.read s.m_protStack (unresolved s)).1.es = ErrorStatus.Success) :
    loopStep stack dataInfo s =
      LoopStep.next
        { m_protStack := (stack.read s.m_protStack (unresolved s)).2,
          m_data := s.m_data,
          m_garbage := [],
          readIterBeg := s.readIterBeg + (stack.read s.m_protStack (unresolved s)).1.consumed,
          allMsgs := s.allMsgs ++
            (if s.m_garbage = [] then [] else [garbageMsg dataInfo s.m_garbage]) ++
            [spanMsg dataInfo
              (MsgObject.protocol (stack.read s.m_protStack (unresolved s)).1.msgPtr)
              ((s.m_data.drop s.readIterBeg).take
                (stack.read s.m_protStack (unresolved s)).1.consumed)] } := by
  have hu := unresolved_ne_nil s hc
  rw [loopStep_cons stack dataInfo s _ _ hu]
  rw [hu] at hes
  have h1 : (stack.read s.m_protStack
      (s.m_data[s.readIterBeg] :: s.m_data.drop (s.readIterBeg + 1))).1.es
        ≠ ErrorStatus.NotEnoughData := by rw [hes]; decide
  simp only [if_neg h1, if_pos hes, checkGarbageFunc_eq, setExtrasFunc_view, spanMsg, hu]

/-- The `InvalidMsgData` branch of the loop body, written out. -/
theorem loopStep_invalid_eq (stack : ProtocolStack S M) (dataInfo : DataInfo)
    (s : ReadState S M) (hc : s.readIterBeg < s.m_data.length)
    (hes : (stack.read s.m_protStack (unresolved s)).1.es = ErrorStatus.InvalidMsgData) :
    loopStep stack dataInfo s =
      LoopStep.next
        { m_protStack := (stack.read s.m_protStack (unresolved s)).2,
          m_data := s.m_data,
          m_garbage := [],
          readIterBeg := s.readIterBeg + (stack.read s.m_protStack (unresolved s)).1.consumed,
          allMsgs := s.allMsgs ++
            (if s.m_garbage = [] then [] else [garbageMsg dataInfo s.m_garbage]) ++
            [spanMsg dataInfo MsgObject.invalid
              ((s.m_data.drop s.readIterBeg).take
                (stack.read s.m_protStack (unresolved s)).1.consumed)] } := by
  have hu := unresolved_ne_nil s hc
  rw [loopStep_cons stack dataInfo s _ _ hu]
  rw [hu] at hes
  have h1 : (stack.read s.m_protStack
      (s.m_data[s.readIterBeg] :: s.m_data.drop (s.readIterBeg + 1))).1.es
        ≠ ErrorStatus.NotEnoughData := by rw [hes]; decide
  have h2 : (stack.read s.m_protStack
      (s.m_data[s.readIterBeg] :: s.m_data.drop (s.readIterBeg + 1))).1.es
        ≠ ErrorStatus.Success := by rw [hes]; decide
  simp only [if_neg h1, if_neg h2, if_pos hes, checkGarbageFunc_eq, setExtrasFunc_view,
    spanMsg, hu]

/-- The `NotEnoughData` branch of the loop body, written out. -/
theorem loopStep_notEnoughData_eq (stack : ProtocolStack S M) (dataInfo : DataInfo)
    (s : ReadState S M) (hc : s.readIterBeg < s.m_data.length)
    (hes : (stack.read s.m_protStack (unresolved s)).1.es = ErrorStatus.NotEnoughData) :
    loopStep stack dataInfo s =
      LoopStep.stop { s with m_protStack := (stack.read s.m_protStack (unresolved s)).2 } := by
  have hu := unresolved_ne_nil s hc
  rw [loopStep_cons stack dataInfo s _ _ hu]
  rw [hu] at hes
  simp only [if_pos hes, hu]

/-! ### A frame that arrives in two calls -/

/-- A call without the final flag whose first read asks for more data returns
nothing and keeps every byte. -/
theorem readImpl_stall (stack : ProtocolStack S M) (self : ProtocolBase S)
    (dataInfo : DataInfo) (fuel : Nat) (hne : self.m_data ++ dataInfo.m_data ≠ [])
    (hes : (stack.read self.m_protStack (self.m_data ++ dataInfo.m_data)).1.es
      = ErrorStatus.NotEnoughData) :
    readImpl (fuel + 1) stack self dataInfo false
      = some ([],
          { m_protStack := (stack.read self.m_protStack (self.m_data ++ dataInfo.m_data)).2,
            m_data := self.m_data ++ dataInfo.m_data, m_garbage := self.m_garbage }) := by
  have hc : (readStart self dataInfo : ReadState S M).readIterBeg
      < (readStart self dataInfo : ReadState S M).m_data.length := by
    simp only [readStart]
    exact List.length_pos.mpr hne
  have hu : unresolved (readStart self dataInfo : ReadState S M)
      = self.m_data ++ dataInfo.m_data := by
    simp [unresolved, readStart]
  have hstep := loopStep_notEnoughData_eq stack dataInfo (readStart self dataInfo) hc
    (by rw [hu]; exact hes)
  simp only [readImpl, readLoop, hstep, hu]
  simp [eraseGuard, readStart]

/-- A call whose first read succeeds and consumes every byte held returns the
pending garbage, if any, as an invalid message, then the decoded message, and
leaves both buffers empty. -/
theorem readImpl_whole_frame (stack : ProtocolStack S M) (self : ProtocolBase S)
    (dataInfo : DataInfo) (final : Bool) (fuel : Nat)
    (hne : self.m_data ++ dataInfo.m_data ≠ [])
    (hes : (stack.read self.m_protStack (self.m_data ++ dataInfo.m_data)).1.es
      = ErrorStatus.Success)
    (hall : (stack.read self.m_protStack (self.m_data ++ dataInfo.m_data)).1.consumed
      = (self.m_data ++ dataInfo.m_data).length) :
    readImpl (fuel + 2) stack self dataInfo final
      = some
          ((if self.m_garbage = [] then [] else [garbageMsg dataInfo self.m_garbage]) ++
            [spanMsg dataInfo
              (MsgObject.protocol
                (stack.read self.m_protStack (self.m_data ++ dataInfo.m_data)).1.msgPtr)
              (self.m_data ++ dataInfo.m_data)],
           { m_protStack := (stack.read self.m_protStack (self.m_data ++ dataInfo.m_data)).2,
             m_data := [], m_garbage := [] }) := by
  have hc : (readStart self dataInfo : ReadState S M).readIterBeg
      < (readStart self dataInfo : ReadState S M).m_data.length := by
    simp only [readStart]
    exact List.length_pos.mpr hne
  have hu : unresolved (readStart self dataInfo : ReadState S M)
      = self.m_data ++ dataInfo.m_data := by
    simp [unresolved, readStart]
  have hstep := loopStep_success_eq stack dataInfo (readStart self dataInfo) hc
    (by rw [hu]; exact hes)
  rw [hu] at hstep
  have hfuel : fuel + 2 = (fuel + 1) + 1 := rfl
  have htake : List.take (self.m_data.length + dataInfo.m_data.length)
      (self.m_data ++ dataInfo.m_data) = self.m_data ++ dataInfo.m_data := by
    rw [← List.length_append]
    exact List.take_length _
  rw [readImpl, hfuel, readLoop, hstep]
  simp only []
  rw [readLoop, loopStep_nil stack dataInfo _ (by simp [unresolved, readStart, hall])]
  simp only []
  cases final with
  | false => simp [eraseGuard, readStart, hall, htake]
  | true =>
    simp only [if_true, finalFlush]
    rw [checkGarbageFunc_of_nil _ _ (by simp [readStart, hall])]
    simp [eraseGuard, readStart, hall, htake]

/-- C11 (NotEnoughData stall): if the final flag is not set and the first read
of a call returns NotEnoughData, the call returns no messages and leaves the
garbage buffer as it was and the accumulation buffer as the previous buffer
followed by the whole chunk; if the following call supplies the rest of the
frame, so that the read succeeds and consumes every accumulated byte, that call
returns exactly one decoded message, wrapping the entire accumulated span (and
before it the pending garbage as one invalid message, if there is any), and
leaves the accumulation buffer empty. -/
theorem notEnoughData_stall (stack : ProtocolStack S M) (self : ProtocolBase S)
    (d1 d2 : DataInfo) (final2 : Bool) (fuel : Nat)
    (hne : self.m_data ++ d1.m_data ≠ [])
    (hes : (stack.read self.m_protStack (self.m_data ++ d1.m_data)).1.es
      = ErrorStatus.NotEnoughData) :
    readImpl (fuel + 1) stack self d1 false
        = some ([],
            { m_protStack := (stack.read self.m_protStack (self.m_data ++ d1.m_data)).2,
              m_data := self.m_data ++ d1.m_data, m_garbage := self.m_garbage })
      ∧ ((stack.read (stack.read self.m_protStack (self.m_data ++ d1.m_data)).2
              (self.m_data ++ d1.m_data ++ d2.m_data)).1.es = ErrorStatus.Success →
          (stack.read (stack.read self.m_protStack (self.m_data ++ d1.m_data)).2
              (self.m_data ++ d1.m_data ++ d2.m_data)).1.consumed
            = (self.m_data ++ d1.m_data ++ d2.m_data).length →
          readImpl (fuel + 2) stack
              { m_protStack := (stack.read self.m_protStack (self.m_data ++ d1.m_data)).2,
                m_data := self.m_data ++ d1.m_data, m_garbage := self.m_garbage } d2 final2
            = some
                ((if self.m_garbage = [] then [] else [garbageMsg d2 self.m_garbage]) ++
                  [spanMsg d2
                    (MsgObject.protocol
                      (stack.read (stack.read self.m_protStack (self.m_data ++ d1.m_data)).2
                        (self.m_data ++ d1.m_data ++ d2.m_data)).1.msgPtr)
                    (self.m_data ++ d1.m_data ++ d2.m_data)],
                 { m_protStack :=
                     (stack.read (stack.read self.m_protStack (self.m_data ++ d1.m_data)).2
                        (self.m_data ++ d1.m_data ++ d2.m_data)).2,
                   m_data := [], m_garbage := [] })
            ∧ (spanMsg d2
                  (MsgObject.protocol
                    (stack.read (stack.read self.m_protStack (self.m_data ++ d1.m_data)).2
                      (self.m_data ++ d1.m_data ++ d2.m_data)).1.msgPtr)
                  (self.m_data ++ d1.m_data ++ d2.m_data)).rawData
                = self.m_data ++ d1.m_data ++ d2.m_data) := by
  refine ⟨readImpl_stall stack self d1 fuel hne hes, ?_⟩
  intro hs hall
  refine ⟨?_, spanMsg_rawData _ _ _⟩
  exact readImpl_whole_frame stack _ d2 final2 fuel
    (by simp only []; intro hc; exact hne (List.append_eq_nil.mp hc).1) hs hall

theorem notEnoughData_stall_witness :
    ([2, 7] : List Byte) ≠ []
      ∧ (frameStack.read 0 [2, 7]).1.es = ErrorStatus.NotEnoughData
      ∧ (readImpl 1 frameStack (init 0) ⟨[2, 7], []⟩ false
            = some ([], { m_protStack := 1, m_data := [2, 7], m_garbage := [] })
          ∧ ((frameStack.read 1 [2, 7, 8]).1.es = ErrorStatus.Success →
              (frameStack.read 1 [2, 7, 8]).1.consumed = 3 →
              readImpl 2 frameStack { m_protStack := 1, m_data := [2, 7], m_garbage := [] }
                  ⟨[8], []⟩ false
                = some
                    ([spanMsg ⟨[8], []⟩ (MsgObject.protocol [7, 8]) [2, 7, 8]],
                     { m_protStack := 2, m_data := [], m_garbage := [] })
                ∧ (spanMsg ⟨[8], []⟩ (MsgObject.protocol [7, 8]) [2, 7, 8] :
                      MsgEntry (List Byte)).rawData
                    = [2, 7, 8])) :=
  ⟨by decide, by decide,
    notEnoughData_stall frameStack (init 0) ⟨[2, 7], []⟩ ⟨[8], []⟩ false 0
      (by decide) (by decide)⟩

/-- The frame of the witness, run on the model: nothing after the first call,
one decoded message wrapping all three bytes after the second. -/
theorem readAll_split_frame_example :
    readAll 2 frameStack (init 0) [(⟨[2, 7], []⟩, false), (⟨[8], []⟩, false)]
      = some
          ([ { msg := MsgObject.protocol [7, 8], transport := some [2, 7, 8],
               rawData := [2, 7, 8], extraInfo := none } ],
           { m_protStack := 2, m_data := [], m_garbage := [] }) := by
  decide

/-- C12 (Success step of `readImpl`): when the stack's read at the cursor returns
Success having consumed `k` bytes, the pass appends to the output list one
invalid message wrapping the whole pending garbage buffer if and only if that
buffer is not empty, and right after it the decoded message (the stack's message
object) whose raw bytes are exactly the `k` bytes of `m_data` from the cursor on;
afterwards the garbage buffer is empty and the cursor has moved by `k`. -/
theorem success_step (stack : ProtocolStack S M) (dataInfo : DataInfo) (s : ReadState S M)
    (hc : s.readIterBeg < s.m_data.length)
    (hes : (stack.read s.m_protStack (unresolved s)).1.es = ErrorStatus.Success) :
    ∃ m : MsgEntry M,
      loopStep stack dataInfo s =
          LoopStep.next
            { m_protStack := (stack.read s.m_protStack (unresolved s)).2,
              m_data := s.m_data,
              m_garbage := [],
              readIterBeg :=
                s.readIterBeg + (stack.read s.m_protStack (unresolved s)).1.consumed,
              allMsgs := s.allMsgs ++
                (if s.m_garbage = [] then [] else [garbageMsg dataInfo s.m_garbage]) ++ [m] }
        ∧ m.msg = MsgObject.protocol (stack.read s.m_protStack (unresolved s)).1.msgPtr
        ∧ m.rawData = (s.m_data.drop s.readIterBeg).take
            (stack.read s.m_protStack (unresolved s)).1.consumed
        ∧ (garbageMsg dataInfo s.m_garbage : MsgEntry M).msg = MsgObject.invalid
        ∧ (garbageMsg dataInfo s.m_garbage : MsgEntry M).rawData = s.m_garbage :=
  ⟨_, loopStep_success_eq stack dataInfo s hc hes, spanMsg_msg _ _ _, spanMsg_rawData _ _ _,
    garbageMsg_msg _ _, garbageMsg_rawData _ _⟩

theorem success_step_witness :
    (0 : Nat) < ([1, 9] : List Byte).length
      ∧ (frameStack.read 0 [1, 9]).1.es = ErrorStatus.Success
      ∧ ∃ m : MsgEntry (List Byte),
          loopStep frameStack ⟨[], []⟩
              { m_protStack := 0, m_data := [1, 9], m_garbage := [200], readIterBeg := 0,
                allMsgs := [] }
            = LoopStep.next
                { m_protStack := 1, m_data := [1, 9], m_garbage := [], readIterBeg := 2,
                  allMsgs := [garbageMsg ⟨[], []⟩ [200], m] }
          ∧ m.msg = MsgObject.protocol [9]
          ∧ m.rawData = [1, 9]
          ∧ (garbageMsg ⟨[], []⟩ [200] : MsgEntry (List Byte)).msg = MsgObject.invalid
          ∧ (garbageMsg ⟨[], []⟩ [200] : MsgEntry (List Byte)).rawData = [200] :=
  ⟨by decide, by decide,
    success_step frameStack ⟨[], []⟩
      { m_protStack := 0, m_data := [1, 9], m_garbage := [200], readIterBeg := 0, allMsgs := [] }
      (by decide) (by decide)⟩

/-- C13 (InvalidMsgData step of `readImpl`): when the stack's read at the cursor
returns InvalidMsgData having consumed `k` bytes, the pass first appends the
pending garbage, if there is any, as its own invalid message, then an invalid
message (a fresh `InvalidMsg`, not the stack's message object) whose raw bytes
are exactly the `k` bytes of `m_data` from the cursor on; the cursor moves by `k`
and no byte is added to the garbage buffer, which is empty afterwards. -/
theorem invalidMsgData_step (stack : ProtocolStack S M) (dataInfo : DataInfo)
    (s : ReadState S M) (hc : s.readIterBeg < s.m_data.length)
    (hes : (stack.read s.m_protStack (unresolved s)).1.es = ErrorStatus.InvalidMsgData) :
    ∃ m : MsgEntry M,
      loopStep stack dataInfo s =
          LoopStep.next
            { m_protStack := (stack.read s.m_protStack (unresolved s)).2,
              m_data := s.m_data,
              m_garbage := [],
              readIterBeg :=
                s.readIterBeg + (stack.read s.m_protStack (unresolved s)).1.consumed,
              allMsgs := s.allMsgs ++
                (if s.m_garbage = [] then [] else [garbageMsg dataInfo s.m_garbage]) ++ [m] }
        ∧ m.msg = MsgObject.invalid
        ∧ m.rawData = (s.m_data.drop s.readIterBeg).take
            (stack.read s.m_protStack (unresolved s)).1.consumed
        ∧ (garbageMsg dataInfo s.m_garbage : MsgEntry M).msg = MsgObject.invalid
        ∧ (garbageMsg dataInfo s.m_garbage : MsgEntry M).rawData = s.m_garbage :=
  ⟨_, loopStep_invalid_eq stack dataInfo s hc hes, spanMsg_msg _ _ _, spanMsg_rawData _ _ _,
    garbageMsg_msg _ _, garbageMsg_rawData _ _⟩

theorem invalidMsgData_step_witness :
    (1 : Nat) < ([200, 0, 5] : List Byte).length
      ∧ (frameStack.read 1 [0, 5]).1.es = ErrorStatus.InvalidMsgData
      ∧ ∃ m : MsgEntry (List Byte),
          loopStep frameStack ⟨[], []⟩
              { m_protStack := 1, m_data := [200, 0, 5], m_garbage := [200], readIterBeg := 1,
                allMsgs := [] }
            = LoopStep.next
                { m_protStack := 2, m_data := [200, 0, 5], m_garbage := [], readIterBeg := 2,
                  allMsgs := [garbageMsg ⟨[], []⟩ [200], m] }
          ∧ m.msg = MsgObject.invalid
          ∧ m.rawData = [0]
          ∧ (garbageMsg ⟨[], []⟩ [200] : MsgEntry (List Byte)).msg = MsgObject.invalid
          ∧ (garbageMsg ⟨[], []⟩ [200] : MsgEntry (List Byte)).rawData = [200] :=
  ⟨by decide, by decide,
    invalidMsgData_step frameStack ⟨[], []⟩
      { m_protStack := 1, m_data := [200, 0, 5], m_garbage := [200], readIterBeg := 1,
        allMsgs := [] }
      (by decide) (by decide)⟩

/-- C14 (resynchronisation step of `readImpl`): when the stack's read at the
cursor returns a status other than Success, NotEnoughData, InvalidMsgData and
MsgAllocFailure, exactly the byte of `m_data` at the cursor is appended to the
garbage buffer and the cursor moves by exactly one byte, however far the stack
moved its own iterator; no message is appended in that pass unless the garbage
buffer thereby reaches the limit, in which case it is flushed as one invalid
message. -/
theorem resync_step (stack : ProtocolStack S M) (dataInfo : DataInfo) (s : ReadState S M)
    (hc : s.readIterBeg < s.m_data.length)
    (hes : ResyncStatus (stack.read s.m_protStack (unresolved s)).1.es) :
    loopStep stack dataInfo s =
      LoopStep.next
        (if GarbageLimit ≤ s.m_garbage.length + 1 then
          { m_protStack := (stack.read s.m_protStack (unresolved s)).2,
            m_data := s.m_data,
            m_garbage := [],
            readIterBeg := s.readIterBeg + 1,
            allMsgs := s.allMsgs ++
              [garbageMsg dataInfo (s.m_garbage ++ [s.m_data[s.readIterBeg]])] }
        else
          { m_protStack := (stack.read s.m_protStack (unresolved s)).2,
            m_data := s.m_data,
            m_garbage := s.m_garbage ++ [s.m_data[s.readIterBeg]],
            readIterBeg := s.readIterBeg + 1,
            allMsgs := s.allMsgs }) := by
  have hu := unresolved_ne_nil s hc
  rw [hu] at hes
  rw [loopStep_resync stack dataInfo s _ _ hu hes, hu]

theorem resync_step_witness :
    (0 : Nat) < ([200, 5] : List Byte).length
      ∧ ResyncStatus (frameStack.read 0 [200, 5]).1.es
      ∧ loopStep frameStack ⟨[], []⟩
            { m_protStack := 0, m_data := [200, 5], m_garbage := [], readIterBeg := 0,
              allMsgs := [] }
          = LoopStep.next
              (if GarbageLimit ≤ 0 + 1 then
                { m_protStack := 1, m_data := [200, 5], m_garbage := [], readIterBeg := 1,
                  allMsgs := [garbageMsg ⟨[], []⟩ [200]] }
              else
                { m_protStack := 1, m_data := [200, 5], m_garbage := [200], readIterBeg := 1,
                  allMsgs := [] }) :=
  ⟨by decide, by unfold ResyncStatus; decide,
    resync_step frameStack ⟨[], []⟩
      { m_protStack := 0, m_data := [200, 5], m_garbage := [], readIterBeg := 0, allMsgs := [] }
      (by decide) (by unfold ResyncStatus; decide)⟩

/-- C15 (final flush of `readImpl`): a call with the final flag set, once its
loop is left, returns the loop's messages followed, if the pending garbage
followed by the bytes the loop left unresolved is not empty, by one invalid
message wrapping exactly that concatenation, and by nothing else otherwise; both
the accumulation buffer and the garbage buffer are empty after the call. -/
theorem final_call_flush (stack : ProtocolStack S M) (self : ProtocolBase S) (dataInfo : DataInfo)
    (fuel : Nat) (s1 : ReadState S M)
    (hl : readLoop stack dataInfo fuel (readStart self dataInfo) = some s1) :
    readImpl fuel stack self dataInfo true
        = some
            (s1.allMsgs ++
              (if s1.m_garbage ++ unresolved s1 = [] then []
                else [garbageMsg dataInfo (s1.m_garbage ++ unresolved s1)]),
             { m_protStack := s1.m_protStack, m_data := [], m_garbage := [] })
      ∧ (garbageMsg dataInfo (s1.m_garbage ++ unresolved s1) : MsgEntry M).msg
          = MsgObject.invalid
      ∧ (garbageMsg dataInfo (s1.m_garbage ++ unresolved s1) : MsgEntry M).rawData
          = s1.m_garbage ++ unresolved s1 := by
  refine ⟨?_, garbageMsg_msg _ _, garbageMsg_rawData _ _⟩
  have hu := finalFlush_unresolved dataInfo s1
  simp only [unresolved] at hu
  simp only [readImpl, hl, if_true, eraseGuard, finalFlush_allMsgs, finalFlush_m_garbage, hu]
  simp [finalFlush, checkGarbageFunc_m_protStack]

theorem final_call_flush_witness :
    readLoop frameStack ⟨[200, 3, 1], []⟩ 3 (readStart (init 0) ⟨[200, 3, 1], []⟩)
        = some { m_protStack := 2, m_data := [200, 3, 1], m_garbage := [200], readIterBeg := 1,
                 allMsgs := [] }
      ∧ (readImpl 3 frameStack (init 0) ⟨[200, 3, 1], []⟩ true
            = some
                ([garbageMsg ⟨[200, 3, 1], []⟩ [200, 3, 1]],
                 { m_protStack := 2, m_data := [], m_garbage := [] })
          ∧ (garbageMsg ⟨[200, 3, 1], []⟩ [200, 3, 1] : MsgEntry (List Byte)).msg
              = MsgObject.invalid
          ∧ (garbageMsg ⟨[200, 3, 1], []⟩ [200, 3, 1] : MsgEntry (List Byte)).rawData
              = [200, 3, 1]) :=
  ⟨by decide,
    final_call_flush frameStack (init 0) ⟨[200, 3, 1], []⟩ 3
      { m_protStack := 2, m_data := [200, 3, 1], m_garbage := [200], readIterBeg := 1,
        allMsgs := [] }
      (by decide)⟩

/-! ### `writeImpl`, `updateMessageImpl`, `cloneMessageImpl` -/

variable {P Id : Type}

/-- C16 (`writeImpl`): `stack.write` is called once; `stack.update` is called
once if `write` returned UpdateRequired and not at all otherwise; the call
returns the bytes written (after the fix-up of `update`, when it ran) exactly
when the last status obtained, from `update` when it ran and from `write`
otherwise, is Success, and the empty result for every other status.  The calls
are counted by running `writeImpl` on the stack with call counters added. -/
theorem writeImpl_calls (stack : WriteStack S P Id) (maxSize : Nat) (st : S) (msg : P) :
    (writeImpl (countCalls stack) maxSize (st, 0, 0) msg).2.2.1 = 1
      ∧ (writeImpl (countCalls stack) maxSize (st, 0, 0) msg).2.2.2
          = (if (stack.write st msg maxSize).1 = ErrorStatus.UpdateRequired then 1 else 0)
      ∧ (writeImpl (countCalls stack) maxSize (st, 0, 0) msg).1
          = (writeImpl stack maxSize st msg).1
      ∧ (writeImpl (countCalls stack) maxSize (st, 0, 0) msg).2.1
          = (writeImpl stack maxSize st msg).2
      ∧ ((stack.write st msg maxSize).1 = ErrorStatus.UpdateRequired →
          writeImpl stack maxSize st msg
            = (if (stack.update (stack.write st msg maxSize).2.2
                    (stack.write st msg maxSize).2.1).1 = ErrorStatus.Success
                then some (stack.update (stack.write st msg maxSize).2.2
                    (stack.write st msg maxSize).2.1).2.1
                else none,
               (stack.update (stack.write st msg maxSize).2.2
                    (stack.write st msg maxSize).2.1).2.2))
      ∧ ((stack.write st msg maxSize).1 ≠ ErrorStatus.UpdateRequired →
          writeImpl stack maxSize st msg
            = (if (stack.write st msg maxSize).1 = ErrorStatus.Success
                then some (stack.write st msg maxSize).2.1 else none,
               (stack.write st msg maxSize).2.2)) := by
  by_cases hu : (stack.write st msg maxSize).1 = ErrorStatus.UpdateRequired
  · by_cases hs : (stack.update (stack.write st msg maxSize).2.2
        (stack.write st msg maxSize).2.1).1 = ErrorStatus.Success
    · simp [writeImpl, countCalls, hu, hs]
    · simp [writeImpl, countCalls, hu, hs]
  · by_cases hs : (stack.write st msg maxSize).1 = ErrorStatus.Success
    · simp [writeImpl, countCalls, hu, hs]
    · simp [writeImpl, countCalls, hu, hs]

/-- Two runs of `writeImpl` on the model: a message that needs the update pass
and one that does not. -/
theorem writeImpl_demoStack_example :
    writeImpl demoStack 1000 0 (1, 150) = (some [255, 150], 2)
      ∧ writeImpl demoStack 1000 0 (1, 50) = (some [1, 50], 1)
      ∧ writeImpl (countCalls demoStack) 1000 (0, 0, 0) (1, 150) = (some [255, 150], 2, 1, 1) := by
  decide

/-- C17 (`updateMessageImpl`): the call returns Changed if and only if the
message's `refreshMsg()` returned true, and NoChange otherwise, whatever the
stack's `write` and `update` and the read-back of the transport and raw-data
messages do. -/
theorem updateMessageImpl_status (stack : WriteStack S P Id) (ops : MessageOps P Id)
    (maxSize : Nat) (st : S) (msg : MsgHandle P) :
    ((updateMessageImpl stack ops maxSize st msg).1 = UpdateStatus.Changed
        ↔ (ops.refreshMsg msg.obj).1 = true)
      ∧ ((updateMessageImpl stack ops maxSize st msg).1 = UpdateStatus.NoChange
        ↔ (ops.refreshMsg msg.obj).1 = false) := by
  cases h : (ops.refreshMsg msg.obj).1 <;> simp [updateMessageImpl, h]

/-- Three runs of `updateMessageImpl` on the model: an unchanged message gets
its annotations refreshed; a refreshed message reports Changed; a message whose
serialization fails the read-back keeps its old annotations. -/
theorem updateMessageImpl_demoStack_example :
    updateMessageImpl demoStack demoOps 1000 0
        { obj := (1, 50), transport := none, rawData := none, extraInfo := [],
          extraInfoMsg := some [] }
      = (UpdateStatus.NoChange,
          { obj := (1, 50), transport := some [1, 50], rawData := some [1, 50], extraInfo := [],
            extraInfoMsg := none }, 1)
      ∧ updateMessageImpl demoStack demoOps 1000 0
          { obj := (1, 300), transport := none, rawData := none, extraInfo := [("k", "v")],
            extraInfoMsg := none }
        = (UpdateStatus.Changed,
            { obj := (1, 200), transport := some [255, 200], rawData := some [255, 200],
              extraInfo := [("k", "v")], extraInfoMsg := some [("k", "v")] }, 2) := by
  decide

theorem cloneLoop_more_fuel (stack : WriteStack S P Id) (ops : MessageOps P Id) (msg : P)
    (st : S) (idx n : Nat) (r : Option P × S)
    (h : cloneLoop stack ops msg 1 st idx = some r) :
    cloneLoop stack ops msg (n + 1) st idx = some r := by
  simp only [cloneLoop] at h ⊢
  cases hc : (stack.createMsg st (ops.getId msg) idx).1 with
  | none =>
    rw [hc] at h
    exact h
  | some c =>
    rw [hc] at h
    simp only [] at h ⊢
    by_cases ha : (ops.assign c msg).1 = true
    · simp only [ha, if_true] at h ⊢
      exact h
    · simp only [ha, if_false] at h
      cases h

/-- The loop of `cloneMessageImpl` walks past the candidates that reject the
assignment. -/
theorem cloneLoop_skip (stack : WriteStack S P Id) (ops : MessageOps P Id) (msg : P) (st0 : S)
    (i : Nat) (hi : i < 2 ^ 32) (r : Option P × S)
    (hr : cloneLoop stack ops msg 1 (cloneStackAt stack (ops.getId msg) st0 i) i = some r) :
    ∀ (d k fuel : Nat), k + d = i → d < fuel →
      (∀ j, k ≤ j → j < i →
        ∃ c, cloneCandidate stack (ops.getId msg) st0 j = some c ∧ (ops.assign c msg).1 = false) →
      cloneLoop stack ops msg fuel (cloneStackAt stack (ops.getId msg) st0 k) k = some r := by
  intro d
  induction d with
  | zero =>
    intro k fuel hk hfuel _
    have hki : k = i := by omega
    subst hki
    cases fuel with
    | zero => omega
    | succ n => exact cloneLoop_more_fuel stack ops msg _ k n r hr
  | succ d ih =>
    intro k fuel hk hfuel hrej
    cases fuel with
    | zero => omega
    | succ n =>
      obtain ⟨c, hc, ha⟩ := hrej k (Nat.le_refl k) (by omega)
      simp only [cloneCandidate] at hc
      have hmod : (k + 1) % 2 ^ 32 = k + 1 := Nat.mod_eq_of_lt (by omega)
      simp only [cloneLoop, hc, ha, hmod]
      exact ih (k + 1) n (by omega) (by omega) (fun j hj1 hj2 => hrej j (by omega) hj2)

/-- C18 (`cloneMessageImpl`): with `msgId` the id of the source message, if the
candidates `createMsg(msgId, j)` are non-null and reject the assignment for every
`j < i`, then the result is the candidate `createMsg(msgId, i)`, holding the
assigned values, when that candidate is non-null and accepts the assignment from
the source, and the result is null when `createMsg(msgId, i)` is null. -/
theorem cloneMessageImpl_first_accepting (stack : WriteStack S P Id) (ops : MessageOps P Id)
    (st0 : S) (msg : P) (i : Nat) (hi : i < 2 ^ 32) (fuel : Nat) (hfuel : i < fuel)
    (hrej : ∀ j, j < i →
      ∃ c, cloneCandidate stack (ops.getId msg) st0 j = some c ∧ (ops.assign c msg).1 = false) :
    (∀ c, cloneCandidate stack (ops.getId msg) st0 i = some c → (ops.assign c msg).1 = true →
        cloneMessageImpl fuel stack ops st0 msg
          = some (some (ops.assign c msg).2, cloneStackAt stack (ops.getId msg) st0 (i + 1)))
      ∧ (cloneCandidate stack (ops.getId msg) st0 i = none →
        cloneMessageImpl fuel stack ops st0 msg
          = some (none, cloneStackAt stack (ops.getId msg) st0 (i + 1))) := by
  constructor
  · intro c hc ha
    simp only [cloneCandidate] at hc
    exact cloneLoop_skip stack ops msg st0 i hi _
      (by simp only [cloneLoop, hc, ha, if_true, cloneStackAt])
      i 0 fuel (by omega) hfuel (fun j _ hj => hrej j hj)
  · intro hc
    simp only [cloneCandidate] at hc
    exact cloneLoop_skip stack ops msg st0 i hi _
      (by simp only [cloneLoop, hc, cloneStackAt])
      i 0 fuel (by omega) hfuel (fun j _ hj => hrej j hj)

theorem cloneMessageImpl_first_accepting_witness :
    (2 : Nat) < 2 ^ 32 ∧ (2 : Nat) < 3
      ∧ (∀ j, j < 2 →
          ∃ c, cloneCandidate demoStack (demoOps.getId (2, 42)) 0 j = some c
            ∧ (demoOps.assign c (2, 42)).1 = false)
      ∧ ((∀ c, cloneCandidate demoStack (demoOps.getId (2, 42)) 0 2 = some c →
            (demoOps.assign c (2, 42)).1 = true →
            cloneMessageImpl 3 demoStack demoOps 0 (2, 42)
              = some (some (demoOps.assign c (2, 42)).2,
                  cloneStackAt demoStack (demoOps.getId (2, 42)) 0 (2 + 1)))
          ∧ (cloneCandidate demoStack (demoOps.getId (2, 42)) 0 2 = none →
            cloneMessageImpl 3 demoStack demoOps 0 (2, 42)
              = some (none, cloneStackAt demoStack (demoOps.getId (2, 42)) 0 (2 + 1)))) :=
  ⟨by decide, by decide, by decide,
    cloneMessageImpl_first_accepting demoStack demoOps 0 (2, 42) 2 (by decide) 3 (by decide)
      (by decide)⟩

/-- Two runs of `cloneMessageImpl` on the model: the third candidate accepts the
source of shape 2; no candidate accepts a source of shape 5. -/
theorem cloneMessageImpl_demoStack_example :
    cloneMessageImpl 5 demoStack demoOps 0 (2, 42) = some (some (2, 42), 3)
      ∧ cloneMessageImpl 5 demoStack demoOps 0 (5, 42) = some (none, 4) := by
  decide

end ProtocolBase

end comms_champion

namespace comms

namespace Optional

variable {F I O : Type}

/-! ### Round trip and length of `Optional` -/

theorem byteField_roundTrip : RoundTrip byteField := by
  intro f f0 len w h
  simp only [byteField] at h ⊢
  by_cases hl : 1 ≤ len
  · simp only [if_pos hl, List.nil_append, Prod.mk.injEq, true_and] at h
    subst h
    rfl
  · simp [if_neg hl] at h

/-- What reading back a written `Optional` into a default-constructed one gives,
for an inner field with the round-trip property. -/
theorem read_back (ops : FieldOps F (List (Fin 256)) (List (Fin 256))) (hrt : RoundTrip ops)
    (o : Optional F) (f0 : F) (len : Nat) (w : List (Fin 256))
    (hw : write ops o [] len = (ErrorStatus.Success, o, w)) :
    (w = [] → read ops (default f0) w w.length
        = (ErrorStatus.Success, { field_ := f0, mode_ := OptionalMode.Missing }, []))
      ∧ (w ≠ [] → read ops (default f0) w w.length
        = (ErrorStatus.Success, { field_ := o.field_, mode_ := OptionalMode.Exists }, [])) := by
  constructor
  · intro h
    subst h
    simp [read, default]
  · intro hne
    have hlen : 0 ≠ w.length := by
      intro hc
      exact hne (List.length_eq_zero.mp hc.symm)
    by_cases h1 : o.mode_ = OptionalMode.Missing
    · simp only [write, if_pos h1, Prod.mk.injEq, true_and] at hw
      exact absurd hw.symm hne
    by_cases h2 : o.mode_ = OptionalMode.Tentative ∧ 0 = len
    · simp only [write, if_neg h1, if_pos h2, Prod.mk.injEq, true_and] at hw
      exact absurd hw.symm hne
    · simp only [write, if_neg h1, if_neg h2, Prod.mk.injEq, true_and] at hw
      have hwr : ops.write o.field_ [] len = (ErrorStatus.Success, w) :=
        Prod.ext hw.1 hw.2
      have hrd := hrt o.field_ f0 len w hwr
      simp [read, default, hlen, hrd]

/-- C19 (round trip of `Optional`, as the code has it): for every `Optional`
whose inner field has the write-then-read round trip, writing it successfully
into an empty buffer and reading exactly the written bytes into a
default-constructed `Optional` succeeds and uses up the bytes; the mode read
back is Missing when no byte was written and Exists, with an inner value equal
to the written one, when at least one byte was written.  So mode Missing is
reproduced, mode Exists is reproduced together with the value whenever the inner
field wrote at least one byte, and the mode read back is never Tentative. -/
theorem write_read_round_trip (ops : FieldOps F (List (Fin 256)) (List (Fin 256)))
    (hrt : RoundTrip ops) (o : Optional F) (f0 : F) (len : Nat) (w : List (Fin 256))
    (hw : write ops o [] len = (ErrorStatus.Success, o, w)) :
    (read ops (default f0) w w.length).1 = ErrorStatus.Success
      ∧ (read ops (default f0) w w.length).2.2 = []
      ∧ (w = [] → (read ops (default f0) w w.length).2.1.mode_ = OptionalMode.Missing)
      ∧ (w ≠ [] → (read ops (default f0) w w.length).2.1
          = { field_ := o.field_, mode_ := OptionalMode.Exists })
      ∧ (o.mode_ = OptionalMode.Missing →
          (read ops (default f0) w w.length).2.1.mode_ = o.mode_)
      ∧ (o.mode_ = OptionalMode.Exists → w ≠ [] → (read ops (default f0) w w.length).2.1 = o)
      ∧ (read ops (default f0) w w.length).2.1.mode_ ≠ OptionalMode.Tentative := by
  obtain ⟨hnil, hcons⟩ := read_back ops hrt o f0 len w hw
  have hmiss : o.mode_ = OptionalMode.Missing → w = [] := by
    intro h1
    simp only [write, if_pos h1, Prod.mk.injEq, true_and] at hw
    exact hw.symm
  by_cases hwn : w = []
  · have h := hnil hwn
    refine ⟨by rw [h], by rw [h], fun _ => by rw [h], fun hc => absurd hwn hc, ?_,
      fun _ hc => absurd hwn hc, by rw [h]; simp⟩
    intro h1
    rw [h, h1]
  · have h := hcons hwn
    refine ⟨by rw [h], by rw [h], fun hc => absurd hc hwn, fun _ => by rw [h], ?_, ?_,
      by rw [h]; simp⟩
    · intro h1
      exact absurd (hmiss h1) hwn
    · intro h1 _
      rw [h]
      cases o
      simp only [] at h1
      rw [h1]

theorem write_read_round_trip_witness :
    RoundTrip byteField
      ∧ write byteField ⟨7, OptionalMode.Exists⟩ [] 4
          = (ErrorStatus.Success, ⟨7, OptionalMode.Exists⟩, [7])
      ∧ ((read byteField (default 0) [7] 1).1 = ErrorStatus.Success
          ∧ (read byteField (default 0) [7] 1).2.2 = []
          ∧ (([7] : List (Fin 256)) = [] →
              (read byteField (default 0) [7] 1).2.1.mode_ = OptionalMode.Missing)
          ∧ (([7] : List (Fin 256)) ≠ [] → (read byteField (default 0) [7] 1).2.1
              = { field_ := 7, mode_ := OptionalMode.Exists })
          ∧ ((⟨7, OptionalMode.Exists⟩ : Optional (Fin 256)).mode_ = OptionalMode.Missing →
              (read byteField (default 0) [7] 1).2.1.mode_
                = (⟨7, OptionalMode.Exists⟩ : Optional (Fin 256)).mode_)
          ∧ ((⟨7, OptionalMode.Exists⟩ : Optional (Fin 256)).mode_ = OptionalMode.Exists →
              ([7] : List (Fin 256)) ≠ [] →
              (read byteField (default 0) [7] 1).2.1 = ⟨7, OptionalMode.Exists⟩)
          ∧ (read byteField (default 0) [7] 1).2.1.mode_ ≠ OptionalMode.Tentative) :=
  ⟨byteField_roundTrip, by decide,
    write_read_round_trip byteField byteField_roundTrip ⟨7, OptionalMode.Exists⟩ 0 4 [7]
      (by decide)⟩

theorem emptyField_roundTrip : RoundTrip emptyField := by
  intro f f0 len w h
  simp only [emptyField, Prod.mk.injEq, true_and] at h
  subst h
  rfl

/-- C19 as stated fails in mode Tentative, and in mode Exists when the inner field
writes no byte.  The one-byte field has the round-trip property; an `Optional`
holding 7 in mode Tentative is written successfully as the byte 7, and reading
that byte into a default-constructed `Optional` succeeds with mode Exists, not
Tentative.  The field that occupies no byte has the round-trip property too; an
`Optional` of it in mode Exists is written successfully as no bytes, and reading
no bytes into a default-constructed `Optional` succeeds with mode Missing, not
Exists. -/
theorem round_trip_mode_not_reproduced :
    (RoundTrip byteField
        ∧ write byteField ⟨7, OptionalMode.Tentative⟩ [] 4
            = (ErrorStatus.Success, ⟨7, OptionalMode.Tentative⟩, [7])
        ∧ read byteField (default 0) [7] 1
            = (ErrorStatus.Success, ⟨7, OptionalMode.Exists⟩, [])
        ∧ (read byteField (default 0) [7] 1).2.1.mode_
            ≠ (⟨7, OptionalMode.Tentative⟩ : Optional (Fin 256)).mode_)
      ∧ (RoundTrip emptyField
        ∧ write emptyField ⟨(), OptionalMode.Exists⟩ [] 4
            = (ErrorStatus.Success, ⟨(), OptionalMode.Exists⟩, [])
        ∧ read emptyField (default ()) [] 0
            = (ErrorStatus.Success, ⟨(), OptionalMode.Missing⟩, [])
        ∧ (read emptyField (default ()) [] 0).2.1.mode_
            ≠ (⟨(), OptionalMode.Exists⟩ : Optional Unit).mode_) :=
  ⟨⟨byteField_roundTrip, by decide, by decide, by decide⟩,
    ⟨emptyField_roundTrip, by decide, by decide, by decide⟩⟩

/-- C20 (length after read): for every `Optional` whose inner field's `length()`
after a successful read equals the distance the read moved the iterator, after
every successful `Optional::read`, from any mode and with any available length,
`Optional::length()` equals the distance the read moved the iterator.  `dist`
is the distance between two iterator positions. -/
theorem length_after_read (ops : FieldOps F I O) (dist : I → I → Nat)
    (hdist : ∀ it, dist it it = 0)
    (hinner : ∀ f it len, (ops.read f it len).1 = ErrorStatus.Success →
      ops.length (ops.read f it len).2.1 = dist it (ops.read f it len).2.2)
    (o : Optional F) (iter : I) (len : Nat)
    (hs : (read ops o iter len).1 = ErrorStatus.Success) :
    length ops (read ops o iter len).2.1 = dist iter (read ops o iter len).2.2 := by
  by_cases h1 : o.mode_ = OptionalMode.Missing
  · simp [read, length, h1, hdist]
  by_cases h2 : o.mode_ = OptionalMode.Tentative ∧ 0 = len
  · simp [read, length, h1, h2, hdist]
  · by_cases h3 : (ops.read o.field_ iter len).1 = ErrorStatus.Success
    · simp only [read, if_neg h1, if_neg h2, if_pos h3, length]
      simpa using hinner o.field_ iter len h3
    · simp only [read, if_neg h1, if_neg h2, if_neg h3] at hs
      exact absurd hs h3

theorem byteField_length_read (f : Fin 256) (it : List (Fin 256)) (len : Nat)
    (h : (byteField.read f it len).1 = ErrorStatus.Success) :
    byteField.length (byteField.read f it len).2.1
      = it.length - (byteField.read f it len).2.2.length := by
  cases it with
  | nil => simp [byteField] at h
  | cons b rest =>
    cases len with
    | zero => simp [byteField] at h
    | succ n => simp [byteField]

theorem length_after_read_witness :
    (∀ it : List (Fin 256), it.length - it.length = 0)
      ∧ (∀ (f : Fin 256) (it : List (Fin 256)) (len : Nat),
          (byteField.read f it len).1 = ErrorStatus.Success →
          byteField.length (byteField.read f it len).2.1
            = it.length - (byteField.read f it len).2.2.length)
      ∧ (read byteField ⟨0, OptionalMode.Tentative⟩ [9, 4] 2).1 = ErrorStatus.Success
      ∧ length byteField (read byteField ⟨0, OptionalMode.Tentative⟩ [9, 4] 2).2.1
          = ([9, 4] : List (Fin 256)).length
            - (read byteField ⟨0, OptionalMode.Tentative⟩ [9, 4] 2).2.2.length :=
  ⟨fun it => Nat.sub_self it.length, byteField_length_read, by decide,
    length_after_read byteField (fun a b => a.length - b.length)
      (fun it => Nat.sub_self it.length) byteField_length_read
      ⟨0, OptionalMode.Tentative⟩ [9, 4] 2 (by decide)⟩

/-! ### Size bounds, written length and mode of `Optional` -/

/-- C23 fails on the code: the one-byte field's `length()` lies between its
`minLength()` and `maxLength()`, yet an `Optional` of it in mode Missing (and
likewise the default-constructed one, in mode Tentative) has `length()` 0, below
`Optional::minLength()`, which is 1. -/
theorem length_below_minLength :
    (byteField.minLength ≤ byteField.length 7 ∧ byteField.length 7 ≤ byteField.maxLength)
      ∧ length byteField ⟨7, OptionalMode.Missing⟩ = 0
      ∧ length byteField (default (7 : Fin 256)) = 0
      ∧ minLength byteField = 1
      ∧ ¬ (minLength byteField ≤ length byteField ⟨7, OptionalMode.Missing⟩) := by
  decide

/-- The part of the size bounds that the code keeps: `length()` never exceeds
`maxLength()`, and in mode Exists it is not below `minLength()`. -/
theorem length_bounds_kept (ops : FieldOps F I O) (o : Optional F)
    (h : ops.minLength ≤ ops.length o.field_ ∧ ops.length o.field_ ≤ ops.maxLength) :
    length ops o ≤ maxLength ops
      ∧ (o.mode_ = OptionalMode.Exists → minLength ops ≤ length ops o) := by
  by_cases h1 : o.mode_ = OptionalMode.Exists
  · simp [length, maxLength, minLength, h1, h.1, h.2]
  · simp [length, maxLength, h1]

theorem byteField_written_count (f : Fin 256) (out : List (Fin 256)) (len : Nat)
    (h : (byteField.write f out len).1 = ErrorStatus.Success) :
    (byteField.write f out len).2.length - out.length = byteField.length f := by
  simp only [byteField] at h ⊢
  by_cases hl : 1 ≤ len
  · simp [if_pos hl]
  · simp [if_neg hl] at h

/-- C25 as stated fails in mode Tentative with a positive available length: the
one-byte field's successful write emits exactly its `length()` bytes, an
`Optional` holding 7 in mode Tentative is written successfully as one byte, and
its `length()` is 0. -/
theorem tentative_write_exceeds_length :
    (∀ (f : Fin 256) (out : List (Fin 256)) (len : Nat),
        (byteField.write f out len).1 = ErrorStatus.Success →
        (byteField.write f out len).2.length - out.length = byteField.length f)
      ∧ write byteField ⟨7, OptionalMode.Tentative⟩ [] 4
          = (ErrorStatus.Success, ⟨7, OptionalMode.Tentative⟩, [7])
      ∧ length byteField ⟨7, OptionalMode.Tentative⟩ = 0
      ∧ (write byteField ⟨7, OptionalMode.Tentative⟩ [] 4).2.2.length - ([] : List (Fin 256)).length
          ≠ length byteField ⟨7, OptionalMode.Tentative⟩ :=
  ⟨byteField_written_count, by decide, by decide, by decide⟩

/-- C25 (write/length consistency, as the code has it): for every `Optional`
whose inner field's successful write moves the output iterator by exactly its
`length()`, a successful `Optional::write` moves the output iterator by exactly
`Optional::length()` in modes Missing and Exists and in mode Tentative with
available length 0; in mode Tentative with a positive available length it moves
the iterator by the inner field's `length()`, while `Optional::length()` is 0.
`dist` is the distance between two iterator positions. -/
theorem write_length (ops : FieldOps F I O) (dist : O → O → Nat)
    (hdist : ∀ out, dist out out = 0)
    (hinner : ∀ f out len, (ops.write f out len).1 = ErrorStatus.Success →
      dist out (ops.write f out len).2 = ops.length f)
    (o : Optional F) (out : O) (len : Nat)
    (hs : (write ops o out len).1 = ErrorStatus.Success) :
    (¬ (o.mode_ = OptionalMode.Tentative ∧ 0 < len) →
        dist out (write ops o out len).2.2 = length ops o)
      ∧ (o.mode_ = OptionalMode.Tentative ∧ 0 < len →
        dist out (write ops o out len).2.2 = ops.length o.field_ ∧ length ops o = 0) := by
  by_cases h1 : o.mode_ = OptionalMode.Missing
  · refine ⟨fun _ => by simp [write, length, h1, hdist], ?_⟩
    intro hc
    rw [h1] at hc
    exact absurd hc.1 (by decide)
  by_cases h2 : o.mode_ = OptionalMode.Tentative ∧ 0 = len
  · refine ⟨fun _ => by simp [write, length, h2.1, h2.2.symm, hdist], ?_⟩
    intro hc
    omega
  · have hw : (ops.write o.field_ out len).1 = ErrorStatus.Success := by
      simpa [write, h1, h2] using hs
    have hd : dist out (write ops o out len).2.2 = ops.length o.field_ := by
      simp only [write, if_neg h1, if_neg h2]
      exact hinner o.field_ out len hw
    refine ⟨?_, fun hc => ⟨hd, by simp [length, hc.1]⟩⟩
    intro hnt
    have he : o.mode_ = OptionalMode.Exists := by
      cases hm : o.mode_ with
      | Missing => exact absurd hm h1
      | Exists => rfl
      | Tentative =>
        exfalso
        apply hnt
        refine ⟨hm, ?_⟩
        by_contra hz
        exact h2 ⟨hm, by omega⟩
    rw [hd]
    simp [length, he]

theorem write_length_witness :
    (∀ out : List (Fin 256), out.length - out.length = 0)
      ∧ (∀ (f : Fin 256) (out : List (Fin 256)) (len : Nat),
          (byteField.write f out len).1 = ErrorStatus.Success →
          (byteField.write f out len).2.length - out.length = byteField.length f)
      ∧ (write byteField ⟨7, OptionalMode.Exists⟩ [3] 4).1 = ErrorStatus.Success
      ∧ ((¬ ((⟨7, OptionalMode.Exists⟩ : Optional (Fin 256)).mode_ = OptionalMode.Tentative
              ∧ 0 < 4) →
            (write byteField ⟨7, OptionalMode.Exists⟩ [3] 4).2.2.length
                - ([3] : List (Fin 256)).length
              = length byteField ⟨7, OptionalMode.Exists⟩)
          ∧ ((⟨7, OptionalMode.Exists⟩ : Optional (Fin 256)).mode_ = OptionalMode.Tentative
              ∧ 0 < 4 →
            (write byteField ⟨7, OptionalMode.Exists⟩ [3] 4).2.2.length
                - ([3] : List (Fin 256)).length
              = byteField.length 7
              ∧ length byteField ⟨7, OptionalMode.Exists⟩ = 0)) :=
  ⟨fun out => Nat.sub_self out.length, byteField_written_count, by decide,
    write_length byteField (fun a b => b.length - a.length)
      (fun out => Nat.sub_self out.length) byteField_written_count
      ⟨7, OptionalMode.Exists⟩ [3] 4 (by decide)⟩

theorem read_mode_cases (ops : FieldOps F I O) (o : Optional F) (iter : I) (len : Nat) :
    (o.mode_ = OptionalMode.Missing → (read ops o iter len).2.1.mode_ = OptionalMode.Missing)
      ∧ (o.mode_ = OptionalMode.Exists → (read ops o iter len).2.1.mode_ = OptionalMode.Exists)
      ∧ ((read ops o iter len).1 = ErrorStatus.Success →
          (read ops o iter len).2.1.mode_ = OptionalMode.Missing
            ∨ (read ops o iter len).2.1.mode_ = OptionalMode.Exists) := by
  by_cases h1 : o.mode_ = OptionalMode.Missing
  · simp [read, h1]
  by_cases h2 : o.mode_ = OptionalMode.Tentative ∧ 0 = len
  · simp [read, h2.1, h2.2.symm]
  · by_cases h3 : (ops.read o.field_ iter len).1 = ErrorStatus.Success
    · simp [read, h1, h2, h3]
    · simp only [read, if_neg h1, if_neg h2, if_neg h3]
      exact ⟨fun hc => absurd hc h1, fun hc => hc, fun hc => absurd hc h3⟩

theorem write_same (ops : FieldOps F I O) (o : Optional F) (out : O) (len : Nat) :
    (write ops o out len).2.1 = o := by
  unfold write
  split_ifs <;> rfl

/-- C26 (mode resolution under read): `read` never produces Tentative from
another mode; after any successful `read` the mode is Missing or Exists; and
once the mode is Missing or Exists, no sequence of `read` and `write` calls
changes it. -/
theorem mode_resolution (ops : FieldOps F I O) :
    (∀ (o : Optional F) (iter : I) (len : Nat), o.mode_ ≠ OptionalMode.Tentative →
        (read ops o iter len).2.1.mode_ ≠ OptionalMode.Tentative)
      ∧ (∀ (o : Optional F) (iter : I) (len : Nat),
          (read ops o iter len).1 = ErrorStatus.Success →
          (read ops o iter len).2.1.mode_ = OptionalMode.Missing
            ∨ (read ops o iter len).2.1.mode_ = OptionalMode.Exists)
      ∧ (∀ (calls : List (OptionalCall I O)) (o : Optional F),
          o.mode_ = OptionalMode.Missing ∨ o.mode_ = OptionalMode.Exists →
          (afterCalls ops o calls).mode_ = o.mode_) := by
  refine ⟨?_, fun o iter len => (read_mode_cases ops o iter len).2.2, ?_⟩
  · intro o iter len hnt
    obtain ⟨hm, he, _⟩ := read_mode_cases ops o iter len
    cases hmode : o.mode_ with
    | Tentative => exact absurd hmode hnt
    | Exists => rw [he hmode]; decide
    | Missing => rw [hm hmode]; decide
  · intro calls
    induction calls with
    | nil => intro o _; rfl
    | cons c rest ih =>
      intro o ho
      cases c with
      | read iter len =>
        obtain ⟨hm, he, _⟩ := read_mode_cases ops o iter len
        have hkeep : (read ops o iter len).2.1.mode_ = o.mode_ := by
          rcases ho with h | h
          · rw [hm h, h]
          · rw [he h, h]
        simp only [afterCalls]
        rw [ih _ (by rw [hkeep]; exact ho), hkeep]
      | write out len =>
        simp only [afterCalls, write_same]
        exact ih o ho

/-- A run on the model: a default-constructed `Optional` reads one byte, fails a
read for lack of data, is written and reads again, and stays in mode Exists. -/
theorem afterCalls_byteField_example :
    afterCalls byteField (default 0)
        [OptionalCall.read [9, 4] 2, OptionalCall.read [] 0, OptionalCall.write [] 4,
          OptionalCall.read [5] 1]
      = ⟨5, OptionalMode.Exists⟩ := by
  decide

end Optional

end comms

namespace comms_champion

namespace ProtocolBase

open comms (ErrorStatus)

variable {S M P Id : Type}

/-! ### `createMessageImpl` -/

/-- C21 (`createMessageImpl` for numeric ids): the text is parsed as a base-10
integer first and as a base-16 integer only if that fails; if both parses fail
the result is "not found" and the stack's `createMsg` is not called (the stack
object, call counter included, is as before); otherwise the result is what
`createMessage` gives for the parsed id and the index: "not found" exactly when
`createMsg` returns null, and else the newly created message after it has been
passed through `updateMessage`. -/
theorem createMessageImpl_cases (toInt : String → Nat → Option Int) (castId : Int → Id)
    (stack : WriteStack S P Id) (updateMessage : S → MsgHandle P → MsgHandle P × S)
    (st : S) (idAsString : String) (idx : Nat) :
    (∀ n, toInt idAsString 10 = some n →
        createMessageImpl toInt castId stack updateMessage st idAsString idx
          = createMessage stack updateMessage st (castId n) idx)
      ∧ (toInt idAsString 10 = none → ∀ n, toInt idAsString 16 = some n →
        createMessageImpl toInt castId stack updateMessage st idAsString idx
          = createMessage stack updateMessage st (castId n) idx)
      ∧ (toInt idAsString 10 = none → toInt idAsString 16 = none →
        createMessageImpl toInt castId stack updateMessage st idAsString idx = (none, st)
          ∧ ∀ (um : S × Nat → MsgHandle P → MsgHandle P × (S × Nat)) (k : Nat),
              createMessageImpl toInt castId (countCreate stack) um (st, k) idAsString idx
                = (none, (st, k)))
      ∧ (∀ id, (createMessage stack updateMessage st id idx).1 = none
          ↔ (stack.createMsg st id idx).1 = none)
      ∧ (∀ id obj, (stack.createMsg st id idx).1 = some obj →
          createMessage stack updateMessage st id idx
            = (some (updateMessage (stack.createMsg st id idx).2 (freshMsg obj)).1,
               (updateMessage (stack.createMsg st id idx).2 (freshMsg obj)).2)) := by
  refine ⟨?_, ?_, ?_, ?_, ?_⟩
  · intro n h
    simp only [createMessageImpl, createMessageInternal, h]
  · intro h10 n h16
    simp only [createMessageImpl, createMessageInternal, h10, h16]
  · intro h10 h16
    refine ⟨by simp only [createMessageImpl, createMessageInternal, h10, h16], ?_⟩
    intro um k
    simp only [createMessageImpl, createMessageInternal, h10, h16]
  · intro id
    simp only [createMessage]
    cases (stack.createMsg st id idx).1 with
    | none => simp
    | some obj => simp
  · intro id obj h
    simp only [createMessage, h]

/-- Runs of `createMessageImpl` on the model, with `updateMessageImpl` for
`updateMessage`: a decimal id, a hexadecimal id, a text that is no number, and an
index for which there is no message. -/
theorem createMessageImpl_demoStack_example :
    createMessageImpl demoToInt Int.toNat demoStack
        (fun st m => (updateMessageImpl demoStack demoOps 1000 st m).2) 0 "2" 1
      = (some { obj := (1, 0), transport := some [1, 0], rawData := some [1, 0],
                extraInfo := [], extraInfoMsg := none }, 2)
      ∧ (createMessageImpl demoToInt Int.toNat demoStack
          (fun st m => (updateMessageImpl demoStack demoOps 1000 st m).2) 0 "1f" 0).1
        = some { obj := (0, 0), transport := some [0, 0], rawData := some [0, 0],
                 extraInfo := [], extraInfoMsg := none }
      ∧ createMessageImpl demoToInt Int.toNat demoStack
          (fun st m => (updateMessageImpl demoStack demoOps 1000 st m).2) 0 "zz" 0
        = (none, 0)
      ∧ createMessageImpl demoToInt Int.toNat demoStack
          (fun st m => (updateMessageImpl demoStack demoOps 1000 st m).2) 0 "2" 3
        = (none, 1) := by
  decide

/-! ### The number of reads in one call -/

theorem countReads_progress (stack : ProtocolStack S M) (hprog : Progress stack) :
    Progress (countReads stack) := by
  intro st d hd hes
  exact hprog st.1 d hd hes

/-- A pass that finds unresolved bytes calls the stack's read once: the stack
object after the pass is the one that read returns. -/
theorem loopStep_protStack (stack : ProtocolStack S M) (dataInfo : DataInfo)
    (s : ReadState S M) (b : Byte) (rest : List Byte) (hu : unresolved s = b :: rest) :
    (stepState (loopStep stack dataInfo s)).m_protStack
      = (stack.read s.m_protStack (b :: rest)).2 := by
  rw [loopStep_cons stack dataInfo s b rest hu]
  simp only []
  split
  · rfl
  · split
    · simp only [stepState, checkGarbageFunc_m_protStack]
    · split
      · simp only [stepState, checkGarbageFunc_m_protStack]
      · split
        · rfl
        · split
          · simp only [stepState, checkGarbageFunc_m_protStack]
          · rfl

theorem unresolved_length (s : ReadState S M) :
    (unresolved s).length = s.m_data.length - s.readIterBeg := by
  simp [unresolved]

/-- With a stack that makes progress, the loop is left and the stack's read has
been called at most once per unresolved byte. -/
theorem readLoop_reads (stack : ProtocolStack S M) (hprog : Progress stack)
    (dataInfo : DataInfo) :
    ∀ (fuel : Nat) (s : ReadState (S × Nat) M), (unresolved s).length < fuel →
      ∃ s1, readLoop (countReads stack) dataInfo fuel s = some s1
        ∧ s1.m_protStack.2 ≤ s.m_protStack.2 + (unresolved s).length := by
  intro fuel
  induction fuel with
  | zero => intro s h; omega
  | succ n ih =>
    intro s hlen
    cases hu : unresolved s with
    | nil =>
      refine ⟨s, ?_, by omega⟩
      simp only [readLoop, loopStep_nil (countReads stack) dataInfo s hu]
    | cons b rest =>
      have hst := loopStep_protStack (countReads stack) dataInfo s b rest hu
      have hcount : (stepState (loopStep (countReads stack) dataInfo s)).m_protStack.2
          = s.m_protStack.2 + 1 := by
        rw [hst]
        rfl
      rw [hu, List.length_cons] at hlen
      simp only [readLoop]
      cases hl : loopStep (countReads stack) dataInfo s with
      | stop s2 =>
        rw [hl] at hcount
        simp only [stepState] at hcount
        exact ⟨s2, rfl, by simp only [List.length_cons]; omega⟩
      | next s2 =>
        rw [hl] at hcount
        simp only [stepState] at hcount
        have hdec := loopStep_next_decreases (countReads stack)
          (countReads_progress stack hprog) dataInfo s s2 hl
        rw [← unresolved_length, ← unresolved_length, hu, List.length_cons] at hdec
        obtain ⟨s1, h1, h2⟩ := ih s2 (by omega)
        exact ⟨s1, h1, by simp only [List.length_cons]; omega⟩

/-- C22 (one ingestion call is bounded): for every stack whose Success and
InvalidMsgData results each consume at least one byte, with `n` the number of
bytes in the accumulation buffer after the chunk is appended, the read loop of
`readImpl` is left within `n + 1` passes, and, the reads being counted by a
counter added to the stack object, it calls the stack's read at most `n + 1`
times (in fact at most `n` times). -/
theorem readLoop_bounded (stack : ProtocolStack S M) (hprog : Progress stack)
    (self : ProtocolBase S) (dataInfo : DataInfo) :
    (∃ s1, readLoop stack dataInfo ((self.m_data ++ dataInfo.m_data).length + 1)
        (readStart self dataInfo) = some s1)
      ∧ ∃ t1, readLoop (countReads stack) dataInfo ((self.m_data ++ dataInfo.m_data).length + 1)
            (readStart
              { m_protStack := (self.m_protStack, 0), m_data := self.m_data,
                m_garbage := self.m_garbage } dataInfo) = some t1
          ∧ t1.m_protStack.2 ≤ (self.m_data ++ dataInfo.m_data).length + 1
          ∧ t1.m_protStack.2 ≤ (self.m_data ++ dataInfo.m_data).length := by
  constructor
  · exact readLoop_terminates stack hprog dataInfo _ (readStart self dataInfo)
      (by simp [readStart])
  · obtain ⟨t1, h1, h2⟩ := readLoop_reads stack hprog dataInfo
      ((self.m_data ++ dataInfo.m_data).length + 1)
      (readStart { m_protStack := (self.m_protStack, 0), m_data := self.m_data,
                   m_garbage := self.m_garbage } dataInfo)
      (by simp [unresolved, readStart])
    have h3 : t1.m_protStack.2 ≤ (self.m_data ++ dataInfo.m_data).length := by
      simpa [unresolved, readStart] using h2
    exact ⟨t1, h1, by omega, h3⟩

theorem readLoop_bounded_witness :
    Progress frameStack
      ∧ (∃ s1, readLoop frameStack ⟨[200, 2, 7, 8, 3], []⟩ (5 + 1)
            (readStart (init 0) ⟨[200, 2, 7, 8, 3], []⟩) = some s1)
      ∧ ∃ t1, readLoop (countReads frameStack) ⟨[200, 2, 7, 8, 3], []⟩ (5 + 1)
            (readStart { m_protStack := (0, 0), m_data := [], m_garbage := [] }
              ⟨[200, 2, 7, 8, 3], []⟩) = some t1
          ∧ t1.m_protStack.2 ≤ 5 + 1
          ∧ t1.m_protStack.2 ≤ 5 :=
  ⟨frameStack_progress,
    readLoop_bounded frameStack frameStack_progress (init 0) ⟨[200, 2, 7, 8, 3], []⟩⟩

/-- A run of the model with the reads counted: five bytes, three reads. -/
theorem countReads_frameStack_example :
    (readLoop (countReads frameStack) ⟨[200, 2, 7, 8, 3], []⟩ 6
        (readStart { m_protStack := (0, 0), m_data := [], m_garbage := [] }
          ⟨[200, 2, 7, 8, 3], []⟩)).map (fun s => (s.m_protStack.2, s.readIterBeg))
      = some (3, 4) := by
  decide

/-! ### The pending-bytes invariant -/

/-- C24 (pending-bytes invariant): after every sequence of ingestion calls on a
fresh object, final or not, the bytes ingested so far are the raw bytes of the
messages returned so far, followed by the garbage buffer, followed by the
accumulation buffer; and after any further call the accumulation buffer holds
exactly the bytes of the buffer the call worked on (the old buffer followed by
the chunk) from the cursor on. -/
theorem pending_bytes (stack : ProtocolStack S M) (stack0 : S)
    (calls : List (DataInfo × Bool)) (fuel : Nat) (msgs : List (MsgEntry M))
    (self1 : ProtocolBase S)
    (h : readAll fuel stack (init stack0) calls = some (msgs, self1)) :
    ingested calls = rawBytes msgs ++ self1.m_garbage ++ self1.m_data
      ∧ ∀ (dataInfo : DataInfo) (final : Bool) (fuel2 : Nat) (out : List (MsgEntry M))
          (self2 : ProtocolBase S),
          readImpl fuel2 stack self1 dataInfo final = some (out, self2) →
          ingested calls ++ dataInfo.m_data
              = rawBytes msgs ++ rawBytes out ++ self2.m_garbage ++ self2.m_data
            ∧ ∃ s2 : ReadState S M,
                s2.m_data = self1.m_data ++ dataInfo.m_data
                  ∧ out = s2.allMsgs
                  ∧ self2.m_garbage = s2.m_garbage
                  ∧ self2.m_data = s2.m_data.drop s2.readIterBeg := by
  have hacc := readAll_accounts fuel stack calls (init stack0) self1 msgs h
  have hinit : ingested calls = rawBytes msgs ++ self1.m_garbage ++ self1.m_data := by
    rw [hacc]
    simp [init]
  refine ⟨hinit, ?_⟩
  intro dataInfo final fuel2 out self2 h2
  have hacc2 := (readImpl_accounts fuel2 stack self1 self2 dataInfo final out h2).1
  refine ⟨?_, ?_⟩
  · rw [hinit]
    simp only [List.append_assoc] at hacc2 ⊢
    rw [hacc2]
  · simp only [readImpl] at h2
    cases hl : readLoop stack dataInfo fuel2 (readStart self1 dataInfo) with
    | none => rw [hl] at h2; cases h2
    | some s1 =>
      rw [hl] at h2
      have hd := (readLoop_pending stack dataInfo fuel2 _ s1 hl).2
      simp only [Option.some.injEq, Prod.mk.injEq] at h2
      obtain ⟨hm, hs⟩ := h2
      subst hm hs
      refine ⟨if final = true then finalFlush dataInfo s1 else s1, ?_, rfl, rfl, rfl⟩
      cases final with
      | false => simpa [readStart] using hd
      | true =>
        simp only [if_true, finalFlush, checkGarbageFunc_m_data]
        simpa [readStart] using hd

theorem pending_bytes_witness :
    readAll 3 frameStack (init 0) [(⟨[200, 2], []⟩, false)]
        = some ([], { m_protStack := 2, m_data := [2], m_garbage := [200] })
      ∧ (ingested [(⟨[200, 2], []⟩, false)]
            = rawBytes ([] : List (MsgEntry (List Byte))) ++ [200] ++ [2]
          ∧ ∀ (dataInfo : DataInfo) (final : Bool) (fuel2 : Nat)
              (out : List (MsgEntry (List Byte))) (self2 : ProtocolBase Nat),
              readImpl fuel2 frameStack { m_protStack := 2, m_data := [2], m_garbage := [200] }
                  dataInfo final = some (out, self2) →
              ingested [(⟨[200, 2], []⟩, false)] ++ dataInfo.m_data
                  = rawBytes ([] : List (MsgEntry (List Byte))) ++ rawBytes out
                      ++ self2.m_garbage ++ self2.m_data
                ∧ ∃ s2 : ReadState Nat (List Byte),
                    s2.m_data = [2] ++ dataInfo.m_data
                      ∧ out = s2.allMsgs
                      ∧ self2.m_garbage = s2.m_garbage
                      ∧ self2.m_data = s2.m_data.drop s2.readIterBeg) :=
  ⟨by decide,
    pending_bytes frameStack 0 [(⟨[200, 2], []⟩, false)] 3 []
      { m_protStack := 2, m_data := [2], m_garbage := [200] } (by decide)⟩

end ProtocolBase

end comms_champion
